import Mathlib

/-!
Verification development for the spec-to-grns apply/resume engine.

The TypeScript source is shallowly embedded: pure helpers become Lean
functions on `String`/`List Char`; the stateful apply/resume pipeline is
embedded as explicit state passing over a world that serves subprocess
outcomes and checkpoint-save outcomes while recording an ordered event
trace (one event per subprocess attempt and per checkpoint-save attempt).
JavaScript builtins (`String.prototype.trim`, `JSON.parse`, ...) are
modelled by Lean functions on the subset of behaviour the engine relies
on; each such model is marked in its doc comment.
-/

namespace SpecToGrns

/-- Model of the JS whitespace class used by `trim` and `\s`. -/
def wsChar (c : Char) : Bool := c.isWhitespace

/-- Helper: drop whitespace from both ends of a character list. -/
def trimData (l : List Char) : List Char :=
  ((l.dropWhile wsChar).reverse.dropWhile wsChar).reverse

/-- Model of `String.prototype.trim`. -/
def jsTrim (s : String) : String := ⟨trimData s.data⟩

/-- Model of `String.prototype.toLowerCase` (ASCII-adequate). -/
def jsToLower (s : String) : String := ⟨s.data.map Char.toLower⟩

/-- Boolean prefix test on character lists. -/
def isPrefixB : List Char → List Char → Bool
  | [], _ => true
  | _ :: _, [] => false
  | a :: as, b :: bs => a = b && isPrefixB as bs

/-- Boolean substring (infix) test on character lists. -/
def isSubB (t : List Char) : List Char → Bool
  | [] => isPrefixB t []
  | c :: s' => isPrefixB t (c :: s') || isSubB t s'

/-- Model of `String.prototype.includes`. -/
def jsIncludes (s t : String) : Bool := isSubB t.data s.data

/-- Model of `String.prototype.startsWith`. -/
def jsStartsWith (s t : String) : Bool := isPrefixB t.data s.data

/-- Model of `String.prototype.endsWith`. -/
def jsEndsWith (s t : String) : Bool := isPrefixB t.data.reverse s.data.reverse

/-- Split on a single separator character (accumulator form); models the JS
`split` with a one-character separator. -/
def splitCharAux (sep : Char) : List Char → List Char → List String
  | [], acc => [⟨acc.reverse⟩]
  | c :: rest, acc =>
    if c = sep then (⟨acc.reverse⟩ : String) :: splitCharAux sep rest []
    else splitCharAux sep rest (c :: acc)

/-- Split a string on a separator character. -/
def splitChar (s : String) (sep : Char) : List String :=
  splitCharAux sep s.data []

/-- Join with a separator string (JS `join(sep)` / the inverse of the split). -/
def joinWith (sep : String) : List String → String
  | [] => ""
  | [x] => x
  | x :: xs => x ++ sep ++ joinWith sep xs

/-- Decimal value of a digit run (JS `parseInt(s, 10)` on `^\d+$` input). -/
def digitsToNat (l : List Char) : Nat :=
  l.foldl (fun acc c => acc * 10 + (c.toNat - '0'.toNat)) 0

/-- The string `t` occurs as a substring of `s`. -/
def strContains (s t : String) : Prop := t.data <:+: s.data

instance (s t : String) : Decidable (strContains s t) := by
  unfold strContains; exact List.decidableInfix _ _

theorem isPrefixB_iff (t s : List Char) : isPrefixB t s = true ↔ t <+: s := by
  induction t generalizing s with
  | nil => simp [isPrefixB]
  | cons a as ih =>
    cases s with
    | nil => simp [isPrefixB]
    | cons b bs =>
      simp [isPrefixB, ih bs, List.cons_prefix_cons]

theorem isSubB_iff (t s : List Char) : isSubB t s = true ↔ t <:+: s := by
  induction s with
  | nil =>
    simp only [isSubB, isPrefixB_iff, List.prefix_nil, List.infix_nil]
  | cons c s' ih =>
    simp only [isSubB, Bool.or_eq_true, isPrefixB_iff, ih]
    constructor
    · rintro (h | h)
      · exact h.isInfix
      · obtain ⟨l, r, hr⟩ := h
        exact ⟨c :: l, r, by simp [hr]⟩
    · rintro ⟨l, r, hr⟩
      cases l with
      | nil => left; exact ⟨r, hr⟩
      | cons x xs =>
        right
        refine ⟨xs, r, ?_⟩
        have := hr
        simp only [List.cons_append] at this
        exact (List.cons.injEq .. ▸ this).2

/-- JS `join("\n")` over a list of lines. -/
def joinLines : List String → String
  | [] => ""
  | [x] => x
  | x :: xs => x ++ "\n" ++ joinLines xs

theorem strContains_of_append_left {a t : String} (b : String)
    (h : strContains a t) : strContains (a ++ b) t := by
  unfold strContains at *
  rw [String.data_append]
  exact h.trans (List.prefix_append a.data b.data).isInfix

theorem strContains_of_append_right {b t : String} (a : String)
    (h : strContains b t) : strContains (a ++ b) t := by
  unfold strContains at *
  rw [String.data_append]
  exact h.trans (List.suffix_append a.data b.data).isInfix

theorem strContains_refl (s : String) : strContains s s := List.infix_rfl

theorem strContains_joinLines :
    ∀ {ls : List String} {l t : String}, l ∈ ls → strContains l t →
      strContains (joinLines ls) t := by
  intro ls
  induction ls with
  | nil => intro l t h; cases h
  | cons x xs ih =>
    intro l t h hc
    cases h with
    | head =>
      cases xs with
      | nil => exact hc
      | cons y ys =>
        exact strContains_of_append_left _ (strContains_of_append_left _ hc)
    | tail _ hmem =>
      cases xs with
      | nil => cases hmem
      | cons y ys =>
        exact strContains_of_append_right _ (ih hmem hc)

/-- JSON value as exchanged with the external task tool. -/
inductive Json where
  | str (s : String)
  | num (n : Int)
  | bool (b : Bool)
  | null
  | arr (xs : List Json)
  | obj (kvs : List (String × Json))

/-- Field access `data.field` on a parsed JSON value (undefined becomes none). -/
def jsGet (j : Json) (k : String) : Option Json :=
  match j with
  | .obj kvs => kvs.lookup k
  | _ => none

/-- The JS check `parsed && typeof parsed === "object"` (arrays pass, null fails). -/
def isJsObject (j : Json) : Bool :=
  match j with
  | .obj _ => true
  | .arr _ => true
  | _ => false

/-- Parse of a flat scalar JSON token (fragment of the JSON.parse model). -/
def parseJsonScalar (s : String) : Except String Json :=
  let t := jsTrim s
  if t = "true" then .ok (.bool true)
  else if t = "false" then .ok (.bool false)
  else if t = "null" then .ok .null
  else if t.data ≠ [] ∧ t.data.all (·.isDigit) then
    .ok (.num (digitsToNat t.data))
  else if t.data.head? = some '"' ∧ t.data.getLast? = some '"' ∧ 2 ≤ t.data.length ∧
      ¬ (t.data.drop 1).dropLast.contains '"' then
    .ok (.str ⟨(t.data.drop 1).dropLast⟩)
  else .error "Unexpected token in JSON"

/-- Parse of one `"key": value` member (fragment of the JSON.parse model). -/
def parseJsonMember (s : String) : Except String (String × Json) :=
  match splitChar s ':' with
  | [] => .error "Unexpected token in JSON"
  | [_] => .error "Unexpected token in JSON"
  | k :: vs =>
    match parseJsonScalar k, parseJsonScalar (joinWith ":" vs) with
    | .ok (.str key), .ok v => .ok (key, v)
    | _, _ => .error "Unexpected token in JSON"

/-- Parse of a comma-separated member list (fragment of the JSON.parse model). -/
def parseJsonMembers : List String → Except String (List (String × Json))
  | [] => .ok []
  | p :: ps =>
    match parseJsonMember p, parseJsonMembers ps with
    | .ok kv, .ok rest => .ok (kv :: rest)
    | .error e, _ => .error e
    | _, .error e => .error e

/-- Modelled from the builtin `JSON.parse`, restricted to the flat objects and
scalars the external tool exchanges with this extension. -/
def parseJsonModel (s : String) : Except String Json :=
  let t := jsTrim s
  if t.data.head? = some '\x7b' ∧ t.data.getLast? = some '\x7d' ∧ 2 ≤ t.data.length then
    let inner : String := ⟨(t.data.drop 1).dropLast⟩
    if jsTrim inner = "" then .ok (.obj [])
    else
      match parseJsonMembers (splitChar inner ',') with
      | .ok kvs => .ok (.obj kvs)
      | .error e => .error e
  else parseJsonScalar s

/-- External-call options mirrored from `RunGrnswOptions`. -/
structure RunGrnswOptions where
  timeoutMs : Option Int := none
  retries : Option Int := none
  retryDelayMs : Option Int := none
  retryOnError : Bool := false
  deriving DecidableEq

/-- Environment configuration read by the timeout/retry resolvers. -/
structure GrnswEnv where
  grnswTimeoutMs : Option String := none
  grnswRetries : Option String := none
  grnswRetryDelayMs : Option String := none
  specReviewer : Option String := none
  user : Option String := none
  deriving DecidableEq

/-- External command invocation shape (`GrnswInvocation`). -/
structure GrnswInvocation where
  command : String
  baseArgs : List String := []
  deriving DecidableEq

def DEFAULT_GRNSW_TIMEOUT_MS : Nat := 30000
def DEFAULT_GRNSW_RETRIES : Nat := 0
def DEFAULT_GRNSW_RETRY_DELAY_MS : Nat := 250
def HEALTH_CHECK_RETRIES : Nat := 2

/-- Mirrors `normalizeNonNegativeInteger` (floor is identity on Int inputs). -/
def normalizeNonNegativeInteger (value : Option Int) : Option Nat :=
  match value with
  | none => none
  | some v => if v < 0 then none else some v.toNat

/-- Mirrors `parseNonNegativeInteger` (trim, `^\d+$`, decimal parse). -/
def parseNonNegativeInteger (value : Option String) : Option Nat :=
  match value with
  | none => none
  | some s =>
    let t := jsTrim s
    if t = "" then none
    else if t.data.all (·.isDigit) then some (digitsToNat t.data)
    else none

/-- Mirrors `resolveGrnswTimeoutMs`. -/
def resolveGrnswTimeoutMs (env : GrnswEnv) (explicit : Option Int) : Nat :=
  match normalizeNonNegativeInteger explicit with
  | some n => n
  | none => (parseNonNegativeInteger env.grnswTimeoutMs).getD DEFAULT_GRNSW_TIMEOUT_MS

/-- Mirrors `resolveGrnswRetries`. -/
def resolveGrnswRetries (env : GrnswEnv) (explicit : Option Int) : Nat :=
  match normalizeNonNegativeInteger explicit with
  | some n => n
  | none => (parseNonNegativeInteger env.grnswRetries).getD DEFAULT_GRNSW_RETRIES

/-- Mirrors `resolveGrnswRetryDelayMs`. -/
def resolveGrnswRetryDelayMs (env : GrnswEnv) (explicit : Option Int) : Nat :=
  match normalizeNonNegativeInteger explicit with
  | some n => n
  | none => (parseNonNegativeInteger env.grnswRetryDelayMs).getD DEFAULT_GRNSW_RETRY_DELAY_MS

/-- Mirrors `withAttemptContext`. -/
def withAttemptContext (message : String) (attempt totalAttempts : Nat) : String :=
  if totalAttempts ≤ 1 then message
  else message ++ " (attempt " ++ toString attempt ++ "/" ++ toString totalAttempts ++ ")"

/-- Result record of one completed subprocess execution (`pi.exec` result). -/
structure ExecResult where
  code : Int
  stdout : String := ""
  stderr : String := ""
  killed : Bool := false
  deriving DecidableEq

/-- Outcome of one `pi.exec` call: a result record, or a thrown transport error. -/
inductive ExecOutcome where
  | res (r : ExecResult)
  | thrown (msg : String)
  deriving DecidableEq

/-- Mirrors `isLikelyTimeoutResult`. -/
def isLikelyTimeoutResult (r : ExecResult) : Bool :=
  r.killed || r.code == 124 ||
    jsIncludes (jsToLower r.stderr) "timed out" || jsIncludes (jsToLower r.stderr) "timeout" ||
    jsIncludes (jsToLower r.stdout) "timed out" || jsIncludes (jsToLower r.stdout) "timeout"

/-- Plan milestone (`MilestonePlan`). -/
structure MilestonePlan where
  title : String
  acceptance : Option String := none
  deriving DecidableEq

/-- Plan phase (`PhasePlan`). -/
structure PhasePlan where
  title : String
  milestones : List MilestonePlan := []
  deriving DecidableEq

/-- Parsed spec plan (`SpecPlan`). -/
structure SpecPlan where
  specPath : String
  epicTitle : String
  phases : List PhasePlan := []
  deriving DecidableEq

/-- Applied milestone record (`AppliedMilestone`). -/
structure AppliedMilestone where
  title : String
  id : String
  validationId : Option String := none
  deriving DecidableEq

/-- Applied phase record (`AppliedPhase`). -/
structure AppliedPhase where
  title : String
  id : String
  dependsOn : Option String := none
  milestones : List AppliedMilestone := []
  deriving DecidableEq

/-- Applied plan returned to the caller (`AppliedPlan`). -/
structure AppliedPlan where
  epicTitle : String
  epicId : String
  phases : List AppliedPhase
  specPath : String
  deriving DecidableEq

/-- Checkpoint status (`ApplyCheckpointStatus`). -/
inductive CheckpointStatus where
  | inProgress
  | failed
  | completed
  deriving DecidableEq

/-- The `applied` sub-record of a checkpoint. -/
structure AppliedRecord where
  epicId : Option String := none
  phases : List AppliedPhase := []
  deriving DecidableEq

/-- Persisted checkpoint (`ApplyCheckpoint`; `version` is the constant 1 and the
wall-clock `createdAt`/`updatedAt` timestamps are outside the model). -/
structure ApplyCheckpoint where
  status : CheckpointStatus
  specPath : String
  epicTitle : String
  priority : Nat
  withValidation : Bool
  reviewer : String
  applied : AppliedRecord
  error : Option String := none
  deriving DecidableEq

/-- Arguments of an apply run (`ParsedArgs`, restricted to the fields the
engine reads). -/
structure ParsedArgs where
  withValidation : Bool := false
  reviewer : Option String := none
  priority : Nat := 1
  deriving DecidableEq

/-- One observable step of an apply/resume run: a subprocess attempt (with the
timeout passed to `pi.exec`, none meaning no timeout option), or a
checkpoint-save attempt (with the state written and whether the write
succeeded). -/
inductive Event where
  | exec (commandArgs : List String) (timeout : Option Nat)
  | save (cp : ApplyCheckpoint) (ok : Bool)
  deriving DecidableEq

/-- World state threaded through the engine: the pending subprocess outcomes,
the pending save outcomes (none = write succeeds, some e = write fails with
error text e), the logical external-tool calls made (one per `runGrnswJson`
invocation), and the recorded event trace. -/
structure W where
  execs : List ExecOutcome := []
  saves : List (Option String) := []
  calls : List (List String) := []
  events : List Event := []
  deriving DecidableEq

/-- Serve the next subprocess outcome and record the attempt. -/
def popExec (w : W) (commandArgs : List String) (timeout : Option Nat) :
    ExecOutcome × W :=
  match w.execs with
  | [] => (.thrown "exec outcome exhausted",
      { w with events := w.events ++ [.exec commandArgs timeout] })
  | o :: rest => (o,
      { w with execs := rest, events := w.events ++ [.exec commandArgs timeout] })

/-- Serve the next save outcome and record the save attempt; mirrors
`trySaveApplyCheckpoint` (mkdir and `updatedAt` refresh are outside the
model). -/
def trySaveApplyCheckpoint (w : W) (cp : ApplyCheckpoint) : Option String × W :=
  match w.saves with
  | [] => (none, { w with events := w.events ++ [.save cp true] })
  | o :: rest => (o,
      { w with saves := rest, events := w.events ++ [.save cp o.isNone] })

/-- Mirrors `saveApplyCheckpointOrThrow`. -/
def saveApplyCheckpointOrThrow (w : W) (checkpointPath : String)
    (cp : ApplyCheckpoint) : Except String Unit × W :=
  match trySaveApplyCheckpoint w cp with
  | (none, w) => (.ok (), w)
  | (some e, w) =>
    (.error ("failed to write apply checkpoint at " ++ checkpointPath ++ ": " ++ e), w)

/-- Mirrors `readStringField`. -/
def readStringField (payload : Json) (field : String) (fallbackError : String) :
    Except String String :=
  match jsGet payload field with
  | some (.str v) => if jsTrim v = "" then .error fallbackError else .ok (jsTrim v)
  | _ => .error fallbackError

/-- The timeout option passed to `pi.exec` for a resolved timeout (the source
passes no timeout option at all when `timeoutMs` is not positive). -/
def execTimeoutOpt (timeoutMs : Nat) : Option Nat :=
  if timeoutMs > 0 then some timeoutMs else none

/-- Attempt loop of `runGrnswJson`; `left` is the number of loop iterations
still permitted (`totalAttempts - attempt + 1`), `attempt` the 1-based
attempt counter used in messages and retry predicates. -/
def runAttempts (commandArgs : List String) (timeoutMs : Nat) (retryOnError : Bool)
    (totalAttempts : Nat) : Nat → Nat → W → Except String Json × W
  | 0, _, w => (.error "grnsw failed after retries", w)
  | left + 1, attempt, w =>
    match popExec w commandArgs (execTimeoutOpt timeoutMs) with
    | (.thrown msg, w) =>
      if attempt < totalAttempts then
        runAttempts commandArgs timeoutMs retryOnError totalAttempts left (attempt + 1) w
      else
        (.error (withAttemptContext ("grnsw invocation failed: " ++ msg)
          attempt totalAttempts), w)
    | (.res r, w) =>
      if r.code ≠ 0 then
        let stderrT := jsTrim r.stderr
        let stdoutT := jsTrim r.stdout
        let timeoutError := isLikelyTimeoutResult r
        let baseError :=
          if timeoutError then "grnsw timed out after " ++ toString timeoutMs ++ "ms"
          else "grnsw failed: " ++
            (if stderrT ≠ "" then stderrT
             else if stdoutT ≠ "" then stdoutT
             else "exit code " ++ toString r.code)
        if attempt < totalAttempts ∧ (timeoutError = true ∨ retryOnError = true) then
          runAttempts commandArgs timeoutMs retryOnError totalAttempts left (attempt + 1) w
        else
          (.error (withAttemptContext baseError attempt totalAttempts), w)
      else
        let stdoutT := jsTrim r.stdout
        if stdoutT = "" then (.ok (.obj []), w)
        else
          match parseJsonModel stdoutT with
          | .ok parsed =>
            if isJsObject parsed then (.ok parsed, w)
            else (.error "invalid grnsw JSON output: grnsw output was not a JSON object", w)
          | .error e => (.error ("invalid grnsw JSON output: " ++ e), w)

/-- Mirrors `runGrnswJson`; records the logical call then runs the attempt
loop (the retry delay is outside the model). -/
def runGrnswJson (env : GrnswEnv) (inv : GrnswInvocation) (args : List String)
    (options : RunGrnswOptions) (w : W) : Except String Json × W :=
  let commandArgs := inv.baseArgs ++ ["--json"] ++ args
  let timeoutMs := resolveGrnswTimeoutMs env options.timeoutMs
  let retries := resolveGrnswRetries env options.retries
  let totalAttempts := retries + 1
  runAttempts commandArgs timeoutMs options.retryOnError totalAttempts totalAttempts 1
    { w with calls := w.calls ++ [args] }

/-- Mirrors `ensureGrnswHealthy`. -/
def ensureGrnswHealthy (env : GrnswEnv) (inv : GrnswInvocation) (w : W) :
    Except String Unit × W :=
  match runGrnswJson env inv ["doctor"]
      { retries := some (HEALTH_CHECK_RETRIES : Int), retryOnError := true } w with
  | (.error e, w) => (.error e, w)
  | (.ok data, w) =>
    match jsGet data "ok" with
    | some (.bool true) => (.ok (), w)
    | _ => (.error "grnsw doctor failed. Check GRNSW_PATH / grns installation.", w)

/-- Counts returned by `countAppliedEntities`. -/
structure EntityCounts where
  phaseCount : Nat
  milestoneCount : Nat
  validationCount : Nat
  deriving DecidableEq

/-- Mirrors `countAppliedEntities`. -/
def countAppliedEntities (phases : List AppliedPhase) : EntityCounts :=
  { phaseCount := phases.length,
    milestoneCount := (phases.map (·.milestones.length)).sum,
    validationCount :=
      (phases.map (fun p => (p.milestones.filter (·.validationId.isSome)).length)).sum }

/-- Mirrors `formatPartialApplyRecovery` (list splice at index 1 becomes an
explicit take/drop). -/
def formatPartialApplyRecovery (checkpointPath : String) (cp : ApplyCheckpoint)
    (checkpointSaveError : Option String := none) : String :=
  let counts := countAppliedEntities cp.applied.phases
  let epicId := cp.applied.epicId.getD "none"
  let base : List String :=
    ["Partial apply detected; some grns entities were created before the failure.",
     "Checkpoint file: " ++ checkpointPath,
     "Created so far: epic=" ++ epicId ++ ", phases=" ++ toString counts.phaseCount ++
       ", milestones=" ++ toString counts.milestoneCount ++
       ", validations=" ++ toString counts.validationCount,
     "Review this checkpoint and existing tasks before retrying to avoid duplicates."]
  let lines :=
    match checkpointSaveError with
    | some e => base.take 1 ++ ["Checkpoint write failed: " ++ e] ++ base.drop 1
    | none => base
  joinLines lines

/-- Replace the `applied.phases` list of a checkpoint. -/
def withPhases (cp : ApplyCheckpoint) (phases : List AppliedPhase) : ApplyCheckpoint :=
  { cp with applied := { cp.applied with phases := phases } }

/-- Shared per-run context for the creation loops (environment, invocation,
run options, checkpoint path, and the run configuration echoed from
args/checkpoint). -/
structure RunCtx where
  env : GrnswEnv
  inv : GrnswInvocation
  runOptions : RunGrnswOptions
  checkpointPath : String
  priority : Nat
  withValidation : Bool
  reviewer : String

/-- Checkpoint snapshot while the apply loops work on phase `cur` (the source
mutates the array the checkpoint aliases; here the snapshot is rebuilt). -/
def snapCp (base : ApplyCheckpoint) (done : List AppliedPhase) (cur : AppliedPhase) :
    ApplyCheckpoint :=
  withPhases base (done ++ [cur])

/-- Validation-task argument vector (`validationArgs` in both engines). -/
def validationCallArgs (title : String) (milestoneId reviewer : String)
    (priority : Nat) (acceptance : Option String) : List String :=
  ["validation", "add", "Validate: " ++ title, "--milestone", milestoneId,
   "--reviewer", reviewer, "--priority", toString priority] ++
  (match acceptance with
   | some a => ["--acceptance", a]
   | none => [])

/-- Milestone-task argument vector. -/
def milestoneCallArgs (title phaseId : String) (priority : Nat) : List String :=
  ["milestone", "add", title, "--phase", phaseId, "--priority", toString priority]

/-- Phase-task argument vector (`phaseArgs` in both engines). -/
def phaseCallArgs (title epicId : String) (priority : Nat)
    (prev : Option String) : List String :=
  ["phase", "add", title, "--epic", epicId, "--priority", toString priority] ++
  (match prev with
   | some p => ["--depends-on", p]
   | none => [])

/-- Epic-creation argument vector. -/
def epicCallArgs (plan : SpecPlan) (priority : Nat) : List String :=
  ["epic", "new", plan.epicTitle, "--priority", toString priority,
    "--spec-id", plan.specPath, "--design", plan.specPath]

/-- Milestone loop of `applyPlan` (source lines 1275-1327): create each
milestone under `cur`, optionally create its validation task, append the
applied record to `cur` and persist the snapshot. -/
def applyMilestones (ctx : RunCtx) (base : ApplyCheckpoint) (done : List AppliedPhase) :
    AppliedPhase → List MilestonePlan → W → Except String Unit × AppliedPhase × W
  | cur, [], w => (.ok (), cur, w)
  | cur, m :: rest, w =>
    match runGrnswJson ctx.env ctx.inv (milestoneCallArgs m.title cur.id ctx.priority)
        ctx.runOptions w with
    | (.error e, w) => (.error e, cur, w)
    | (.ok payload, w) =>
      match readStringField payload "created_id" ("missing milestone id for " ++ m.title) with
      | .error e => (.error e, cur, w)
      | .ok milestoneId =>
        let valStep : Except String (Option String) × W :=
          if ctx.withValidation then
            match runGrnswJson ctx.env ctx.inv
                (validationCallArgs m.title milestoneId ctx.reviewer ctx.priority
                  m.acceptance) ctx.runOptions w with
            | (.error e, w) => (.error e, w)
            | (.ok payload, w) =>
              match readStringField payload "created_id"
                  ("missing validation id for " ++ m.title) with
              | .error e => (.error e, w)
              | .ok vid => (.ok (some vid), w)
          else (.ok none, w)
        match valStep with
        | (.error e, w) => (.error e, cur, w)
        | (.ok validationId, w) =>
          let cur' := { cur with milestones :=
            cur.milestones ++ [{ title := m.title, id := milestoneId, validationId := validationId }] }
          match saveApplyCheckpointOrThrow w ctx.checkpointPath (snapCp base done cur') with
          | (.error e, w) => (.error e, cur', w)
          | (.ok _, w) => applyMilestones ctx base done cur' rest w

/-- Phase loop of `applyPlan` (source lines 1248-1330): create each phase with
the previous phase id as `--depends-on`, persist, then run its milestones. -/
def applyPhases (ctx : RunCtx) (base : ApplyCheckpoint) (epicId : String) :
    List AppliedPhase → Option String → List PhasePlan → W →
      Except String Unit × List AppliedPhase × W
  | done, _, [], w => (.ok (), done, w)
  | done, prev, ph :: rest, w =>
    match runGrnswJson ctx.env ctx.inv (phaseCallArgs ph.title epicId ctx.priority prev)
        ctx.runOptions w with
    | (.error e, w) => (.error e, done, w)
    | (.ok payload, w) =>
      match readStringField payload "created_id" ("missing phase id for " ++ ph.title) with
      | .error e => (.error e, done, w)
      | .ok phaseId =>
        let cur : AppliedPhase :=
          { title := ph.title, id := phaseId, dependsOn := prev, milestones := [] }
        match saveApplyCheckpointOrThrow w ctx.checkpointPath (snapCp base done cur) with
        | (.error e, w) => (.error e, done ++ [cur], w)
        | (.ok _, w) =>
          match applyMilestones ctx base done cur ph.milestones w with
          | (.error e, cur', w) => (.error e, done ++ [cur'], w)
          | (.ok _, cur', w) =>
            applyPhases ctx base epicId (done ++ [cur']) (some phaseId) rest w

/-- Body of `applyPlan`'s `try` block (source lines 1226-1341). -/
def applyPlanBody (ctx : RunCtx) (plan : SpecPlan) (cp0 : ApplyCheckpoint) (w : W) :
    Except String AppliedPlan × ApplyCheckpoint × W :=
  match runGrnswJson ctx.env ctx.inv (epicCallArgs plan ctx.priority)
      ctx.runOptions w with
  | (.error e, w) => (.error e, cp0, w)
  | (.ok payload, w) =>
    match readStringField payload "created_id" "missing epic id from grnsw output" with
    | .error e => (.error e, cp0, w)
    | .ok epicId =>
      let cp1 := { cp0 with applied := { cp0.applied with epicId := some epicId } }
      match saveApplyCheckpointOrThrow w ctx.checkpointPath cp1 with
      | (.error e, w) => (.error e, cp1, w)
      | (.ok _, w) =>
        match applyPhases ctx cp1 epicId [] none plan.phases w with
        | (.error e, phases, w) => (.error e, withPhases cp1 phases, w)
        | (.ok _, phases, w) =>
          let cpDone :=
            { withPhases cp1 phases with status := .completed, error := none }
          let (_, w) := trySaveApplyCheckpoint w cpDone
          (.ok { epicTitle := plan.epicTitle, epicId := epicId, phases := phases, specPath := plan.specPath },
            cpDone, w)

/-- Mirrors `applyPlan`: allocate the in-progress checkpoint, persist it, run
the body, and on any body failure finalize to `failed` and compose the
recovery message (the checkpoint path is passed explicitly; its
timestamp-derived default is outside the model). -/
def applyPlan (env : GrnswEnv) (inv : GrnswInvocation) (plan : SpecPlan)
    (args : ParsedArgs) (checkpointPath : String) (options : RunGrnswOptions)
    (w : W) : Except String AppliedPlan × ApplyCheckpoint × W :=
  let reviewer := (args.reviewer <|> env.specReviewer <|> env.user).getD "reviewer"
  let ctx : RunCtx :=
    { env := env, inv := inv, runOptions := options, checkpointPath := checkpointPath,
      priority := args.priority, withValidation := args.withValidation, reviewer := reviewer }
  let cp0 : ApplyCheckpoint :=
    { status := .inProgress, specPath := plan.specPath, epicTitle := plan.epicTitle,
      priority := args.priority, withValidation := args.withValidation,
      reviewer := reviewer, applied := { epicId := none, phases := [] }, error := none }
  match saveApplyCheckpointOrThrow w checkpointPath cp0 with
  | (.error e, w) => (.error e, cp0, w)
  | (.ok _, w) =>
    match applyPlanBody ctx plan cp0 w with
    | (.ok applied, cp, w) => (.ok applied, cp, w)
    | (.error msg, cpAt, w) =>
      let cpF := { cpAt with status := .failed, error := some msg }
      let (checkpointSaveError, w) := trySaveApplyCheckpoint w cpF
      (.error (msg ++ "\n" ++
        formatPartialApplyRecovery checkpointPath cpF checkpointSaveError), cpF, w)

/-- Mirrors `toAppliedPlanFromCheckpoint`. -/
def toAppliedPlanFromCheckpoint (cp : ApplyCheckpoint) (plan : SpecPlan) :
    Except String AppliedPlan :=
  match cp.applied.epicId with
  | none => .error "Checkpoint does not contain an epic id yet."
  | some epicId =>
    .ok { epicTitle := plan.epicTitle, epicId := epicId,
          phases := cp.applied.phases, specPath := cp.specPath }

/-- Milestone sub-loop of `assertCheckpointMatchesPlan` (the planned milestones
are indexed by the running counter `j`). -/
def assertMilestoneLoop (phaseTitle : String) (pms : List MilestonePlan) :
    List AppliedMilestone → Nat → Except String Unit
  | [], _ => .ok ()
  | am :: rest, j =>
    match pms.get? j with
    | none =>
      .error ("Checkpoint milestone '" ++ am.title ++
        "' has no matching milestone in current spec phase '" ++ phaseTitle ++ "'.")
    | some pm =>
      if am.title ≠ pm.title then
        .error ("Checkpoint milestone mismatch in phase '" ++ phaseTitle ++
          "' at index " ++ toString (j + 1) ++ ": '" ++ am.title ++ "' vs '" ++
          pm.title ++ "'.")
      else assertMilestoneLoop phaseTitle pms rest (j + 1)

/-- Phase loop of `assertCheckpointMatchesPlan`. -/
def assertPhaseLoop (planPhases : List PhasePlan) :
    List AppliedPhase → Nat → Except String Unit
  | [], _ => .ok ()
  | ap :: rest, idx =>
    match planPhases.get? idx with
    | none =>
      .error ("Checkpoint phase " ++ toString (idx + 1) ++
        " has no matching phase in current spec.")
    | some pp =>
      if ap.title ≠ pp.title then
        .error ("Checkpoint phase mismatch at index " ++ toString (idx + 1) ++ ": '" ++
          ap.title ++ "' vs '" ++ pp.title ++ "'.")
      else if ap.milestones.length > pp.milestones.length then
        .error ("Checkpoint phase '" ++ ap.title ++
          "' has more milestones than current spec.")
      else
        match assertMilestoneLoop ap.title pp.milestones ap.milestones 0 with
        | .error e => .error e
        | .ok _ => assertPhaseLoop planPhases rest (idx + 1)

/-- Mirrors `assertCheckpointMatchesPlan`. -/
def assertCheckpointMatchesPlan (cp : ApplyCheckpoint) (plan : SpecPlan) :
    Except String Unit :=
  if cp.specPath ≠ plan.specPath then
    .error ("Checkpoint spec path mismatch. Checkpoint: " ++ cp.specPath ++
      ", plan: " ++ plan.specPath)
  else if cp.epicTitle ≠ plan.epicTitle then
    .error ("Checkpoint epic title mismatch. Checkpoint: '" ++ cp.epicTitle ++
      "', plan: '" ++ plan.epicTitle ++ "'. The spec changed since apply started.")
  else if cp.applied.phases.length > plan.phases.length then
    .error "Checkpoint has more phases than current spec plan."
  else
    match assertPhaseLoop plan.phases cp.applied.phases 0 with
    | .error e => .error e
    | .ok _ =>
      if cp.applied.phases.length > 0 ∧ cp.applied.epicId = none then
        .error "Checkpoint is inconsistent: phases exist but epic id is missing."
      else .ok ()

/-- Checkpoint snapshot while the resume loops work at phase position
`done.length`: the phases array is `done ++ [cur] ++ pend` (the source indexes
and mutates one array; the zipper makes the indexing explicit). -/
def resumeSnap (base : ApplyCheckpoint) (done : List AppliedPhase)
    (cur : AppliedPhase) (pend : List AppliedPhase) : ApplyCheckpoint :=
  withPhases base (done ++ [cur] ++ pend)

/-- Validation step shared by both milestone branches of `resumePlan` (source
lines 1473-1496): when validation is on and the milestone has none, create it
and persist. -/
def resumeValidationStep (ctx : RunCtx) (base : ApplyCheckpoint)
    (done : List AppliedPhase) (pend : List AppliedPhase) (curT curId : String)
    (curDep : Option String) (mdone : List AppliedMilestone)
    (mtail : List AppliedMilestone) (pm : MilestonePlan) (am : AppliedMilestone)
    (w : W) : Except String Unit × AppliedMilestone × W :=
  if ctx.withValidation ∧ am.validationId = none then
    match runGrnswJson ctx.env ctx.inv
        (validationCallArgs pm.title am.id ctx.reviewer ctx.priority pm.acceptance)
        ctx.runOptions w with
    | (.error e, w) => (.error e, am, w)
    | (.ok payload, w) =>
      match readStringField payload "created_id"
          ("missing validation id for " ++ pm.title) with
      | .error e => (.error e, am, w)
      | .ok vid =>
        let am' := { am with validationId := some vid }
        match saveApplyCheckpointOrThrow w ctx.checkpointPath
            (resumeSnap base done
              { title := curT, id := curId, dependsOn := curDep,
                milestones := mdone ++ [am'] ++ mtail } pend) with
        | (.error e, w) => (.error e, am', w)
        | (.ok _, w) => (.ok (), am', w)
  else (.ok (), am, w)

/-- Milestone loop of `resumePlan` (source lines 1435-1497): existing
milestones are title-checked and kept; missing ones are created and persisted;
each then passes the shared validation step. -/
def resumeMilestones (ctx : RunCtx) (base : ApplyCheckpoint)
    (done : List AppliedPhase) (pend : List AppliedPhase) (curT curId : String)
    (curDep : Option String) :
    List AppliedMilestone → List AppliedMilestone → List MilestonePlan → W →
      Except String Unit × List AppliedMilestone × W
  | mdone, mpend, [], w => (.ok (), mdone ++ mpend, w)
  | mdone, am :: mtail, pm :: prest, w =>
    if am.title ≠ pm.title then
      (.error ("checkpoint mismatch in phase '" ++ curT ++ "' milestone " ++
        toString (mdone.length + 1) ++ ": '" ++ am.title ++ "' vs '" ++
        pm.title ++ "'"), mdone ++ am :: mtail, w)
    else
      match resumeValidationStep ctx base done pend curT curId curDep mdone mtail
          pm am w with
      | (.error e, am', w) => (.error e, mdone ++ am' :: mtail, w)
      | (.ok _, am', w) =>
        resumeMilestones ctx base done pend curT curId curDep (mdone ++ [am']) mtail
          prest w
  | mdone, [], pm :: prest, w =>
    match runGrnswJson ctx.env ctx.inv (milestoneCallArgs pm.title curId ctx.priority)
        ctx.runOptions w with
    | (.error e, w) => (.error e, mdone, w)
    | (.ok payload, w) =>
      match readStringField payload "created_id"
          ("missing milestone id for " ++ pm.title) with
      | .error e => (.error e, mdone, w)
      | .ok mid =>
        let am : AppliedMilestone := { title := pm.title, id := mid, validationId := none }
        match saveApplyCheckpointOrThrow w ctx.checkpointPath
            (resumeSnap base done
              { title := curT, id := curId, dependsOn := curDep,
                milestones := mdone ++ [am] } pend) with
        | (.error e, w) => (.error e, mdone ++ [am], w)
        | (.ok _, w) =>
          match resumeValidationStep ctx base done pend curT curId curDep mdone []
              pm am w with
          | (.error e, am', w) => (.error e, mdone ++ [am'], w)
          | (.ok _, am', w) =>
            resumeMilestones ctx base done pend curT curId curDep (mdone ++ [am']) []
              prest w

/-- Phase loop of `resumePlan` (source lines 1398-1508): existing phases are
title-checked and their milestones reconciled; missing phases are created with
the previous phase id as `--depends-on`; the trailing length checks mirror the
source's post-loop guards. -/
def resumePhases (ctx : RunCtx) (base : ApplyCheckpoint) (epicId : String) :
    List AppliedPhase → List AppliedPhase → Option String → List PhasePlan → W →
      Except String Unit × List AppliedPhase × W
  | done, pend, _, [], w =>
    match pend with
    | [] => (.ok (), done, w)
    | _ => (.error "checkpoint has extra phases not in current spec", done ++ pend, w)
  | done, ap :: ptail, _prev, pp :: prest, w =>
    if ap.title ≠ pp.title then
      (.error ("checkpoint mismatch at phase " ++ toString (done.length + 1) ++
        ": '" ++ ap.title ++ "' vs '" ++ pp.title ++ "'"), done ++ ap :: ptail, w)
    else
      match resumeMilestones ctx base done ptail ap.title ap.id ap.dependsOn []
          ap.milestones pp.milestones w with
      | (.error e, ms, w) =>
        (.error e, done ++ { ap with milestones := ms } :: ptail, w)
      | (.ok _, ms, w) =>
        if ms.length > pp.milestones.length then
          (.error ("checkpoint phase '" ++ ap.title ++
            "' has extra milestones not in current spec"),
            done ++ { ap with milestones := ms } :: ptail, w)
        else
          resumePhases ctx base epicId (done ++ [{ ap with milestones := ms }]) ptail
            (some ap.id) prest w
  | done, [], prev, pp :: prest, w =>
    match runGrnswJson ctx.env ctx.inv (phaseCallArgs pp.title epicId ctx.priority prev)
        ctx.runOptions w with
    | (.error e, w) => (.error e, done, w)
    | (.ok payload, w) =>
      match readStringField payload "created_id" ("missing phase id for " ++ pp.title) with
      | .error e => (.error e, done, w)
      | .ok pid =>
        let ap : AppliedPhase :=
          { title := pp.title, id := pid, dependsOn := prev, milestones := [] }
        match saveApplyCheckpointOrThrow w ctx.checkpointPath
            (resumeSnap base done ap []) with
        | (.error e, w) => (.error e, done ++ [ap], w)
        | (.ok _, w) =>
          match resumeMilestones ctx base done [] ap.title pid prev [] []
              pp.milestones w with
          | (.error e, ms, w) => (.error e, done ++ [{ ap with milestones := ms }], w)
          | (.ok _, ms, w) =>
            if ms.length > pp.milestones.length then
              (.error ("checkpoint phase '" ++ ap.title ++
                "' has extra milestones not in current spec"),
                done ++ [{ ap with milestones := ms }], w)
            else
              resumePhases ctx base epicId (done ++ [{ ap with milestones := ms }]) []
                (some pid) prest w

/-- Body of `resumePlan`'s `try` block (source lines 1371-1514); the dead
post-branch recheck of the epic id (both branches yield a nonempty id) is
elided. -/
def resumePlanBody (ctx : RunCtx) (plan : SpecPlan) (cp1 : ApplyCheckpoint) (w : W) :
    Except String AppliedPlan × ApplyCheckpoint × W :=
  let phasesStep : Except String String × ApplyCheckpoint × W :=
    match cp1.applied.epicId with
    | some eid => (.ok eid, cp1, w)
    | none =>
      match runGrnswJson ctx.env ctx.inv (epicCallArgs plan ctx.priority)
          ctx.runOptions w with
      | (.error e, w) => (.error e, cp1, w)
      | (.ok payload, w) =>
        match readStringField payload "created_id" "missing epic id from grnsw output" with
        | .error e => (.error e, cp1, w)
        | .ok eid =>
          let cp2 := { cp1 with applied := { cp1.applied with epicId := some eid } }
          match saveApplyCheckpointOrThrow w ctx.checkpointPath cp2 with
          | (.error e, w) => (.error e, cp2, w)
          | (.ok _, w) => (.ok eid, cp2, w)
  match phasesStep with
  | (.error e, cp, w) => (.error e, cp, w)
  | (.ok eid, cp2, w) =>
    match resumePhases ctx cp2 eid [] cp2.applied.phases none plan.phases w with
    | (.error e, phases, w) => (.error e, withPhases cp2 phases, w)
    | (.ok _, phases, w) =>
      let cpDone := { withPhases cp2 phases with status := .completed, error := none }
      let (_, w) := trySaveApplyCheckpoint w cpDone
      match toAppliedPlanFromCheckpoint cpDone plan with
      | .error e => (.error e, cpDone, w)
      | .ok applied => (.ok applied, cpDone, w)

/-- Mirrors `resumePlan`: structural check, reset to in-progress, persist, run
the body, and on any body failure finalize to `failed` and compose the same
recovery message as apply. -/
def resumePlan (env : GrnswEnv) (inv : GrnswInvocation) (plan : SpecPlan)
    (cp : ApplyCheckpoint) (checkpointPath : String) (options : RunGrnswOptions)
    (w : W) : Except String AppliedPlan × ApplyCheckpoint × W :=
  match assertCheckpointMatchesPlan cp plan with
  | .error e => (.error e, cp, w)
  | .ok _ =>
    let ctx : RunCtx :=
      { env := env, inv := inv, runOptions := options,
        checkpointPath := checkpointPath, priority := cp.priority,
        withValidation := cp.withValidation, reviewer := cp.reviewer }
    let cp1 := { cp with status := CheckpointStatus.inProgress, error := none }
    match saveApplyCheckpointOrThrow w checkpointPath cp1 with
    | (.error e, w) => (.error e, cp1, w)
    | (.ok _, w) =>
      match resumePlanBody ctx plan cp1 w with
      | (.ok applied, cpE, w) => (.ok applied, cpE, w)
      | (.error msg, cpAt, w) =>
        let cpF := { cpAt with status := CheckpointStatus.failed, error := some msg }
        let (checkpointSaveError, w) := trySaveApplyCheckpoint w cpF
        (.error (msg ++ "\n" ++
          formatPartialApplyRecovery checkpointPath cpF checkpointSaveError), cpF, w)

/-- Model of the `/spec-to-grns-resume` handler from the structural check on
(source lines 240-283): assert, completed no-op, reviewer override, health
check, then `resumePlan`. -/
def resumeHandlerRun (env : GrnswEnv) (inv : GrnswInvocation) (plan : SpecPlan)
    (cp : ApplyCheckpoint) (checkpointPath : String)
    (reviewerOverride : Option String) (options : RunGrnswOptions) (w : W) :
    Except String AppliedPlan × ApplyCheckpoint × W :=
  match assertCheckpointMatchesPlan cp plan with
  | .error e => (.error e, cp, w)
  | .ok _ =>
    if cp.status = CheckpointStatus.completed then
      match toAppliedPlanFromCheckpoint cp plan with
      | .error e => (.error e, cp, w)
      | .ok applied => (.ok applied, cp, w)
    else
      let reviewer := reviewerOverride.getD cp.reviewer
      let cp := if reviewer ≠ cp.reviewer then { cp with reviewer := reviewer } else cp
      match ensureGrnswHealthy env inv w with
      | (.error e, w) => (.error e, cp, w)
      | (.ok _, w) => resumePlan env inv plan cp checkpointPath options w

/-- Mirrors `readRequiredString` (undefined fields arrive as `none`). -/
def readRequiredString (value : Option Json) (field checkpointPath : String) :
    Except String String :=
  match value with
  | some (.str s) =>
    if jsTrim s = "" then
      .error ("Invalid checkpoint field '" ++ field ++ "' in " ++ checkpointPath)
    else .ok (jsTrim s)
  | _ => .error ("Invalid checkpoint field '" ++ field ++ "' in " ++ checkpointPath)

/-- Mirrors `readRequiredBoolean`. -/
def readRequiredBoolean (value : Option Json) (field checkpointPath : String) :
    Except String Bool :=
  match value with
  | some (.bool b) => .ok b
  | _ => .error ("Invalid checkpoint field '" ++ field ++ "' in " ++ checkpointPath)

/-- Mirrors `readRequiredPriority` (model numbers are integers, so the
`Number.isInteger` test is always met). -/
def readRequiredPriority (value : Option Json) (checkpointPath : String) :
    Except String Nat :=
  match value with
  | some (.num n) =>
    if 0 ≤ n ∧ n ≤ 4 then .ok n.toNat
    else .error ("Invalid checkpoint field 'priority' in " ++ checkpointPath)
  | _ => .error ("Invalid checkpoint field 'priority' in " ++ checkpointPath)

/-- Optional trimmed-string field (`epicId`, `dependsOn`, `validationId`,
`error` are kept only when a nonempty string). -/
def optTrimmedString (value : Option Json) : Option String :=
  match value with
  | some (.str s) => if jsTrim s = "" then none else some (jsTrim s)
  | _ => none

/-- Milestone element of `loadApplyCheckpoint` (source lines 808-833). -/
def loadAppliedMilestone (checkpointPath : String) (phaseIndex milestoneIndex : Nat)
    (j : Json) : Except String AppliedMilestone :=
  if isJsObject j then do
    let fieldBase := "phases[" ++ toString phaseIndex ++ "].milestones[" ++
      toString milestoneIndex ++ "]"
    let title ← readRequiredString (jsGet j "title") (fieldBase ++ ".title") checkpointPath
    let id ← readRequiredString (jsGet j "id") (fieldBase ++ ".id") checkpointPath
    .ok { title := title, id := id, validationId := optTrimmedString (jsGet j "validationId") }
  else
    .error ("Invalid checkpoint milestone at phase " ++ toString phaseIndex ++
      ", index " ++ toString milestoneIndex ++ " in " ++ checkpointPath)

/-- Milestone-array fold of `loadApplyCheckpoint`. -/
def loadAppliedMilestones (checkpointPath : String) (phaseIndex : Nat) :
    Nat → List Json → Except String (List AppliedMilestone)
  | _, [] => .ok []
  | i, j :: rest => do
    let m ← loadAppliedMilestone checkpointPath phaseIndex i j
    let ms ← loadAppliedMilestones checkpointPath phaseIndex (i + 1) rest
    .ok (m :: ms)

/-- Phase element of `loadApplyCheckpoint` (source lines 794-841). -/
def loadAppliedPhase (checkpointPath : String) (phaseIndex : Nat) (j : Json) :
    Except String AppliedPhase :=
  if isJsObject j then do
    let title ← readRequiredString (jsGet j "title")
      ("phases[" ++ toString phaseIndex ++ "].title") checkpointPath
    let id ← readRequiredString (jsGet j "id")
      ("phases[" ++ toString phaseIndex ++ "].id") checkpointPath
    let dependsOn := optTrimmedString (jsGet j "dependsOn")
    match jsGet j "milestones" with
    | some (.arr ms) => do
      let milestones ← loadAppliedMilestones checkpointPath phaseIndex 0 ms
      .ok { title := title, id := id, dependsOn := dependsOn, milestones := milestones }
    | _ =>
      .error ("Invalid checkpoint milestones for phase " ++ toString phaseIndex ++
        " in " ++ checkpointPath)
  else
    .error ("Invalid checkpoint phase at index " ++ toString phaseIndex ++ " in " ++
      checkpointPath)

/-- Phase-array fold of `loadApplyCheckpoint`. -/
def loadAppliedPhases (checkpointPath : String) :
    Nat → List Json → Except String (List AppliedPhase)
  | _, [] => .ok []
  | i, j :: rest => do
    let p ← loadAppliedPhase checkpointPath i j
    let ps ← loadAppliedPhases checkpointPath (i + 1) rest
    .ok (p :: ps)

/-- Mirrors `loadApplyCheckpoint`; the file's text and its `JSON.parse` are
modelled as an `Except String Json` content value (error = parse failure
message); `createdAt`/`updatedAt` are validated and then dropped, since
timestamps are outside the model. -/
def loadApplyCheckpoint (checkpointPath : String) (content : Except String Json) :
    Except String ApplyCheckpoint :=
  match content with
  | .error e => .error ("Invalid checkpoint JSON at " ++ checkpointPath ++ ": " ++ e)
  | .ok j =>
    if ¬ isJsObject j then
      .error ("Invalid checkpoint payload at " ++ checkpointPath ++ ": expected object")
    else
      match jsGet j "version" with
      | some (.num 1) =>
        ((match jsGet j "status" with
         | some (.str "in-progress") => .ok CheckpointStatus.inProgress
         | some (.str "failed") => .ok CheckpointStatus.failed
         | some (.str "completed") => .ok CheckpointStatus.completed
         | _ => .error ("Invalid checkpoint status in " ++ checkpointPath) :
          Except String CheckpointStatus)).bind
        fun status => do
          let specPath ← readRequiredString (jsGet j "specPath") "specPath" checkpointPath
          let epicTitle ← readRequiredString (jsGet j "epicTitle") "epicTitle" checkpointPath
          let reviewer ← readRequiredString (jsGet j "reviewer") "reviewer" checkpointPath
          let priority ← readRequiredPriority (jsGet j "priority") checkpointPath
          let withValidation ← readRequiredBoolean (jsGet j "withValidation")
            "withValidation" checkpointPath
          let _ ← readRequiredString (jsGet j "createdAt") "createdAt" checkpointPath
          let _ ← readRequiredString (jsGet j "updatedAt") "updatedAt" checkpointPath
          match jsGet j "applied" with
          | some applied =>
            if ¬ isJsObject applied then
              .error ("Invalid checkpoint applied payload in " ++ checkpointPath)
            else do
              let epicId := optTrimmedString (jsGet applied "epicId")
              match jsGet applied "phases" with
              | some (.arr phasesRaw) => do
                let phases ← loadAppliedPhases checkpointPath 0 phasesRaw
                if epicId = none ∧ phases ≠ [] then
                  .error ("Checkpoint is inconsistent (" ++ checkpointPath ++
                    "): phases exist but epic id is missing")
                else
                  .ok { status := status, specPath := specPath, epicTitle := epicTitle,
                        priority := priority, withValidation := withValidation,
                        reviewer := reviewer,
                        applied := { epicId := epicId, phases := phases },
                        error := optTrimmedString (jsGet j "error") }
              | _ => .error ("Invalid checkpoint phases array in " ++ checkpointPath)
          | none => .error ("Invalid checkpoint applied payload in " ++ checkpointPath)
      | _ => .error ("Unsupported checkpoint version in " ++ checkpointPath)

/-- Listing status (`CheckpointListStatus`). -/
inductive ListStatus where
  | inProgress
  | failed
  | completed
  | invalid
  deriving DecidableEq

/-- Checkpoint status as a listing status. -/
def statusToListStatus : CheckpointStatus → ListStatus
  | .inProgress => .inProgress
  | .failed => .failed
  | .completed => .completed

/-- A file of the checkpoints directory: its name, whether `stat` reports a
regular file, its modification time, and its parsed content (the read +
`JSON.parse` oracle). -/
structure DirFile where
  fileName : String
  isFile : Bool := true
  mtimeMs : Int
  content : Except String Json := .error "empty"

/-- Listing entry (`CheckpointListEntry`; the display-only `updatedAt` echo is
outside the model). -/
structure CheckpointListEntry where
  path : String
  fileName : String
  status : ListStatus
  mtimeMs : Int
  specPath : Option String := none
  epicTitle : Option String := none
  reviewer : Option String := none
  priority : Option Nat := none
  withValidation : Option Bool := none
  error : Option String := none
  deriving DecidableEq

/-- Mirrors `getCheckpointDir`. -/
def getCheckpointDir (cwd : String) : String :=
  cwd ++ "/.pi/spec-to-grns/checkpoints"

/-- Per-file step of `listApplyCheckpoints`: skip non-json names and
non-files, report failed loads as `invalid` entries. -/
def checkpointEntryOfFile (checkpointsDir : String) (f : DirFile) :
    Option CheckpointListEntry :=
  if ¬ jsEndsWith (jsToLower f.fileName) ".json" then none
  else if ¬ f.isFile then none
  else
    let fullPath := checkpointsDir ++ "/" ++ f.fileName
    match loadApplyCheckpoint fullPath f.content with
    | .ok cp =>
      some { path := fullPath, fileName := f.fileName,
             status := statusToListStatus cp.status, mtimeMs := f.mtimeMs,
             specPath := some cp.specPath, epicTitle := some cp.epicTitle,
             reviewer := some cp.reviewer, priority := some cp.priority,
             withValidation := some cp.withValidation, error := cp.error }
    | .error e =>
      some { path := fullPath, fileName := f.fileName, status := ListStatus.invalid,
             mtimeMs := f.mtimeMs, error := some e }

/-- Comparator of the listing sort: most recent first (the JS comparator
`b.mtimeMs - a.mtimeMs` under a stable sort). -/
def newestFirst (a b : CheckpointListEntry) : Bool :=
  b.mtimeMs ≤ a.mtimeMs

/-- Stable insertion into a newest-first-sorted list: the new entry goes
after every strictly newer entry and before ties (JS `sort` is stable). -/
def insertNewest (e : CheckpointListEntry) :
    List CheckpointListEntry → List CheckpointListEntry
  | [] => [e]
  | x :: rest =>
    if e.mtimeMs < x.mtimeMs then x :: insertNewest e rest else e :: x :: rest

/-- Model of the stable JS `entries.sort((a, b) => b.mtimeMs - a.mtimeMs)`. -/
def sortNewest : List CheckpointListEntry → List CheckpointListEntry
  | [] => []
  | e :: rest => insertNewest e (sortNewest rest)

/-- Mirrors `listApplyCheckpoints` over the given directory contents (the
directory-missing case is the empty file list). -/
def listApplyCheckpoints (cwd : String) (files : List DirFile) :
    List CheckpointListEntry :=
  sortNewest (files.filterMap (checkpointEntryOfFile (getCheckpointDir cwd)))

/-- An entry resumable by `resolveResumeCheckpointPath`. -/
def isResumableEntry (e : CheckpointListEntry) : Bool :=
  e.status = ListStatus.failed || e.status = ListStatus.inProgress

/-- Mirrors the no-explicit-path branch of `resolveResumeCheckpointPath` (an
explicit path only round-trips through the file system). -/
def resolveResumeCheckpointPath (cwd : String) (files : List DirFile)
    (hasUI : Bool) : Except String String :=
  let entries := listApplyCheckpoints cwd files
  if entries.length = 0 then
    .error (if hasUI then "No checkpoints found. Run /spec-to-grns --apply first."
      else "No checkpoint directory found at " ++ getCheckpointDir cwd)
  else
    match entries.find? isResumableEntry with
    | none => .error "No resumable checkpoint found (all checkpoints are completed or invalid)."
    | some e => .ok e.path

/-- JS word character (`\w` = `[A-Za-z0-9_]`). -/
def isWordChar (c : Char) : Bool := c.isAlphanum || c = '_'

/-- A markup character removed by the normalizers (`[`*_]` classes). -/
def isMarkupChar (c : Char) : Bool := c = '`' ∨ c = '*' ∨ c = '_'

/-- Mirrors `parseHeading` (regex `^(#{1,6})\s+(.+?)\s*$` on the trimmed
line). -/
def parseHeading (line : String) : Option (Nat × String) :=
  let t := trimData line.data
  let hashes := (t.takeWhile (· = '#')).length
  if 1 ≤ hashes ∧ hashes ≤ 6 then
    match t.drop hashes with
    | [] => none
    | c :: rest =>
      if wsChar c then
        let title := trimData rest
        if title = [] then none else some (hashes, ⟨title⟩)
      else none
  else none

/-- Whitespace-separated tokens of a character list (accumulator form). -/
def wsTokensAux : List Char → List Char → List (List Char)
  | [], acc => if acc = [] then [] else [acc.reverse]
  | c :: rest, acc =>
    if wsChar c then
      (if acc = [] then wsTokensAux rest [] else acc.reverse :: wsTokensAux rest [])
    else wsTokensAux rest (c :: acc)

/-- Single-space join of character-list tokens. -/
def intercalateSpace : List (List Char) → List Char
  | [] => []
  | [t] => t
  | t :: ts => t ++ ' ' :: intercalateSpace ts

/-- Mirrors `normalizeSpecHeading` (lowercase, strip markup and colons,
collapse whitespace, trim). -/
def normalizeSpecHeading (title : String) : String :=
  let l := (title.data.map Char.toLower).filter (fun c => ¬ isMarkupChar c)
  let l := l.filter (fun c => ¬ (c = ':' ∨ c = '：'))
  ⟨intercalateSpace (wsTokensAux l [])⟩

/-- Mirrors `STRUCTURAL_SPEC_HEADINGS`. -/
def STRUCTURAL_SPEC_HEADINGS : List String :=
  ["abstract", "rationale", "specification", "further information",
   "implementation plan", "testing plan", "documentation plan"]

/-- Mirrors `isStructuralSpecHeading`. -/
def isStructuralSpecHeading (title : String) : Bool :=
  STRUCTURAL_SPEC_HEADINGS.contains (normalizeSpecHeading title)

/-- Lowercase roman-numeral letter. -/
def isRomanLower (c : Char) : Bool :=
  c = 'i' ∨ c = 'v' ∨ c = 'x' ∨ c = 'l' ∨ c = 'c' ∨ c = 'd' ∨ c = 'm'

/-- Strip of the leading-ordinal regex `^(?:\d+|[ivxlcdm]+)\s*[.)]\s*` (the
digit branch is tried first, as in regex alternation; maximal runs suffice
because a shorter run would leave a run character where `[.)]` is needed). -/
def stripOrdinalPrefix (l : List Char) : List Char :=
  let tryBranch : Nat → Option (List Char) := fun count =>
    if count = 0 then none
    else
      match (l.drop count).dropWhile wsChar with
      | '.' :: r2 => some (r2.dropWhile wsChar)
      | ')' :: r2 => some (r2.dropWhile wsChar)
      | _ => none
  match tryBranch (l.takeWhile (·.isDigit)).length with
  | some r => r
  | none =>
    match tryBranch (l.takeWhile isRomanLower).length with
    | some r => r
    | none => l

/-- Head of a character list is whitespace. -/
def headIsWs (l : List Char) : Bool :=
  match l.head? with
  | some d => wsChar d
  | none => false

/-- Word boundary after position `n`: end of input or a non-word character. -/
def boundaryAfter (l : List Char) (n : Nat) : Bool :=
  match (l.drop n).head? with
  | none => true
  | some c => ¬ isWordChar c

/-- The regex `^phase\s+\d+\s+acceptance criteria\b` (case handled by the
caller's normalization). -/
def phaseAcceptanceTest (l : List Char) : Bool :=
  if ¬ isPrefixB "phase".data l then false
  else
    let r1 := l.drop 5
    if (r1.takeWhile wsChar).length = 0 then false
    else
      let r2 := r1.dropWhile wsChar
      let ds := r2.takeWhile (·.isDigit)
      if ds.length = 0 then false
      else
        let r3 := r2.drop ds.length
        if (r3.takeWhile wsChar).length = 0 then false
        else
          let r4 := r3.dropWhile wsChar
          if ¬ isPrefixB "acceptance criteria".data r4 then false
          else
            match (r4.drop "acceptance criteria".length).head? with
            | none => true
            | some c => ¬ isWordChar c

/-- Mirrors `isPhaseHeading`. -/
def isPhaseHeading (title : String) : Bool :=
  let normalized := normalizeSpecHeading title
  let withoutPre := stripOrdinalPrefix normalized.data
  if ¬ isPrefixB "phase".data withoutPre then false
  else if isPrefixB "phase and milestone".data withoutPre then false
  else if phaseAcceptanceTest withoutPre then false
  else true

/-- Mirrors `isMilestoneHeading` (regex
`^(?:(?:\d+|[ivxlcdm]+)\s*[.)]\s*)?milestone\b` with the `i` flag, on the
trimmed title; handled by lowercasing first). -/
def isMilestoneHeading (title : String) : Bool :=
  let t := (trimData title.data).map Char.toLower
  let withoutPre := stripOrdinalPrefix t
  isPrefixB "milestone".data withoutPre &&
    boundaryAfter withoutPre ("milestone".length)

/-- Strip of the checkbox regex `^\[[ xX]\]\s*`. -/
def stripCheckbox (l : List Char) : List Char :=
  match l with
  | '[' :: k :: ']' :: rest =>
    if k = ' ' ∨ k = 'x' ∨ k = 'X' then rest.dropWhile wsChar else l
  | _ => l

/-- Strip of the bold wrappers: `^(?:\*\*|__)\s*` then `\s*(?:\*\*|__)\s*$`. -/
def stripBoldWrap (l : List Char) : List Char :=
  let l1 :=
    if isPrefixB "**".data l ∨ isPrefixB "__".data l then (l.drop 2).dropWhile wsChar
    else l
  let r := l1.reverse
  let r1 := r.dropWhile wsChar
  if isPrefixB "**".data r1 ∨ isPrefixB "__".data r1 then
    ((r1.drop 2).dropWhile wsChar).reverse
  else l1

/-- Mirrors `parseMilestoneBullet` (the `(?!s\b)` lookahead of the source
regex is subsumed by the trailing `\b`: a following `s` is a word character
either way). -/
def parseMilestoneBullet (line : String) : Option String :=
  let t := trimData line.data
  match t with
  | [] => none
  | c :: rest =>
    if (c = '-' ∨ c = '*') ∧ headIsWs rest = true then
      let body0 := rest.dropWhile wsChar
      let body1 := stripBoldWrap (stripCheckbox body0)
      let body := trimData (body1.filter (fun ch => ¬ isMarkupChar ch))
      if body = [] then none
      else
        let lower := body.map Char.toLower
        let mNum : Bool :=
          match lower with
          | 'm' :: r =>
            let ds := r.takeWhile (·.isDigit)
            ds.length != 0 && boundaryAfter r ds.length
          | _ => false
        let milestoneWord : Bool :=
          isPrefixB "milestone".data lower &&
            boundaryAfter lower ("milestone".length)
        if mNum then some ⟨body⟩
        else if milestoneWord then some ⟨body⟩
        else none
    else none

/-- The bold-line test `^\*\*.+\*\*$` of the acceptance scanner. -/
def boldLineTest (l : String) : Bool :=
  isPrefixB "**".data l.data && isPrefixB "**".data l.data.reverse &&
    5 ≤ l.data.length

/-- The bullet test `^[-*]\s+` of the acceptance scanner. -/
def bulletStart (l : String) : Bool :=
  match l.data with
  | c :: d :: _ => (c = '-' ∨ c = '*') ∧ wsChar d
  | _ => false

/-- Bullet normalization of the acceptance scanner: the two sequential
replaces `^[-*]\s+\[[ xX]\]\s*` to a dash bullet and `^[-*]\s+` to a dash
bullet compose to this. -/
def normBullet (l : String) : String :=
  match l.data with
  | c :: rest =>
    if (c = '-' ∨ c = '*') ∧ headIsWs rest = true then
      let after := rest.dropWhile wsChar
      let content :=
        match after with
        | '[' :: k :: ']' :: r =>
          if k = ' ' ∨ k = 'x' ∨ k = 'X' then r.dropWhile wsChar else after
        | _ => after
      ⟨'-' :: ' ' :: content⟩
    else l
  | [] => l

/-- Collection loop of `extractAcceptanceCriteria` (source lines 1016-1029). -/
def collectCriteria : List String → List String → List String
  | [], acc => acc.reverse
  | l :: rest, acc =>
    if l = "" then
      (if acc ≠ [] then acc.reverse else collectCriteria rest acc)
    else if boldLineTest l ∧ acc ≠ [] then acc.reverse
    else if bulletStart l then collectCriteria rest (normBullet l :: acc)
    else if acc ≠ [] then acc.reverse
    else collectCriteria rest acc

/-- Mirrors `extractAcceptanceCriteria`. -/
def extractAcceptanceCriteria (body : List String) : Option String :=
  let normalized := body.map jsTrim
  match normalized.findIdx? (fun l => jsIncludes (jsToLower l) "success criteria") with
  | none => none
  | some markerIndex =>
    let criteria := collectCriteria (normalized.drop (markerIndex + 1)) []
    if criteria = [] then none else some (joinLines criteria)

/-- Split on `-`/`_` runs (accumulator form). -/
def splitOnDashUnderscoreAux : List Char → List Char → List (List Char)
  | [], acc => [acc.reverse]
  | c :: rest, acc =>
    if c = '-' ∨ c = '_' then acc.reverse :: splitOnDashUnderscoreAux rest []
    else splitOnDashUnderscoreAux rest (c :: acc)

/-- Split on `-`/`_` separators. -/
def splitOnDashUnderscore (l : List Char) : List (List Char) :=
  splitOnDashUnderscoreAux l []

/-- JS `part.charAt(0).toUpperCase() + part.slice(1)`. -/
def capitalizeToken : List Char → List Char
  | [] => []
  | c :: rest => c.toUpper :: rest

/-- Mirrors `deriveFallbackEpicTitle` (`path.basename`/`path.extname` are
modelled on slash-separated paths). -/
def deriveFallbackEpicTitle (specPath : String) : String :=
  let base : List Char :=
    ((specPath.data.reverse.takeWhile (· ≠ '/'))).reverse
  let stemRev : List Char :=
    let rev := base.reverse
    let ext := rev.takeWhile (· ≠ '.')
    if ext.length < base.length ∧ ext.length + 1 < base.length then
      rev.drop (ext.length + 1)
    else rev
  let stem := stemRev.reverse
  let parts := (splitOnDashUnderscore stem).filter (· ≠ [])
  let title := intercalateSpace (parts.map capitalizeToken)
  if title = [] then "Spec Epic" else ⟨title⟩

/-- Mirrors the JS split on `/\r?\n/`. -/
def splitLinesJs (s : String) : List String :=
  (splitChar s '\n').map fun t =>
    match t.data.getLast? with
    | some '\r' => ⟨t.data.dropLast⟩
    | _ => t

/-- Milestone under construction: title and raw body lines (acceptance is
extracted from the accumulated body; the source recomputes it per line, and
the per-line extraction is monotone, so the final body determines it). -/
abbrev MsAcc := String × List String

/-- Phase under construction: title and milestones under construction. -/
abbrev PhaseAcc := String × List MsAcc

/-- Parser state of `parseSpecFile`'s line loop: the epic title (and whether a
heading set it), the phases built so far, and whether a current milestone is
accumulating body lines (it is always the last milestone of the last phase
that has milestones). -/
structure SpecParseState where
  epicTitle : String
  epicSet : Bool := false
  phases : List PhaseAcc := []
  active : Bool := false

/-- Append a body line to the last milestone of the given milestone list. -/
def appendToLastMs : List MsAcc → String → List MsAcc
  | [], _ => []
  | [(t, b)], line => [(t, b ++ [line])]
  | m :: ms, line => m :: appendToLastMs ms line

/-- Append a new milestone to the last phase. -/
def addMsToLastPhase : List PhaseAcc → String → List PhaseAcc
  | [], _ => []
  | [(t, ms)], title => [(t, ms ++ [(title, [])])]
  | p :: ps, title => p :: addMsToLastPhase ps title

/-- Append a body line to the most recently created milestone (the last
milestone of the last phase having milestones); returns the updated phases and
whether a milestone was found. -/
def pushBodyAux : List PhaseAcc → String → List PhaseAcc × Bool
  | [], _ => ([], false)
  | p :: rest, line =>
    match pushBodyAux rest line with
    | (rest', true) => (p :: rest', true)
    | (_, false) =>
      if p.2 ≠ [] then ((p.1, appendToLastMs p.2 line) :: rest, true)
      else (p :: rest, false)

/-- One line of `parseSpecFile`'s loop (source lines 903-948). -/
def specParseStep (st : SpecParseState) (line : String) : SpecParseState :=
  match parseHeading line with
  | some (level, title) =>
    let st :=
      if level = 1 ∧ ¬ st.epicSet ∧ ¬ isStructuralSpecHeading title then
        { st with epicTitle := title, epicSet := true }
      else st
    let st := if level ≤ 2 then { st with active := false } else st
    if isPhaseHeading title then
      { st with phases := st.phases ++ [(title, [])] }
    else if isMilestoneHeading title then
      let phases := if st.phases = [] then [("Phase: Unsorted", [])] else st.phases
      { st with phases := addMsToLastPhase phases title, active := true }
    else
      if st.active then { st with phases := (pushBodyAux st.phases line).1 } else st
  | none =>
    match parseMilestoneBullet line with
    | some title =>
      let phases := if st.phases = [] then [("Phase: Unsorted", [])] else st.phases
      { st with phases := addMsToLastPhase phases title, active := true }
    | none =>
      if st.active then { st with phases := (pushBodyAux st.phases line).1 } else st

/-- Render the accumulated phases into the plan tree. -/
def renderPhases (phases : List PhaseAcc) : List PhasePlan :=
  phases.map fun p =>
    { title := p.1,
      milestones := p.2.map fun m =>
        { title := m.1, acceptance := extractAcceptanceCriteria m.2 } }

/-- Mirrors `parseSpecFile`; the file read is modelled by passing the raw
document text. -/
def parseSpecFile (specPath : String) (raw : String) : SpecPlan :=
  let lines := splitLinesJs raw
  let st : SpecParseState :=
    lines.foldl specParseStep
      { epicTitle := deriveFallbackEpicTitle specPath, epicSet := false,
        phases := [], active := false }
  { specPath := specPath, epicTitle := st.epicTitle, phases := renderPhases st.phases }

/-! Trace infrastructure: every engine step only appends to the event trace
and to the logical-call list; these lemmas characterize what is appended. -/

theorem popExec_spec (w : W) (cargs : List String) (t : Option Nat) :
    (popExec w cargs t).2.events = w.events ++ [Event.exec cargs t] ∧
    (popExec w cargs t).2.saves = w.saves ∧
    (popExec w cargs t).2.calls = w.calls := by
  unfold popExec
  cases w.execs <;> simp

theorem runAttempts_trace (cargs : List String) (T : Nat) (roe : Bool) (total : Nat) :
    ∀ fuel attempt w,
      ∃ Δ, (runAttempts cargs T roe total fuel attempt w).2.events = w.events ++ Δ ∧
        (∀ e ∈ Δ, e = Event.exec cargs (execTimeoutOpt T)) ∧
        (runAttempts cargs T roe total fuel attempt w).2.saves = w.saves ∧
        (runAttempts cargs T roe total fuel attempt w).2.calls = w.calls := by
  intro fuel
  induction fuel with
  | zero =>
    intro attempt w
    exact ⟨[], by simp [runAttempts]⟩
  | succ left ih =>
    intro attempt w
    obtain ⟨hev, hsv, hcl⟩ := popExec_spec w cargs (execTimeoutOpt T)
    unfold runAttempts
    split
    case _ msg w1 heq =>
      have hq : (popExec w cargs (execTimeoutOpt T)).2 = w1 := by rw [heq]
      rw [hq] at hev hsv hcl
      split
      · obtain ⟨Δ, h1, h2, h3, h4⟩ := ih (attempt + 1) w1
        refine ⟨Event.exec cargs (execTimeoutOpt T) :: Δ, ?_, ?_, ?_, ?_⟩
        · rw [h1, hev]; simp
        · intro e he
          rcases List.mem_cons.mp he with h | h
          · simp [h]
          · exact h2 e h
        · rw [h3, hsv]
        · rw [h4, hcl]
      · refine ⟨[Event.exec cargs (execTimeoutOpt T)], hev, ?_, hsv, hcl⟩
        intro e he
        simpa using List.mem_singleton.mp he
    case _ r w1 heq =>
      have hq : (popExec w cargs (execTimeoutOpt T)).2 = w1 := by rw [heq]
      rw [hq] at hev hsv hcl
      have base : ∀ x : Except String Json,
          ∃ Δ, ((x, w1) : Except String Json × W).2.events = w.events ++ Δ ∧
            (∀ e ∈ Δ, e = Event.exec cargs (execTimeoutOpt T)) ∧
            ((x, w1) : Except String Json × W).2.saves = w.saves ∧
            ((x, w1) : Except String Json × W).2.calls = w.calls := by
        intro x
        refine ⟨[Event.exec cargs (execTimeoutOpt T)], hev, ?_, hsv, hcl⟩
        intro e he
        simpa using List.mem_singleton.mp he
      dsimp only
      split
      · split
        · obtain ⟨Δ, h1, h2, h3, h4⟩ := ih (attempt + 1) w1
          refine ⟨Event.exec cargs (execTimeoutOpt T) :: Δ, ?_, ?_, ?_, ?_⟩
          · rw [h1, hev]; simp
          · intro e he
            rcases List.mem_cons.mp he with h | h
            · simp [h]
            · exact h2 e h
          · rw [h3, hsv]
          · rw [h4, hcl]
        · exact base _
      · split
        · exact base _
        · split
          · split
            · exact base _
            · exact base _
          · exact base _


theorem runGrnswJson_trace (env : GrnswEnv) (inv : GrnswInvocation)
    (args : List String) (options : RunGrnswOptions) (w : W) :
    ∃ Δ, (runGrnswJson env inv args options w).2.events = w.events ++ Δ ∧
      (∀ e ∈ Δ, e = Event.exec (inv.baseArgs ++ ["--json"] ++ args)
        (execTimeoutOpt (resolveGrnswTimeoutMs env options.timeoutMs))) ∧
      (runGrnswJson env inv args options w).2.saves = w.saves ∧
      (runGrnswJson env inv args options w).2.calls = w.calls ++ [args] := by
  unfold runGrnswJson
  obtain ⟨Δ, h1, h2, h3, h4⟩ := runAttempts_trace (inv.baseArgs ++ ["--json"] ++ args)
    (resolveGrnswTimeoutMs env options.timeoutMs) options.retryOnError
    (resolveGrnswRetries env options.retries + 1)
    (resolveGrnswRetries env options.retries + 1) 1 { w with calls := w.calls ++ [args] }
  exact ⟨Δ, by simpa using h1, h2, by simpa using h3, by simpa using h4⟩

/-- C10: when the resolved external-call timeout is 0 (explicit `timeoutMs 0`
or environment `GRNSW_TIMEOUT_MS=0`), every subprocess attempt of the
invocation is executed with no timeout option at all, so the wrapper's
timeout mechanism is disabled for that call; when the resolved timeout is
positive, every attempt is executed with exactly that timeout. -/
theorem runGrnswJson_timeout_zero_means_no_timeout (env : GrnswEnv)
    (inv : GrnswInvocation) (args : List String) (options : RunGrnswOptions) (w : W) :
    (options.timeoutMs = some 0 → resolveGrnswTimeoutMs env options.timeoutMs = 0) ∧
    (options.timeoutMs = none → env.grnswTimeoutMs = some "0" →
      resolveGrnswTimeoutMs env options.timeoutMs = 0) ∧
    ∃ Δ, (runGrnswJson env inv args options w).2.events = w.events ++ Δ ∧
      (∀ e ∈ Δ, e = Event.exec (inv.baseArgs ++ ["--json"] ++ args)
        (if 0 < resolveGrnswTimeoutMs env options.timeoutMs then
          some (resolveGrnswTimeoutMs env options.timeoutMs) else none)) := by
  refine ⟨?_, ?_, ?_⟩
  · intro h
    simp [resolveGrnswTimeoutMs, h, normalizeNonNegativeInteger]
  · intro h he
    simp only [resolveGrnswTimeoutMs, h, he, normalizeNonNegativeInteger]
    decide
  · obtain ⟨Δ, h1, h2, _, _⟩ := runGrnswJson_trace env inv args options w
    exact ⟨Δ, h1, by simpa [execTimeoutOpt, Nat.lt_iff_add_one_le] using h2⟩

theorem runAttempts_grow (cargs : List String) (T : Nat) (roe : Bool)
    (total left attempt : Nat) (w : W) :
    w.events.length + 1 ≤
      (runAttempts cargs T roe total (left + 1) attempt w).2.events.length := by
  obtain ⟨hev, _, _⟩ := popExec_spec w cargs (execTimeoutOpt T)
  unfold runAttempts
  split
  case _ msg w1 heq =>
    have hq : (popExec w cargs (execTimeoutOpt T)).2 = w1 := by rw [heq]
    rw [hq] at hev
    have hlen : w1.events.length = w.events.length + 1 := by simp [hev]
    split
    · obtain ⟨Δ, h1, _, _, _⟩ := runAttempts_trace cargs T roe total left (attempt + 1) w1
      rw [h1, List.length_append, hlen]
      omega
    · simp [hlen]
  case _ r w1 heq =>
    have hq : (popExec w cargs (execTimeoutOpt T)).2 = w1 := by rw [heq]
    rw [hq] at hev
    have hlen : w1.events.length = w.events.length + 1 := by simp [hev]
    dsimp only
    split
    · split
      · obtain ⟨Δ, h1, _, _, _⟩ := runAttempts_trace cargs T roe total left (attempt + 1) w1
        rw [h1, List.length_append, hlen]
        omega
      · simp [hlen]
    · split
      · simp [hlen]
      · split
        · split
          · simp [hlen]
          · simp [hlen]
        · simp [hlen]

/-- Exit-code-124 result, classified as a timeout. -/
def timeoutRes124 : ExecResult := { code := 124 }

/-- Successful result whose stdout is the object with created id `Z`. -/
def okZResult : ExecResult := { code := 0, stdout := "\x7b\"created_id\": \"Z\"\x7d" }

/-- World of the timeout-retry scenario: a timeout then a success. -/
def c4World : W := { execs := [.res timeoutRes124, .res okZResult] }

/-- World of the transport-failure scenario: a thrown exec then a success. -/
def c4ThrownWorld : W := { execs := [.thrown "spawn grnsw ENOENT", .res okZResult] }

/-- C4 (amended): one step of the external-call attempt loop retries exactly
when attempts remain and either the attempt threw a transport error (retried
unconditionally), or the result is classified as a timeout, or `retryOnError`
is set; a non-zero exit with neither classification nor flag is not retried,
and a zero-exit attempt never retries. `attempt + left = total` is the loop
invariant relating the 1-based attempt counter to the remaining fuel;
"retried" is observed as more than one subprocess event being recorded from
this step on. -/
theorem runGrnswJson_retry_policy (cargs : List String) (T : Nat) (roe : Bool)
    (total left attempt : Nat) (w : W) (o : ExecOutcome) (rest : List ExecOutcome)
    (hinv : attempt + left = total) (hx : w.execs = o :: rest) :
    (∀ msg, o = .thrown msg →
      (w.events.length + 1 <
          (runAttempts cargs T roe total (left + 1) attempt w).2.events.length ↔
        attempt < total)) ∧
    (∀ r, o = .res r → r.code ≠ 0 →
      (w.events.length + 1 <
          (runAttempts cargs T roe total (left + 1) attempt w).2.events.length ↔
        attempt < total ∧ (isLikelyTimeoutResult r = true ∨ roe = true))) ∧
    (∀ r, o = .res r → r.code = 0 →
      (runAttempts cargs T roe total (left + 1) attempt w).2.events.length =
        w.events.length + 1) := by
  have hpop : popExec w cargs (execTimeoutOpt T) =
      (o, { w with execs := rest, events := w.events ++ [.exec cargs (execTimeoutOpt T)] }) := by
    unfold popExec
    rw [hx]
  have hretry : ∀ w1 : W, w1.events.length = w.events.length + 1 → 1 ≤ left →
      w.events.length + 1 <
        (runAttempts cargs T roe total left (attempt + 1) w1).2.events.length := by
    intro w1 hlen hleft
    have hL : left = (left - 1) + 1 := by omega
    rw [hL]
    have := runAttempts_grow cargs T roe total (left - 1) (attempt + 1) w1
    omega
  refine ⟨?_, ?_, ?_⟩
  · intro msg ho
    subst ho
    unfold runAttempts
    rw [hpop]
    dsimp only
    constructor
    · intro h
      by_contra hlt
      rw [if_neg hlt] at h
      simp at h
    · intro hlt
      rw [if_pos hlt]
      exact hretry _ (by simp) (by omega)
  · intro r ho hc
    subst ho
    unfold runAttempts
    rw [hpop]
    dsimp only
    rw [if_pos hc]
    constructor
    · intro h
      by_contra hcond
      rw [if_neg ?_] at h
      · simp at h
      · intro hand
        exact hcond ⟨hand.1, hand.2⟩
    · intro hcond
      rw [if_pos hcond]
      exact hretry _ (by simp) (by omega)
  · intro r ho hc
    subst ho
    unfold runAttempts
    rw [hpop]
    dsimp only
    rw [if_neg (by simp [hc])]
    split
    · simp
    · split
      · split
        · simp
        · simp
      · simp

/-- Witness for the C4 amended retry policy: with `retries = 1`
(`total = 2, attempt = 1, left = 1`), a first attempt whose result is a
timeout (exit code 124) is retried, and the whole call returns the second
attempt's parsed JSON after exactly 2 subprocess invocations. -/
theorem runGrnswJson_retry_policy_witness :
    ((1 : Nat) + 1 = 2 ∧ c4World.execs = ExecOutcome.res timeoutRes124 :: [.res okZResult] ∧
      isLikelyTimeoutResult timeoutRes124 = true) ∧
    (0 : Nat) + 1 <
      (runAttempts ["--json", "epic", "new", "T"] 30000 false 2 2 1 c4World).2.events.length ∧
    (runGrnswJson {} { command := "g" } ["epic", "new", "T"] { retries := some 1 }
      c4World).1 = .ok (Json.obj [("created_id", Json.str "Z")]) ∧
    (runGrnswJson {} { command := "g" } ["epic", "new", "T"] { retries := some 1 }
      c4World).2.events.length = 2 := by
  refine ⟨⟨rfl, rfl, by decide⟩, ?_, ?_, by decide⟩
  · have h := runGrnswJson_retry_policy ["--json", "epic", "new", "T"] 30000 false 2 1 1
      c4World (.res timeoutRes124) [.res okZResult] rfl rfl
    have h2 := (h.2.1 timeoutRes124 rfl (by decide)).mpr ⟨by decide, Or.inl (by decide)⟩
    simpa using h2
  · rfl

/-- C4 counterexample: with `retryOnError` unset, a first attempt that throws
a transport error (no result, hence no timeout classification) is nonetheless
retried — the call succeeds with the second attempt's JSON after 2
invocations, where the claim as stated requires no retry. -/
theorem runGrnswJson_retry_claim_counterexample :
    (RunGrnswOptions.mk none (some 1) none false).retryOnError = false ∧
    (runGrnswJson {} { command := "g" } ["epic", "new", "T"]
      (RunGrnswOptions.mk none (some 1) none false) c4ThrownWorld).1 =
      .ok (Json.obj [("created_id", Json.str "Z")]) ∧
    (runGrnswJson {} { command := "g" } ["epic", "new", "T"]
      (RunGrnswOptions.mk none (some 1) none false) c4ThrownWorld).2.events.length = 2 := by
  exact ⟨rfl, rfl, by decide⟩

/-- Witness for C10 at `GRNSW_TIMEOUT_MS=0`: the resolved timeout is 0 and the
single doctor attempt runs with no timeout option. -/
theorem runGrnswJson_timeout_zero_witness :
    resolveGrnswTimeoutMs { grnswTimeoutMs := some "0" } none = 0 ∧
    (runGrnswJson { grnswTimeoutMs := some "0" } { command := "g" } ["doctor"] {}
      { execs := [.res { code := 0 }] }).2.events =
      [Event.exec ["--json", "doctor"] none] := by
  have h := runGrnswJson_timeout_zero_means_no_timeout
    { grnswTimeoutMs := some "0" } { command := "g" } ["doctor"] {}
    { execs := [.res { code := 0 }] }
  refine ⟨h.2.1 rfl rfl, ?_⟩
  decide

/-! Structural compatibility predicates: applied milestones/phases as a
title-and-order-matching prefix of the plan. -/

/-- Applied milestones are a title-matching prefix of the planned ones. -/
def msPrefixB : List AppliedMilestone → List MilestonePlan → Bool
  | [], _ => true
  | _ :: _, [] => false
  | a :: as, p :: ps => a.title = p.title && msPrefixB as ps

/-- Applied phases are a title-matching prefix of the planned ones, with
milestone prefixes inside each matched phase. -/
def phPrefixB : List AppliedPhase → List PhasePlan → Bool
  | [], _ => true
  | _ :: _, [] => false
  | a :: as, p :: ps =>
    a.title = p.title && msPrefixB a.milestones p.milestones && phPrefixB as ps

/-- Full pairing of applied and planned milestones by title (equal length). -/
def msPairB : List AppliedMilestone → List MilestonePlan → Bool
  | [], [] => true
  | a :: as, p :: ps => a.title = p.title && msPairB as ps
  | _, _ => false

/-- Full pairing of applied and planned phases: titles match and milestones
are prefixes (equal length of the phase lists). -/
def phPairB : List AppliedPhase → List PhasePlan → Bool
  | [], [] => true
  | a :: as, p :: ps =>
    a.title = p.title && msPrefixB a.milestones p.milestones && phPairB as ps
  | _, _ => false

theorem msPrefixB_length : ∀ {ams : List AppliedMilestone} {pms : List MilestonePlan},
    msPrefixB ams pms = true → ams.length ≤ pms.length := by
  intro ams
  induction ams with
  | nil => intro pms _; simp
  | cons a as ih =>
    intro pms h
    cases pms with
    | nil => simp [msPrefixB] at h
    | cons p ps =>
      simp only [msPrefixB, Bool.and_eq_true] at h
      simpa using ih h.2

theorem phPrefixB_length : ∀ {aps : List AppliedPhase} {pps : List PhasePlan},
    phPrefixB aps pps = true → aps.length ≤ pps.length := by
  intro aps
  induction aps with
  | nil => intro pps _; simp
  | cons a as ih =>
    intro pps h
    cases pps with
    | nil => simp [phPrefixB] at h
    | cons p ps =>
      simp only [phPrefixB, Bool.and_eq_true] at h
      simpa using ih h.2

theorem drop_cons_of_getq {α : Type} {l : List α} {n : Nat} {a : α}
    (h : l.get? n = some a) : l.drop n = a :: l.drop (n + 1) := by
  rw [List.get?_eq_getElem?] at h
  obtain ⟨hlt, hval⟩ := List.getElem?_eq_some.mp h
  rw [List.drop_eq_getElem_cons hlt, hval]

theorem assertMilestoneLoop_ok_iff (t : String) (pms : List MilestonePlan) :
    ∀ (ams : List AppliedMilestone) (j : Nat),
      assertMilestoneLoop t pms ams j = .ok () ↔ msPrefixB ams (pms.drop j) = true := by
  intro ams
  induction ams with
  | nil => intro j; simp [assertMilestoneLoop, msPrefixB]
  | cons am rest ih =>
    intro j
    unfold assertMilestoneLoop
    cases hg : pms.get? j with
    | none =>
      have hd : pms.drop j = [] := by
        rw [List.drop_eq_nil_iff]
        exact List.get?_eq_none.mp hg
      rw [hd]
      simp [msPrefixB]
    | some pm =>
      have hd := drop_cons_of_getq hg
      rw [hd]
      dsimp only
      by_cases ht : am.title = pm.title
      · rw [if_neg (not_not_intro ht), ih (j + 1)]
        simp [msPrefixB, ht]
      · rw [if_pos ht]
        simp [msPrefixB, ht]

theorem assertPhaseLoop_ok_iff (pps : List PhasePlan) :
    ∀ (aps : List AppliedPhase) (idx : Nat),
      assertPhaseLoop pps aps idx = .ok () ↔ phPrefixB aps (pps.drop idx) = true := by
  intro aps
  induction aps with
  | nil => intro idx; simp [assertPhaseLoop, phPrefixB]
  | cons ap rest ih =>
    intro idx
    unfold assertPhaseLoop
    cases hg : pps.get? idx with
    | none =>
      have hd : pps.drop idx = [] := by
        rw [List.drop_eq_nil_iff]
        exact List.get?_eq_none.mp hg
      rw [hd]
      simp [phPrefixB]
    | some pp =>
      have hd := drop_cons_of_getq hg
      rw [hd]
      dsimp only
      by_cases ht : ap.title = pp.title
      · rw [if_neg (not_not_intro ht)]
        by_cases hlen : ap.milestones.length > pp.milestones.length
        · rw [if_pos hlen]
          have hmsf : msPrefixB ap.milestones pp.milestones = false := by
            cases hmb : msPrefixB ap.milestones pp.milestones
            · rfl
            · exact absurd (msPrefixB_length hmb) (by omega)
          simp [phPrefixB, ht, hmsf]
        · rw [if_neg hlen]
          cases hml : assertMilestoneLoop ap.title pp.milestones ap.milestones 0 with
          | error e =>
            have hn : ¬ msPrefixB ap.milestones pp.milestones = true := by
              rw [← List.drop_zero pp.milestones,
                ← assertMilestoneLoop_ok_iff ap.title pp.milestones ap.milestones 0, hml]
              simp
            simp [hml, phPrefixB, ht, hn]
          | ok u =>
            cases u
            have hms : msPrefixB ap.milestones pp.milestones = true := by
              have h0 := (assertMilestoneLoop_ok_iff ap.title pp.milestones
                ap.milestones 0).mp hml
              simpa using h0
            simp only [hml]
            rw [ih (idx + 1)]
            simp [phPrefixB, ht, hms]
      · rw [if_pos ht]
        simp [phPrefixB, ht]

/-- The checkpoint/plan compatibility condition checked by
`assertCheckpointMatchesPlan`. -/
def checkpointCompatB (cp : ApplyCheckpoint) (plan : SpecPlan) : Bool :=
  cp.specPath = plan.specPath && cp.epicTitle = plan.epicTitle &&
    phPrefixB cp.applied.phases plan.phases &&
    (cp.applied.phases.length = 0 || cp.applied.epicId.isSome)

theorem assertCheckpointMatchesPlan_ok_iff (cp : ApplyCheckpoint) (plan : SpecPlan) :
    assertCheckpointMatchesPlan cp plan = .ok () ↔ checkpointCompatB cp plan = true := by
  unfold assertCheckpointMatchesPlan checkpointCompatB
  by_cases hs : cp.specPath = plan.specPath
  · rw [if_neg (not_not_intro hs)]
    by_cases he : cp.epicTitle = plan.epicTitle
    · rw [if_neg (not_not_intro he)]
      by_cases hlen : cp.applied.phases.length > plan.phases.length
      · rw [if_pos hlen]
        have hf : phPrefixB cp.applied.phases plan.phases = false := by
          cases hb : phPrefixB cp.applied.phases plan.phases
          · rfl
          · exact absurd (phPrefixB_length hb) (by omega)
        simp [hs, he, hf]
      · rw [if_neg hlen]
        cases hpl : assertPhaseLoop plan.phases cp.applied.phases 0 with
        | error e =>
          have hn : ¬ phPrefixB cp.applied.phases plan.phases = true := by
            rw [← List.drop_zero plan.phases,
              ← assertPhaseLoop_ok_iff plan.phases cp.applied.phases 0, hpl]
            simp
          simp [hpl, hs, he, hn]
        | ok u =>
          cases u
          simp only [hpl]
          have hph : phPrefixB cp.applied.phases plan.phases = true := by
            have h0 := (assertPhaseLoop_ok_iff plan.phases cp.applied.phases 0).mp hpl
            simpa using h0
          by_cases hcons : cp.applied.phases.length > 0 ∧ cp.applied.epicId = none
          · rw [if_pos hcons]
            have h0 : cp.applied.phases.length ≠ 0 := by omega
            simp [hs, he, hph, hcons.2, h0]
          · rw [if_neg hcons]
            have hor : cp.applied.phases.length = 0 ∨ cp.applied.epicId.isSome = true := by
              by_cases h0 : cp.applied.phases.length = 0
              · exact Or.inl h0
              · right
                rcases ho : cp.applied.epicId with _ | v
                · exact absurd ⟨by omega, ho⟩ hcons
                · rfl
            rcases hor with h0 | hsome
            · simp [hs, he, hph, h0]
            · simp [hs, he, hph, hsome]
    · rw [if_pos he]
      simp [he]
  · rw [if_pos hs]
    simp [hs]

theorem strContains_concat_right (pre t : String) : strContains (pre ++ t) t :=
  strContains_of_append_right pre (strContains_refl t)

theorem assertMilestoneLoop_mismatch (t : String) (pms : List MilestonePlan) :
    ∀ (i j0 : Nat) (ams : List AppliedMilestone) (am : AppliedMilestone)
      (pm : MilestonePlan),
      msPairB (ams.take i) ((pms.drop j0).take i) = true →
      ams.get? i = some am → (pms.drop j0).get? i = some pm →
      am.title ≠ pm.title →
      ∃ e, assertMilestoneLoop t pms ams j0 = .error e ∧
        strContains e am.title ∧ strContains e pm.title ∧
        strContains e (toString (j0 + i + 1)) := by
  intro i
  induction i with
  | zero =>
    intro j0 ams am pm _ hga hgp hne
    cases ams with
    | nil => cases hga
    | cons a0 rest =>
      have ha : a0 = am := by simpa using hga
      subst ha
      have hg0 : pms.get? j0 = some pm := by
        have h := List.get?_drop pms j0 0
        rw [hgp] at h
        simpa using h.symm
      unfold assertMilestoneLoop
      rw [hg0]
      dsimp only
      rw [if_pos hne]
      refine ⟨_, rfl, ?_, ?_, ?_⟩
      · exact strContains_of_append_left _ (strContains_of_append_left _
          (strContains_of_append_left _ (strContains_concat_right _ _)))
      · exact strContains_of_append_left _ (strContains_concat_right _ _)
      · exact strContains_of_append_left _ (strContains_of_append_left _
          (strContains_of_append_left _ (strContains_of_append_left _
            (strContains_of_append_left _ (strContains_concat_right _ _)))))
  | succ i ih =>
    intro j0 ams am pm hpair hga hgp hne
    cases ams with
    | nil => cases hga
    | cons a0 rest =>
      cases hdp : pms.drop j0 with
      | nil =>
        rw [hdp] at hgp
        cases hgp
      | cons p0 tl =>
        have htl : pms.drop (j0 + 1) = tl := by
          have h1 : pms.drop (j0 + 1) = (pms.drop j0).drop 1 := by
            rw [List.drop_drop]
          rw [h1, hdp]
          rfl
        rw [hdp] at hpair hgp
        rw [List.take_succ_cons, List.take_succ_cons] at hpair
        simp only [msPairB, Bool.and_eq_true, decide_eq_true_eq] at hpair
        have ht0 : a0.title = p0.title := hpair.1
        have hg0 : pms.get? j0 = some p0 := by
          have h := List.get?_drop pms j0 0
          rw [hdp] at h
          simpa using h.symm
        unfold assertMilestoneLoop
        rw [hg0]
        dsimp only
        rw [if_neg (not_not_intro ht0)]
        have hrec := ih (j0 + 1) rest am pm (by rw [htl]; exact hpair.2)
          (by simpa using hga) (by rw [htl]; simpa using hgp) hne
        obtain ⟨e, he1, he2, he3, he4⟩ := hrec
        refine ⟨e, he1, he2, he3, ?_⟩
        have harith : j0 + 1 + i + 1 = j0 + (i + 1) + 1 := by omega
        rwa [harith] at he4

theorem assertPhaseLoop_mismatch (pps : List PhasePlan) :
    ∀ (i idx : Nat) (aps : List AppliedPhase) (ap : AppliedPhase) (pp : PhasePlan),
      phPairB (aps.take i) ((pps.drop idx).take i) = true →
      aps.get? i = some ap → (pps.drop idx).get? i = some pp →
      ap.title ≠ pp.title →
      ∃ e, assertPhaseLoop pps aps idx = .error e ∧
        strContains e ap.title ∧ strContains e pp.title ∧
        strContains e (toString (idx + i + 1)) := by
  intro i
  induction i with
  | zero =>
    intro idx aps ap pp _ hga hgp hne
    cases aps with
    | nil => cases hga
    | cons a0 rest =>
      have ha : a0 = ap := by simpa using hga
      subst ha
      have hg0 : pps.get? idx = some pp := by
        have h := List.get?_drop pps idx 0
        rw [hgp] at h
        simpa using h.symm
      unfold assertPhaseLoop
      rw [hg0]
      dsimp only
      rw [if_pos hne]
      refine ⟨_, rfl, ?_, ?_, ?_⟩
      · exact strContains_of_append_left _ (strContains_of_append_left _
          (strContains_of_append_left _ (strContains_concat_right _ _)))
      · exact strContains_of_append_left _ (strContains_concat_right _ _)
      · exact strContains_of_append_left _ (strContains_of_append_left _
          (strContains_of_append_left _ (strContains_of_append_left _
            (strContains_of_append_left _ (strContains_concat_right _ _)))))
  | succ i ih =>
    intro idx aps ap pp hpair hga hgp hne
    cases aps with
    | nil => cases hga
    | cons a0 rest =>
      cases hdp : pps.drop idx with
      | nil =>
        rw [hdp] at hgp
        cases hgp
      | cons p0 tl =>
        have htl : pps.drop (idx + 1) = tl := by
          have h1 : pps.drop (idx + 1) = (pps.drop idx).drop 1 := by
            rw [List.drop_drop]
          rw [h1, hdp]
          rfl
        rw [hdp] at hpair hgp
        rw [List.take_succ_cons, List.take_succ_cons] at hpair
        simp only [phPairB, Bool.and_eq_true, decide_eq_true_eq] at hpair
        have ht0 : a0.title = p0.title := hpair.1.1
        have hms : msPrefixB a0.milestones p0.milestones = true := hpair.1.2
        have hg0 : pps.get? idx = some p0 := by
          have h := List.get?_drop pps idx 0
          rw [hdp] at h
          simpa using h.symm
        unfold assertPhaseLoop
        rw [hg0]
        dsimp only
        rw [if_neg (not_not_intro ht0)]
        rw [if_neg (by have := msPrefixB_length hms; omega)]
        have hloop : assertMilestoneLoop a0.title p0.milestones a0.milestones 0 = .ok () := by
          rw [assertMilestoneLoop_ok_iff]
          simpa using hms
        rw [hloop]
        have hrec := ih (idx + 1) rest ap pp (by rw [htl]; exact hpair.2)
          (by simpa using hga) (by rw [htl]; simpa using hgp) hne
        obtain ⟨e, he1, he2, he3, he4⟩ := hrec
        refine ⟨e, he1, he2, he3, ?_⟩
        have harith : idx + 1 + i + 1 = idx + (i + 1) + 1 := by omega
        rwa [harith] at he4

theorem assertPhaseLoop_milestone_mismatch (pps : List PhasePlan) :
    ∀ (k idx : Nat) (aps : List AppliedPhase) (ap : AppliedPhase) (pp : PhasePlan)
      (j : Nat) (am : AppliedMilestone) (pm : MilestonePlan),
      phPairB (aps.take k) ((pps.drop idx).take k) = true →
      aps.get? k = some ap → (pps.drop idx).get? k = some pp →
      ap.title = pp.title → ap.milestones.length ≤ pp.milestones.length →
      msPairB (ap.milestones.take j) (pp.milestones.take j) = true →
      ap.milestones.get? j = some am → pp.milestones.get? j = some pm →
      am.title ≠ pm.title →
      ∃ e, assertPhaseLoop pps aps idx = .error e ∧
        strContains e am.title ∧ strContains e pm.title ∧
        strContains e (toString (j + 1)) := by
  intro k
  induction k with
  | zero =>
    intro idx aps ap pp j am pm _ hga hgp hteq hmlen hmpair hgam hgpm hne
    cases aps with
    | nil => cases hga
    | cons a0 rest =>
      have ha : a0 = ap := by simpa using hga
      subst ha
      have hg0 : pps.get? idx = some pp := by
        have h := List.get?_drop pps idx 0
        rw [hgp] at h
        simpa using h.symm
      unfold assertPhaseLoop
      rw [hg0]
      dsimp only
      rw [if_neg (not_not_intro hteq)]
      rw [if_neg (by omega)]
      have hm := assertMilestoneLoop_mismatch a0.title pp.milestones j 0
        a0.milestones am pm (by simpa using hmpair) hgam (by simpa using hgpm) hne
      obtain ⟨e, he1, he2, he3, he4⟩ := hm
      rw [he1]
      refine ⟨e, rfl, he2, he3, ?_⟩
      simpa using he4
  | succ k ih =>
    intro idx aps ap pp j am pm hpair hga hgp hteq hmlen hmpair hgam hgpm hne
    cases aps with
    | nil => cases hga
    | cons a0 rest =>
      cases hdp : pps.drop idx with
      | nil =>
        rw [hdp] at hgp
        cases hgp
      | cons p0 tl =>
        have htl : pps.drop (idx + 1) = tl := by
          have h1 : pps.drop (idx + 1) = (pps.drop idx).drop 1 := by
            rw [List.drop_drop]
          rw [h1, hdp]
          rfl
        rw [hdp] at hpair hgp
        rw [List.take_succ_cons, List.take_succ_cons] at hpair
        simp only [phPairB, Bool.and_eq_true, decide_eq_true_eq] at hpair
        have ht0 : a0.title = p0.title := hpair.1.1
        have hms : msPrefixB a0.milestones p0.milestones = true := hpair.1.2
        have hg0 : pps.get? idx = some p0 := by
          have h := List.get?_drop pps idx 0
          rw [hdp] at h
          simpa using h.symm
        unfold assertPhaseLoop
        rw [hg0]
        dsimp only
        rw [if_neg (not_not_intro ht0)]
        rw [if_neg (by have := msPrefixB_length hms; omega)]
        have hloop : assertMilestoneLoop a0.title p0.milestones a0.milestones 0 = .ok () := by
          rw [assertMilestoneLoop_ok_iff]
          simpa using hms
        rw [hloop]
        exact ih (idx + 1) rest ap pp j am pm (by rw [htl]; exact hpair.2)
          (by simpa using hga) (by rw [htl]; simpa using hgp) hteq hmlen hmpair
          hgam hgpm hne

/-- C6: the resume structural compatibility check succeeds exactly on
compatible checkpoint/plan pairs — it fails whenever the spec path or epic
title differ or the checkpoint's phases/milestones are not a
title-and-order-matching prefix of the plan's (including the checkpoint
having more phases or milestones); an epic-title mismatch yields an error
naming both titles; a phase or milestone title mismatch at an index (with
everything before it matching) yields an error naming both mismatched titles
and the 1-based index; and when the check fails, `resumePlan` returns that
error with the world unchanged — no external call is issued. -/
theorem assertCheckpointMatchesPlan_spec (cp : ApplyCheckpoint) (plan : SpecPlan) :
    (assertCheckpointMatchesPlan cp plan = .ok () ↔ checkpointCompatB cp plan = true) ∧
    ((cp.specPath ≠ plan.specPath ∨ cp.epicTitle ≠ plan.epicTitle ∨
      phPrefixB cp.applied.phases plan.phases = false) →
      ∃ e, assertCheckpointMatchesPlan cp plan = .error e) ∧
    (cp.specPath = plan.specPath → cp.epicTitle ≠ plan.epicTitle →
      ∃ e, assertCheckpointMatchesPlan cp plan = .error e ∧
        strContains e cp.epicTitle ∧ strContains e plan.epicTitle) ∧
    (∀ i ap pp, cp.specPath = plan.specPath → cp.epicTitle = plan.epicTitle →
      cp.applied.phases.length ≤ plan.phases.length →
      phPairB (cp.applied.phases.take i) (plan.phases.take i) = true →
      cp.applied.phases.get? i = some ap → plan.phases.get? i = some pp →
      ap.title ≠ pp.title →
      ∃ e, assertCheckpointMatchesPlan cp plan = .error e ∧
        strContains e ap.title ∧ strContains e pp.title ∧
        strContains e (toString (i + 1))) ∧
    (∀ i j ap pp am pm, cp.specPath = plan.specPath → cp.epicTitle = plan.epicTitle →
      cp.applied.phases.length ≤ plan.phases.length →
      phPairB (cp.applied.phases.take i) (plan.phases.take i) = true →
      cp.applied.phases.get? i = some ap → plan.phases.get? i = some pp →
      ap.title = pp.title → ap.milestones.length ≤ pp.milestones.length →
      msPairB (ap.milestones.take j) (pp.milestones.take j) = true →
      ap.milestones.get? j = some am → pp.milestones.get? j = some pm →
      am.title ≠ pm.title →
      ∃ e, assertCheckpointMatchesPlan cp plan = .error e ∧
        strContains e am.title ∧ strContains e pm.title ∧
        strContains e (toString (j + 1))) ∧
    (∀ env inv checkpointPath options w e,
      assertCheckpointMatchesPlan cp plan = .error e →
      resumePlan env inv plan cp checkpointPath options w = (.error e, cp, w)) := by
  refine ⟨assertCheckpointMatchesPlan_ok_iff cp plan, ?_, ?_, ?_, ?_, ?_⟩
  · intro hbad
    cases ha : assertCheckpointMatchesPlan cp plan with
    | error e => exact ⟨e, rfl⟩
    | ok u =>
      cases u
      have hc := (assertCheckpointMatchesPlan_ok_iff cp plan).mp ha
      unfold checkpointCompatB at hc
      simp only [Bool.and_eq_true, decide_eq_true_eq] at hc
      rcases hbad with h | h | h
      · exact absurd hc.1.1.1 h
      · exact absurd hc.1.1.2 h
      · rw [hc.1.2] at h
        cases h
  · intro hs hne
    unfold assertCheckpointMatchesPlan
    rw [if_neg (not_not_intro hs), if_pos hne]
    refine ⟨_, rfl, ?_, ?_⟩
    · exact strContains_of_append_left _ (strContains_of_append_left _
        (strContains_of_append_left _ (strContains_concat_right _ _)))
    · exact strContains_of_append_left _ (strContains_concat_right _ _)
  · intro i ap pp hs he hlen hpair hga hgp hne
    obtain ⟨e, h1, h2, h3, h4⟩ := assertPhaseLoop_mismatch plan.phases i 0
      cp.applied.phases ap pp (by simpa using hpair) hga (by simpa using hgp) hne
    refine ⟨e, ?_, h2, h3, by simpa using h4⟩
    unfold assertCheckpointMatchesPlan
    rw [if_neg (not_not_intro hs), if_neg (not_not_intro he), if_neg (by omega), h1]
  · intro i j ap pp am pm hs he hlen hpair hga hgp hteq hmlen hmpair hgam hgpm hne
    obtain ⟨e, h1, h2, h3, h4⟩ := assertPhaseLoop_milestone_mismatch plan.phases i 0
      cp.applied.phases ap pp j am pm (by simpa using hpair) hga
      (by simpa using hgp) hteq hmlen hmpair hgam hgpm hne
    refine ⟨e, ?_, h2, h3, h4⟩
    unfold assertCheckpointMatchesPlan
    rw [if_neg (not_not_intro hs), if_neg (not_not_intro he), if_neg (by omega), h1]
  · intro env inv checkpointPath options w e ha
    unfold resumePlan
    rw [ha]

/-- Witness for C6: a checkpoint recording epic title `Old Epic` against a
plan titled `New Epic` (same spec path) is rejected with an error naming both
titles, and `resumePlan` returns that error without touching the world. -/
theorem assertCheckpointMatchesPlan_spec_witness :
    ∃ e, assertCheckpointMatchesPlan
        { status := .failed, specPath := "spec.md", epicTitle := "Old Epic",
          priority := 1, withValidation := false, reviewer := "r",
          applied := { epicId := none, phases := [] } }
        { specPath := "spec.md", epicTitle := "New Epic", phases := [] } = .error e ∧
      strContains e "Old Epic" ∧ strContains e "New Epic" := by
  have h := (assertCheckpointMatchesPlan_spec
    { status := .failed, specPath := "spec.md", epicTitle := "Old Epic",
      priority := 1, withValidation := false, reviewer := "r",
      applied := { epicId := none, phases := [] } }
    { specPath := "spec.md", epicTitle := "New Epic", phases := [] }).2.2.1
    rfl (by decide)
  exact h

/-! C1: composed recovery message on any failure of the creation pipeline. -/

theorem saveOrThrow_ok_of_head_none (w : W) (checkpointPath : String)
    (cp : ApplyCheckpoint) (h : w.saves.head?.getD none = none) :
    saveApplyCheckpointOrThrow w checkpointPath cp =
      (.ok (),
        { w with saves := w.saves.tail,
                 events := w.events ++ [Event.save cp true] }) := by
  unfold saveApplyCheckpointOrThrow trySaveApplyCheckpoint
  rcases hs : w.saves with _ | ⟨o, rest⟩
  · simp [hs]
  · rw [hs] at h
    cases o with
    | none => simp [hs]
    | some msg => simp at h

theorem formatPartialApplyRecovery_contains (checkpointPath : String)
    (cp : ApplyCheckpoint) (saveErr : Option String) :
    strContains (formatPartialApplyRecovery checkpointPath cp saveErr)
      ("Checkpoint file: " ++ checkpointPath) ∧
    strContains (formatPartialApplyRecovery checkpointPath cp saveErr)
      ("Created so far: epic=" ++ cp.applied.epicId.getD "none" ++ ", phases=" ++
        toString (countAppliedEntities cp.applied.phases).phaseCount ++
        ", milestones=" ++
        toString (countAppliedEntities cp.applied.phases).milestoneCount ++
        ", validations=" ++
        toString (countAppliedEntities cp.applied.phases).validationCount) ∧
    strContains (formatPartialApplyRecovery checkpointPath cp saveErr)
      "Review this checkpoint and existing tasks before retrying to avoid duplicates." ∧
    (∀ se, saveErr = some se →
      strContains (formatPartialApplyRecovery checkpointPath cp saveErr)
        ("Checkpoint write failed: " ++ se)) := by
  cases saveErr with
  | none =>
    refine ⟨?_, ?_, ?_, ?_⟩
    · exact strContains_joinLines (by simp [formatPartialApplyRecovery])
        (strContains_refl _)
    · exact strContains_joinLines (by simp [formatPartialApplyRecovery])
        (strContains_refl _)
    · exact strContains_joinLines (by simp [formatPartialApplyRecovery])
        (strContains_refl _)
    · intro se hse
      cases hse
  | some se0 =>
    refine ⟨?_, ?_, ?_, ?_⟩
    · exact strContains_joinLines (by simp [formatPartialApplyRecovery])
        (strContains_refl _)
    · exact strContains_joinLines (by simp [formatPartialApplyRecovery])
        (strContains_refl _)
    · exact strContains_joinLines (by simp [formatPartialApplyRecovery])
        (strContains_refl _)
    · intro se hse
      cases hse
      exact strContains_joinLines (by simp [formatPartialApplyRecovery])
        (strContains_refl _)

/-- The last checkpoint state successfully written to disk in a trace. -/
def lastSavedCheckpoint (events : List Event) : Option ApplyCheckpoint :=
  events.reverse.findSome? fun e =>
    match e with
    | .save cp true => some cp
    | _ => none

/-- Plan of the C1 scenario: one phase with two milestones. -/
def c1Plan : SpecPlan :=
  { specPath := "spec.md", epicTitle := "E",
    phases := [{ title := "P1", milestones := [{ title := "M1" }, { title := "M2" }] }] }

/-- Successful creation outcome with the given external id. -/
def okCreated (s : String) : ExecOutcome :=
  .res { code := 0, stdout := "\x7b\"created_id\": \"" ++ s ++ "\"\x7d" }

/-- World of the C1 scenario: epic, phase and first milestone succeed, the
second milestone's creation fails. -/
def c1World : W :=
  { execs := [okCreated "E1", okCreated "P1", okCreated "M1",
      .res { code := 1, stderr := "boom" }] }

/-- The C1 scenario run. -/
def applyC1Run : Except String AppliedPlan × ApplyCheckpoint × W :=
  applyPlan {} { command := "grnsw" } c1Plan {} "cp.json" {} c1World

/-- The error message thrown by the C1 scenario run. -/
def c1ErrMsg : String :=
  match applyC1Run.1 with
  | .error e => e
  | .ok _ => ""

set_option maxRecDepth 16384 in
/-- C1: whenever an apply run whose initial checkpoint write succeeds fails,
or a resume run that passed the structural check and persisted its reset
fails, the run finalizes the checkpoint to `failed` with the root message
recorded, and raises the root message composed with the recovery block —
which names the checkpoint file path, the counts of epic/phases/milestones/
validations recorded so far, and the duplicate-inspection warning — adding a
note when the final checkpoint write itself failed. In the 1-phase/2-milestone
scenario whose 2nd milestone fails, the message reports `epic=E1`, `phases=1`
and `milestones=1`, and the last checkpoint written to disk is the `failed`
state with exactly 1 milestone. -/
theorem applyResume_failure_recovery :
    (∀ (env : GrnswEnv) (inv : GrnswInvocation) (plan : SpecPlan) (args : ParsedArgs)
      (checkpointPath : String) (options : RunGrnswOptions) (w : W) e cp w',
      w.saves.head?.getD none = none →
      applyPlan env inv plan args checkpointPath options w = (.error e, cp, w') →
      cp.status = .failed ∧
      ∃ msg saveErr, cp.error = some msg ∧
        e = msg ++ "\n" ++ formatPartialApplyRecovery checkpointPath cp saveErr ∧
        strContains e msg ∧
        strContains e ("Checkpoint file: " ++ checkpointPath) ∧
        strContains e ("Created so far: epic=" ++ cp.applied.epicId.getD "none" ++
          ", phases=" ++ toString (countAppliedEntities cp.applied.phases).phaseCount ++
          ", milestones=" ++
          toString (countAppliedEntities cp.applied.phases).milestoneCount ++
          ", validations=" ++
          toString (countAppliedEntities cp.applied.phases).validationCount) ∧
        strContains e
          "Review this checkpoint and existing tasks before retrying to avoid duplicates." ∧
        (∀ se, saveErr = some se →
          strContains e ("Checkpoint write failed: " ++ se))) ∧
    (∀ (env : GrnswEnv) (inv : GrnswInvocation) (plan : SpecPlan)
      (cp0 : ApplyCheckpoint) (checkpointPath : String) (options : RunGrnswOptions)
      (w : W) e cp w',
      assertCheckpointMatchesPlan cp0 plan = .ok () →
      w.saves.head?.getD none = none →
      resumePlan env inv plan cp0 checkpointPath options w = (.error e, cp, w') →
      cp.status = .failed ∧
      ∃ msg saveErr, cp.error = some msg ∧
        e = msg ++ "\n" ++ formatPartialApplyRecovery checkpointPath cp saveErr ∧
        strContains e msg ∧
        strContains e ("Checkpoint file: " ++ checkpointPath) ∧
        strContains e
          "Review this checkpoint and existing tasks before retrying to avoid duplicates." ∧
        (∀ se, saveErr = some se →
          strContains e ("Checkpoint write failed: " ++ se))) ∧
    (applyC1Run.1 = .error c1ErrMsg ∧
      strContains c1ErrMsg "epic=E1" ∧
      strContains c1ErrMsg "phases=1" ∧
      strContains c1ErrMsg "milestones=1" ∧
      strContains c1ErrMsg "grnsw failed: boom" ∧
      strContains c1ErrMsg "cp.json" ∧
      applyC1Run.2.1.status = .failed ∧
      applyC1Run.2.1.applied.phases.map (fun p => p.milestones.length) = [1] ∧
      lastSavedCheckpoint applyC1Run.2.2.events = some applyC1Run.2.1) := by
  refine ⟨?_, ?_, ?_⟩
  · intro env inv plan args checkpointPath options w e cp w' hsave happ
    unfold applyPlan at happ
    dsimp only at happ
    rw [saveOrThrow_ok_of_head_none _ _ _ hsave] at happ
    dsimp only at happ
    rcases hb : applyPlanBody _ plan _ _ with ⟨r, cpB, wB⟩
    rw [hb] at happ
    cases r with
    | ok a => simp at happ
    | error msg =>
      dsimp only at happ
      rcases htr : trySaveApplyCheckpoint wB _ with ⟨saveErr, wS⟩
      rw [htr] at happ
      simp only [Prod.mk.injEq, Except.error.injEq] at happ
      obtain ⟨he, hcp, hw⟩ := happ
      rw [hcp] at he
      obtain ⟨hc1, hc2, hc3, hc4⟩ :=
        formatPartialApplyRecovery_contains checkpointPath cp saveErr
      refine ⟨by rw [← hcp], msg, saveErr, by rw [← hcp], ?_, ?_, ?_, ?_, ?_⟩
      · rw [← he]
      · rw [← he]
        exact strContains_of_append_left _ (strContains_of_append_left _
          (strContains_refl msg))
      · rw [← he]
        exact strContains_of_append_right _ hc1
      · rw [← he]
        exact strContains_of_append_right _ hc2
      · refine ⟨?_, ?_⟩
        · rw [← he]
          exact strContains_of_append_right _ hc3
        · intro se hse
          rw [← he]
          exact strContains_of_append_right _ (hc4 se hse)
  · intro env inv plan cp0 checkpointPath options w e cp w' hassert hsave hres
    unfold resumePlan at hres
    rw [hassert] at hres
    dsimp only at hres
    rw [saveOrThrow_ok_of_head_none _ _ _ hsave] at hres
    dsimp only at hres
    rcases hb : resumePlanBody _ plan _ _ with ⟨r, cpB, wB⟩
    rw [hb] at hres
    cases r with
    | ok a => simp at hres
    | error msg =>
      dsimp only at hres
      rcases htr : trySaveApplyCheckpoint wB _ with ⟨saveErr, wS⟩
      rw [htr] at hres
      simp only [Prod.mk.injEq, Except.error.injEq] at hres
      obtain ⟨he, hcp, hw⟩ := hres
      rw [hcp] at he
      obtain ⟨hc1, hc2, hc3, hc4⟩ :=
        formatPartialApplyRecovery_contains checkpointPath cp saveErr
      refine ⟨by rw [← hcp], msg, saveErr, by rw [← hcp], ?_, ?_, ?_, ?_, ?_⟩
      · rw [← he]
      · rw [← he]
        exact strContains_of_append_left _ (strContains_of_append_left _
          (strContains_refl msg))
      · rw [← he]
        exact strContains_of_append_right _ hc1
      · rw [← he]
        exact strContains_of_append_right _ hc3
      · intro se hse
        rw [← he]
        exact strContains_of_append_right _ (hc4 se hse)
  · exact ⟨rfl, by decide, by decide, by decide, by decide, by decide, by decide,
      by decide, by decide⟩

set_option maxRecDepth 16384 in
/-- Witness for C1: the general apply conclusion instantiated at the
1-phase/2-milestone scenario. -/
theorem applyResume_failure_recovery_witness :
    applyC1Run.2.1.status = .failed ∧
    ∃ msg saveErr, applyC1Run.2.1.error = some msg ∧
      c1ErrMsg = msg ++ "\n" ++
        formatPartialApplyRecovery "cp.json" applyC1Run.2.1 saveErr := by
  have h := applyResume_failure_recovery.1 {} { command := "grnsw" } c1Plan {}
    "cp.json" {} c1World c1ErrMsg applyC1Run.2.1 applyC1Run.2.2 (by decide) rfl
  obtain ⟨h1, msg, saveErr, h2, h3, _⟩ := h
  exact ⟨h1, msg, saveErr, h2, h3⟩

/-! C3: call-trace accounting — which logical external calls a run can make. -/

/-- The world `w'` extends `w` by logical calls all satisfying `Q`. -/
def CallsExt (w w' : W) (Q : List String → Prop) : Prop :=
  ∃ Γ, w'.calls = w.calls ++ Γ ∧ ∀ a ∈ Γ, Q a

theorem callsExt_refl (w : W) (Q : List String → Prop) : CallsExt w w Q :=
  ⟨[], by simp, by simp⟩

theorem callsExt_of_eq {w w' : W} (Q : List String → Prop)
    (h : w'.calls = w.calls) : CallsExt w w' Q :=
  ⟨[], by simp [h], by simp⟩

theorem callsExt_trans {w1 w2 w3 : W} {Q : List String → Prop}
    (h12 : CallsExt w1 w2 Q) (h23 : CallsExt w2 w3 Q) : CallsExt w1 w3 Q := by
  obtain ⟨Γ1, e1, p1⟩ := h12
  obtain ⟨Γ2, e2, p2⟩ := h23
  refine ⟨Γ1 ++ Γ2, by rw [e2, e1, List.append_assoc], ?_⟩
  intro a ha
  rcases List.mem_append.mp ha with h | h
  · exact p1 a h
  · exact p2 a h

theorem runGrnswJson_callsExt (env : GrnswEnv) (inv : GrnswInvocation)
    (args : List String) (options : RunGrnswOptions) (w : W)
    {Q : List String → Prop} (hq : Q args) :
    CallsExt w (runGrnswJson env inv args options w).2 Q := by
  obtain ⟨_, _, _, _, hc⟩ := runGrnswJson_trace env inv args options w
  exact ⟨[args], hc, by simpa using hq⟩

theorem trySave_calls (w : W) (cp : ApplyCheckpoint) :
    (trySaveApplyCheckpoint w cp).2.calls = w.calls := by
  unfold trySaveApplyCheckpoint
  cases w.saves <;> simp

theorem saveOrThrow_w (w : W) (checkpointPath : String) (cp : ApplyCheckpoint) :
    (saveApplyCheckpointOrThrow w checkpointPath cp).2 =
      (trySaveApplyCheckpoint w cp).2 := by
  unfold saveApplyCheckpointOrThrow
  rcases h : trySaveApplyCheckpoint w cp with ⟨o, w1⟩
  cases o <;> simp [h]

theorem saveOrThrow_calls (w : W) (checkpointPath : String) (cp : ApplyCheckpoint) :
    (saveApplyCheckpointOrThrow w checkpointPath cp).2.calls = w.calls := by
  rw [saveOrThrow_w]
  exact trySave_calls w cp

/-- Head tag of milestone-loop calls. -/
def msCallQ (a : List String) : Prop :=
  a.head? = some "milestone" ∨ a.head? = some "validation"

/-- Head tag of the phase/milestone/validation creation calls. -/
def phCallQ (a : List String) : Prop :=
  a.head? = some "phase" ∨ msCallQ a

theorem applyMilestones_callsExt (ctx : RunCtx) (base : ApplyCheckpoint)
    (done : List AppliedPhase) :
    ∀ (ms : List MilestonePlan) (cur : AppliedPhase) (w : W),
      CallsExt w (applyMilestones ctx base done cur ms w).2.2 msCallQ := by
  intro ms
  induction ms with
  | nil => intro cur w; exact callsExt_refl w _
  | cons m rest ih =>
    intro cur w
    unfold applyMilestones
    rcases hr : runGrnswJson ctx.env ctx.inv
      (milestoneCallArgs m.title cur.id ctx.priority) ctx.runOptions w with ⟨r, w1⟩
    have hx1 : CallsExt w w1 msCallQ := by
      have := runGrnswJson_callsExt ctx.env ctx.inv
        (milestoneCallArgs m.title cur.id ctx.priority) ctx.runOptions w
        (Q := msCallQ) (Or.inl rfl)
      rwa [hr] at this
    cases r with
    | error e => exact hx1
    | ok payload =>
      dsimp only
      cases hf : readStringField payload "created_id"
          ("missing milestone id for " ++ m.title) with
      | error e => exact hx1
      | ok milestoneId =>
        dsimp only
        by_cases hv : ctx.withValidation
        · rw [if_pos hv]
          rcases hrv : runGrnswJson ctx.env ctx.inv
            (validationCallArgs m.title milestoneId ctx.reviewer ctx.priority
              m.acceptance) ctx.runOptions w1 with ⟨rv, w2⟩
          have hx2 : CallsExt w1 w2 msCallQ := by
            have := runGrnswJson_callsExt ctx.env ctx.inv
              (validationCallArgs m.title milestoneId ctx.reviewer ctx.priority
                m.acceptance) ctx.runOptions w1 (Q := msCallQ) (Or.inr rfl)
            rwa [hrv] at this
          cases rv with
          | error e => exact callsExt_trans hx1 hx2
          | ok vpayload =>
            dsimp only
            cases hfv : readStringField vpayload "created_id"
                ("missing validation id for " ++ m.title) with
            | error e => exact callsExt_trans hx1 hx2
            | ok vid =>
              dsimp only
              rcases hsv : saveApplyCheckpointOrThrow w2 ctx.checkpointPath _ with ⟨rs, w3⟩
              have hx3 : CallsExt w2 w3 msCallQ := by
                have h0 := saveOrThrow_calls w2 ctx.checkpointPath
                  (snapCp base done
                    { cur with milestones := cur.milestones ++
                        [{ title := m.title, id := milestoneId, validationId := some vid }] })
                rw [hsv] at h0
                exact callsExt_of_eq _ h0
              cases rs with
              | error e => exact callsExt_trans hx1 (callsExt_trans hx2 hx3)
              | ok u =>
                exact callsExt_trans hx1 (callsExt_trans hx2
                  (callsExt_trans hx3 (ih _ w3)))
        · rw [if_neg hv]
          dsimp only
          rcases hsv : saveApplyCheckpointOrThrow w1 ctx.checkpointPath _ with ⟨rs, w3⟩
          have hx3 : CallsExt w1 w3 msCallQ := by
            have h0 := saveOrThrow_calls w1 ctx.checkpointPath
              (snapCp base done
                { cur with milestones := cur.milestones ++
                    [{ title := m.title, id := milestoneId, validationId := none }] })
            rw [hsv] at h0
            exact callsExt_of_eq _ h0
          cases rs with
          | error e => exact callsExt_trans hx1 hx3
          | ok u => exact callsExt_trans hx1 (callsExt_trans hx3 (ih _ w3))

theorem applyPhases_callsExt (ctx : RunCtx) (base : ApplyCheckpoint) (epicId : String) :
    ∀ (phs : List PhasePlan) (done : List AppliedPhase) (prev : Option String) (w : W),
      CallsExt w (applyPhases ctx base epicId done prev phs w).2.2 phCallQ := by
  intro phs
  induction phs with
  | nil => intro done prev w; exact callsExt_refl w _
  | cons ph rest ih =>
    intro done prev w
    unfold applyPhases
    rcases hr : runGrnswJson ctx.env ctx.inv
      (phaseCallArgs ph.title epicId ctx.priority prev) ctx.runOptions w with ⟨r, w1⟩
    have hx1 : CallsExt w w1 phCallQ := by
      have := runGrnswJson_callsExt ctx.env ctx.inv
        (phaseCallArgs ph.title epicId ctx.priority prev) ctx.runOptions w
        (Q := phCallQ) (Or.inl (by cases prev <;> rfl))
      rwa [hr] at this
    cases r with
    | error e => exact hx1
    | ok payload =>
      dsimp only
      cases hf : readStringField payload "created_id"
          ("missing phase id for " ++ ph.title) with
      | error e => exact hx1
      | ok phaseId =>
        dsimp only
        rcases hsv : saveApplyCheckpointOrThrow w1 ctx.checkpointPath _ with ⟨rs, w2⟩
        have hx2 : CallsExt w1 w2 phCallQ := by
          have h0 := saveOrThrow_calls w1 ctx.checkpointPath
            (snapCp base done
              { title := ph.title, id := phaseId, dependsOn := prev, milestones := [] })
          rw [hsv] at h0
          exact callsExt_of_eq _ h0
        cases rs with
        | error e => exact callsExt_trans hx1 hx2
        | ok u =>
          dsimp only
          rcases hm : applyMilestones ctx base done
            { title := ph.title, id := phaseId, dependsOn := prev, milestones := [] }
            ph.milestones w2 with ⟨rm, cur', w3⟩
          have hx3 : CallsExt w2 w3 phCallQ := by
            have h0 := applyMilestones_callsExt ctx base done ph.milestones
              { title := ph.title, id := phaseId, dependsOn := prev, milestones := [] } w2
            rw [hm] at h0
            obtain ⟨Γ, hΓ, hq⟩ := h0
            exact ⟨Γ, hΓ, fun a ha => Or.inr (hq a ha)⟩
          cases rm with
          | error e => exact callsExt_trans hx1 (callsExt_trans hx2 hx3)
          | ok u2 =>
            exact callsExt_trans hx1 (callsExt_trans hx2 (callsExt_trans hx3 (ih _ _ w3)))

theorem applyPlanBody_calls (ctx : RunCtx) (plan : SpecPlan) (cp0 : ApplyCheckpoint)
    (w : W) :
    ∃ Γ, (applyPlanBody ctx plan cp0 w).2.2.calls =
        w.calls ++ epicCallArgs plan ctx.priority :: Γ ∧
      ∀ a ∈ Γ, phCallQ a := by
  unfold applyPlanBody
  rcases hr : runGrnswJson ctx.env ctx.inv (epicCallArgs plan ctx.priority)
    ctx.runOptions w with ⟨r, w1⟩
  have hw1 : w1.calls = w.calls ++ [epicCallArgs plan ctx.priority] := by
    obtain ⟨_, _, _, _, hc⟩ := runGrnswJson_trace ctx.env ctx.inv
      (epicCallArgs plan ctx.priority) ctx.runOptions w
    rw [hr] at hc
    exact hc
  have hrest : ∀ w2 : W, CallsExt w1 w2 phCallQ →
      ∃ Γ, w2.calls = w.calls ++ epicCallArgs plan ctx.priority :: Γ ∧
        ∀ a ∈ Γ, phCallQ a := by
    intro w2 hx
    obtain ⟨Γ, hΓ, hq⟩ := hx
    exact ⟨Γ, by rw [hΓ, hw1, List.append_assoc]; rfl, hq⟩
  cases r with
  | error e => exact hrest w1 (callsExt_refl w1 _)
  | ok payload =>
    dsimp only
    cases hf : readStringField payload "created_id" "missing epic id from grnsw output" with
    | error e => exact hrest w1 (callsExt_refl w1 _)
    | ok epicId =>
      dsimp only
      rcases hsv : saveApplyCheckpointOrThrow w1 ctx.checkpointPath _ with ⟨rs, w2⟩
      have hx2 : CallsExt w1 w2 phCallQ := by
        have h0 := saveOrThrow_calls w1 ctx.checkpointPath
          { cp0 with applied := { cp0.applied with epicId := some epicId } }
        rw [hsv] at h0
        exact callsExt_of_eq _ h0
      cases rs with
      | error e => exact hrest w2 hx2
      | ok u =>
        dsimp only
        rcases hp : applyPhases ctx
          { cp0 with applied := { cp0.applied with epicId := some epicId } } epicId []
          none plan.phases w2 with ⟨rp, phases, w3⟩
        have hx3 : CallsExt w2 w3 phCallQ := by
          have h0 := applyPhases_callsExt ctx
            { cp0 with applied := { cp0.applied with epicId := some epicId } } epicId
            plan.phases [] none w2
          rw [hp] at h0
          exact h0
        cases rp with
        | error e => exact hrest w3 (callsExt_trans hx2 hx3)
        | ok u2 =>
          dsimp only
          rcases ht : trySaveApplyCheckpoint w3 _ with ⟨o, w4⟩
          have hx4 : CallsExt w3 w4 phCallQ := by
            have h0 := trySave_calls w3 { withPhases
              { cp0 with applied := { cp0.applied with epicId := some epicId } } phases
              with status := CheckpointStatus.completed, error := none }
            rw [ht] at h0
            exact callsExt_of_eq _ h0
          exact hrest w4 (callsExt_trans hx2 (callsExt_trans hx3 hx4))

theorem resumeValidationStep_callsExt (ctx : RunCtx) (base : ApplyCheckpoint)
    (done pend : List AppliedPhase) (curT curId : String) (curDep : Option String)
    (mdone mtail : List AppliedMilestone) (pm : MilestonePlan)
    (am : AppliedMilestone) (w : W) :
    CallsExt w (resumeValidationStep ctx base done pend curT curId curDep mdone
      mtail pm am w).2.2 msCallQ := by
  unfold resumeValidationStep
  split
  · rcases hr : runGrnswJson ctx.env ctx.inv
      (validationCallArgs pm.title am.id ctx.reviewer ctx.priority pm.acceptance)
      ctx.runOptions w with ⟨r, w1⟩
    have hx1 : CallsExt w w1 msCallQ := by
      have := runGrnswJson_callsExt ctx.env ctx.inv
        (validationCallArgs pm.title am.id ctx.reviewer ctx.priority pm.acceptance)
        ctx.runOptions w (Q := msCallQ) (Or.inr rfl)
      rwa [hr] at this
    cases r with
    | error e => exact hx1
    | ok payload =>
      dsimp only
      cases hf : readStringField payload "created_id"
          ("missing validation id for " ++ pm.title) with
      | error e => exact hx1
      | ok vid =>
        dsimp only
        rcases hsv : saveApplyCheckpointOrThrow w1 ctx.checkpointPath _ with ⟨rs, w2⟩
        have hx2 : CallsExt w1 w2 msCallQ := by
          have h0 := saveOrThrow_calls w1 ctx.checkpointPath
            (resumeSnap base done
              { title := curT, id := curId, dependsOn := curDep,
                milestones := mdone ++ [{ am with validationId := some vid }] ++ mtail }
              pend)
          rw [hsv] at h0
          exact callsExt_of_eq _ h0
        cases rs with
        | error e => exact callsExt_trans hx1 hx2
        | ok u => exact callsExt_trans hx1 hx2
  · exact callsExt_refl w _

theorem resumeMilestones_callsExt (ctx : RunCtx) (base : ApplyCheckpoint)
    (done pend : List AppliedPhase) (curT curId : String) (curDep : Option String) :
    ∀ (planMs : List MilestonePlan) (mdone mpend : List AppliedMilestone) (w : W),
      CallsExt w (resumeMilestones ctx base done pend curT curId curDep mdone
        mpend planMs w).2.2 msCallQ := by
  intro planMs
  induction planMs with
  | nil =>
    intro mdone mpend w
    unfold resumeMilestones
    cases mpend <;> exact callsExt_refl w _
  | cons pm prest ih =>
    intro mdone mpend w
    cases mpend with
    | cons am mtail =>
      unfold resumeMilestones
      split
      · exact callsExt_refl w _
      · rcases hv : resumeValidationStep ctx base done pend curT curId curDep mdone
          mtail pm am w with ⟨rv, am', w1⟩
        have hx1 : CallsExt w w1 msCallQ := by
          have h0 := resumeValidationStep_callsExt ctx base done pend curT curId
            curDep mdone mtail pm am w
          rwa [hv] at h0
        cases rv with
        | error e => exact hx1
        | ok u => exact callsExt_trans hx1 (ih _ _ w1)
    | nil =>
      unfold resumeMilestones
      rcases hr : runGrnswJson ctx.env ctx.inv
        (milestoneCallArgs pm.title curId ctx.priority) ctx.runOptions w with ⟨r, w1⟩
      have hx1 : CallsExt w w1 msCallQ := by
        have := runGrnswJson_callsExt ctx.env ctx.inv
          (milestoneCallArgs pm.title curId ctx.priority) ctx.runOptions w
          (Q := msCallQ) (Or.inl rfl)
        rwa [hr] at this
      cases r with
      | error e => exact hx1
      | ok payload =>
        dsimp only
        cases hf : readStringField payload "created_id"
            ("missing milestone id for " ++ pm.title) with
        | error e => exact hx1
        | ok mid =>
          dsimp only
          rcases hsv : saveApplyCheckpointOrThrow w1 ctx.checkpointPath _ with ⟨rs, w2⟩
          have hx2 : CallsExt w1 w2 msCallQ := by
            have h0 := saveOrThrow_calls w1 ctx.checkpointPath
              (resumeSnap base done
                { title := curT, id := curId, dependsOn := curDep,
                  milestones := mdone ++
                    [{ title := pm.title, id := mid, validationId := none }] } pend)
            rw [hsv] at h0
            exact callsExt_of_eq _ h0
          cases rs with
          | error e => exact callsExt_trans hx1 hx2
          | ok u =>
            dsimp only
            rcases hvs : resumeValidationStep ctx base done pend curT curId curDep
              mdone [] pm { title := pm.title, id := mid, validationId := none } w2
              with ⟨rv, am', w3⟩
            have hx3 : CallsExt w2 w3 msCallQ := by
              have h0 := resumeValidationStep_callsExt ctx base done pend curT curId
                curDep mdone [] pm { title := pm.title, id := mid, validationId := none } w2
              rwa [hvs] at h0
            cases rv with
            | error e => exact callsExt_trans hx1 (callsExt_trans hx2 hx3)
            | ok u2 =>
              exact callsExt_trans hx1 (callsExt_trans hx2
                (callsExt_trans hx3 (ih _ _ w3)))

theorem resumePhases_callsExt (ctx : RunCtx) (base : ApplyCheckpoint) (epicId : String) :
    ∀ (planPhs : List PhasePlan) (done pend : List AppliedPhase) (prev : Option String)
      (w : W),
      CallsExt w (resumePhases ctx base epicId done pend prev planPhs w).2.2 phCallQ := by
  intro planPhs
  induction planPhs with
  | nil =>
    intro done pend prev w
    unfold resumePhases
    cases pend <;> exact callsExt_refl w _
  | cons pp prest ih =>
    intro done pend prev w
    cases pend with
    | cons ap ptail =>
      unfold resumePhases
      split
      · exact callsExt_refl w _
      · rcases hm : resumeMilestones ctx base done ptail ap.title ap.id ap.dependsOn
          [] ap.milestones pp.milestones w with ⟨rm, ms, w1⟩
        have hx1 : CallsExt w w1 phCallQ := by
          have h0 := resumeMilestones_callsExt ctx base done ptail ap.title ap.id
            ap.dependsOn pp.milestones [] ap.milestones w
          rw [hm] at h0
          obtain ⟨Γ, hΓ, hq⟩ := h0
          exact ⟨Γ, hΓ, fun a ha => Or.inr (hq a ha)⟩
        cases rm with
        | error e => exact hx1
        | ok u =>
          dsimp only
          split
          · exact hx1
          · exact callsExt_trans hx1 (ih _ _ _ w1)
    | nil =>
      unfold resumePhases
      rcases hr : runGrnswJson ctx.env ctx.inv
        (phaseCallArgs pp.title epicId ctx.priority prev) ctx.runOptions w with ⟨r, w1⟩
      have hx1 : CallsExt w w1 phCallQ := by
        have := runGrnswJson_callsExt ctx.env ctx.inv
          (phaseCallArgs pp.title epicId ctx.priority prev) ctx.runOptions w
          (Q := phCallQ) (Or.inl (by cases prev <;> rfl))
        rwa [hr] at this
      cases r with
      | error e => exact hx1
      | ok payload =>
        dsimp only
        cases hf : readStringField payload "created_id"
            ("missing phase id for " ++ pp.title) with
        | error e => exact hx1
        | ok pid =>
          dsimp only
          rcases hsv : saveApplyCheckpointOrThrow w1 ctx.checkpointPath _ with ⟨rs, w2⟩
          have hx2 : CallsExt w1 w2 phCallQ := by
            have h0 := saveOrThrow_calls w1 ctx.checkpointPath
              (resumeSnap base done
                { title := pp.title, id := pid, dependsOn := prev, milestones := [] } [])
            rw [hsv] at h0
            exact callsExt_of_eq _ h0
          cases rs with
          | error e => exact callsExt_trans hx1 hx2
          | ok u =>
            dsimp only
            rcases hm : resumeMilestones ctx base done [] pp.title pid prev [] []
              pp.milestones w2 with ⟨rm, ms, w3⟩
            have hx3 : CallsExt w2 w3 phCallQ := by
              have h0 := resumeMilestones_callsExt ctx base done [] pp.title pid prev
                pp.milestones [] [] w2
              rw [hm] at h0
              obtain ⟨Γ, hΓ, hq⟩ := h0
              exact ⟨Γ, hΓ, fun a ha => Or.inr (hq a ha)⟩
            cases rm with
            | error e => exact callsExt_trans hx1 (callsExt_trans hx2 hx3)
            | ok u2 =>
              dsimp only
              split
              · exact callsExt_trans hx1 (callsExt_trans hx2 hx3)
              · exact callsExt_trans hx1 (callsExt_trans hx2
                  (callsExt_trans hx3 (ih _ _ _ w3)))

theorem resumePlanBody_callsExt (ctx : RunCtx) (plan : SpecPlan)
    (cp1 : ApplyCheckpoint) (w : W) (eid : String)
    (heid : cp1.applied.epicId = some eid) :
    CallsExt w (resumePlanBody ctx plan cp1 w).2.2 phCallQ := by
  unfold resumePlanBody
  rw [heid]
  dsimp only
  rcases hp : resumePhases ctx cp1 eid [] cp1.applied.phases none plan.phases w
    with ⟨rp, phases, w1⟩
  have hx1 : CallsExt w w1 phCallQ := by
    have h0 := resumePhases_callsExt ctx cp1 eid plan.phases [] cp1.applied.phases
      none w
    rwa [hp] at h0
  cases rp with
  | error e => exact hx1
  | ok u =>
    dsimp only
    rcases ht : trySaveApplyCheckpoint w1 _ with ⟨o, w2⟩
    have hx2 : CallsExt w1 w2 phCallQ := by
      have h0 := trySave_calls w1 { withPhases cp1 phases with
        status := CheckpointStatus.completed, error := none }
      rw [ht] at h0
      exact callsExt_of_eq _ h0
    cases hta : toAppliedPlanFromCheckpoint { withPhases cp1 phases with
        status := CheckpointStatus.completed, error := none } plan with
    | error e => exact callsExt_trans hx1 hx2
    | ok applied => exact callsExt_trans hx1 hx2

theorem resumePlan_callsExt (env : GrnswEnv) (inv : GrnswInvocation) (plan : SpecPlan)
    (cp : ApplyCheckpoint) (checkpointPath : String) (options : RunGrnswOptions)
    (w : W) (eid : String) (heid : cp.applied.epicId = some eid) :
    CallsExt w (resumePlan env inv plan cp checkpointPath options w).2.2 phCallQ := by
  unfold resumePlan
  cases ha : assertCheckpointMatchesPlan cp plan with
  | error e => exact callsExt_refl w _
  | ok u =>
    dsimp only
    rcases hs : saveApplyCheckpointOrThrow w checkpointPath
      { cp with status := CheckpointStatus.inProgress, error := none } with ⟨rs, w1⟩
    have hx1 : CallsExt w w1 phCallQ := by
      have h0 := saveOrThrow_calls w checkpointPath
        { cp with status := CheckpointStatus.inProgress, error := none }
      rw [hs] at h0
      exact callsExt_of_eq _ h0
    cases rs with
    | error e => exact hx1
    | ok u2 =>
      dsimp only
      rcases hb : resumePlanBody { env := env, inv := inv, runOptions := options, checkpointPath := checkpointPath, priority := cp.priority, withValidation := cp.withValidation, reviewer := cp.reviewer } plan { cp with status := CheckpointStatus.inProgress, error := none } w1 with ⟨rb, cpB, w2⟩
      have hx2 : CallsExt w1 w2 phCallQ := by
        have h0 := resumePlanBody_callsExt { env := env, inv := inv, runOptions := options, checkpointPath := checkpointPath, priority := cp.priority, withValidation := cp.withValidation, reviewer := cp.reviewer } plan { cp with status := CheckpointStatus.inProgress, error := none } w1 eid heid
        rwa [hb] at h0
      cases rb with
      | ok applied => exact callsExt_trans hx1 hx2
      | error msg =>
        dsimp only
        rcases ht : trySaveApplyCheckpoint w2 _ with ⟨o, w3⟩
        have hx3 : CallsExt w2 w3 phCallQ := by
          have h0 := trySave_calls w2 { cpB with status := CheckpointStatus.failed, error := some msg }
          rw [ht] at h0
          exact callsExt_of_eq _ h0
        exact callsExt_trans hx1 (callsExt_trans hx2 hx3)

/-- Number of `epic new`-style calls (head tag `epic`) in a logical call list. -/
def countEpicCalls (calls : List (List String)) : Nat :=
  (calls.filter (fun a => a.head? == some "epic")).length

theorem countEpicCalls_of_phCallQ {Γ : List (List String)}
    (h : ∀ a ∈ Γ, phCallQ a) : countEpicCalls Γ = 0 := by
  unfold countEpicCalls
  rw [List.length_eq_zero, List.filter_eq_nil]
  intro a ha
  rcases h a ha with h1 | h1 | h1 <;> simp [h1]

/-- C3: a resume of a checkpoint whose epic id is already recorded never
issues an `epic new` call (every call it makes is a phase, milestone or
validation creation); consequently, across a failed apply that persisted the
epic id followed by such a resume, exactly one `epic new` call is made in
total — one by the apply run, none by the resume. -/
theorem resume_never_recreates_epic :
    (∀ (env : GrnswEnv) (inv : GrnswInvocation) (plan : SpecPlan)
      (cp : ApplyCheckpoint) (checkpointPath : String) (options : RunGrnswOptions)
      (w : W) (eid : String), cp.applied.epicId = some eid →
      ∃ Γ, (resumePlan env inv plan cp checkpointPath options w).2.2.calls =
          w.calls ++ Γ ∧ ∀ a ∈ Γ, a.head? ≠ some "epic") ∧
    (∀ (env : GrnswEnv) (inv : GrnswInvocation) (plan : SpecPlan) (args : ParsedArgs)
      (checkpointPath : String) (options : RunGrnswOptions) (w : W) e cp1 w1
      (eid : String),
      w.calls = [] →
      applyPlan env inv plan args checkpointPath options w = (.error e, cp1, w1) →
      cp1.applied.epicId = some eid →
      ∀ (env2 : GrnswEnv) (inv2 : GrnswInvocation) (options2 : RunGrnswOptions)
        (w2 : W), w2.calls = [] →
        countEpicCalls w1.calls +
          countEpicCalls
            (resumePlan env2 inv2 plan cp1 checkpointPath options2 w2).2.2.calls = 1) := by
  constructor
  · intro env inv plan cp checkpointPath options w eid heid
    obtain ⟨Γ, hΓ, hq⟩ := resumePlan_callsExt env inv plan cp checkpointPath options
      w eid heid
    refine ⟨Γ, hΓ, ?_⟩
    intro a ha
    rcases hq a ha with h1 | h1 | h1 <;> simp [h1]
  · intro env inv plan args checkpointPath options w e cp1 w1 eid hw0 happ heid
    intro env2 inv2 options2 w2 hw2
    have happly : countEpicCalls w1.calls = 1 := by
      unfold applyPlan at happ
      dsimp only at happ
      rcases hsv : saveApplyCheckpointOrThrow w checkpointPath _ with ⟨rs, wA⟩
      rw [hsv] at happ
      cases rs with
      | error e0 =>
        dsimp only at happ
        simp only [Prod.mk.injEq] at happ
        rw [← happ.2.1] at heid
        simp at heid
      | ok u =>
        dsimp only at happ
        rcases hb : applyPlanBody _ plan _ wA with ⟨rb, cpB, wB⟩
        rw [hb] at happ
        have hcalls : ∃ Γ, wB.calls = wA.calls ++
            epicCallArgs plan args.priority :: Γ ∧ ∀ a ∈ Γ, phCallQ a := by
          have h0 := applyPlanBody_calls
            { env := env, inv := inv, runOptions := options,
              checkpointPath := checkpointPath, priority := args.priority,
              withValidation := args.withValidation,
              reviewer := (args.reviewer <|> env.specReviewer <|> env.user).getD
                "reviewer" } plan
            { status := CheckpointStatus.inProgress, specPath := plan.specPath,
              epicTitle := plan.epicTitle, priority := args.priority,
              withValidation := args.withValidation,
              reviewer := (args.reviewer <|> env.specReviewer <|> env.user).getD
                "reviewer",
              applied := { epicId := none, phases := [] }, error := none } wA
          rw [hb] at h0
          exact h0
        have hwA : wA.calls = [] := by
          have h0 := saveOrThrow_calls w checkpointPath
            { status := CheckpointStatus.inProgress, specPath := plan.specPath,
              epicTitle := plan.epicTitle, priority := args.priority,
              withValidation := args.withValidation,
              reviewer := (args.reviewer <|> env.specReviewer <|> env.user).getD
                "reviewer",
              applied := { epicId := none, phases := [] }, error := none }
          rw [hsv] at h0
          rw [h0, hw0]
        obtain ⟨Γ, hΓ, hq⟩ := hcalls
        have hw1calls : w1.calls = epicCallArgs plan args.priority :: Γ := by
          cases rb with
          | ok applied => simp only [Prod.mk.injEq] at happ; cases happ.1
          | error msg =>
            dsimp only at happ
            rcases htr : trySaveApplyCheckpoint wB _ with ⟨o, wC⟩
            rw [htr] at happ
            simp only [Prod.mk.injEq] at happ
            have hC : wC.calls = wB.calls := by
              have h0 := trySave_calls wB { cpB with
                status := CheckpointStatus.failed, error := some msg }
              rw [htr] at h0
              exact h0
            rw [← happ.2.2, hC, hΓ, hwA]
            rfl
        rw [hw1calls]
        unfold countEpicCalls
        rw [List.filter_cons_of_pos (by rfl)]
        have := countEpicCalls_of_phCallQ hq
        unfold countEpicCalls at this
        simp [this]
    have hres : countEpicCalls
        (resumePlan env2 inv2 plan cp1 checkpointPath options2 w2).2.2.calls = 0 := by
      obtain ⟨Γ, hΓ, hq⟩ := resumePlan_callsExt env2 inv2 plan cp1 checkpointPath
        options2 w2 eid heid
      rw [hΓ, hw2]
      unfold countEpicCalls
      rw [List.nil_append, List.length_eq_zero, List.filter_eq_nil]
      intro a ha
      rcases hq a ha with h1 | h1 | h1 <;> simp [h1]
    rw [happly, hres]

/-- Witness for C3: resuming the failed C1 checkpoint issues no epic call and
the apply + resume pair makes exactly one epic call. -/
theorem resume_never_recreates_epic_witness :
    (∃ Γ, (resumePlan {} { command := "grnsw" } c1Plan applyC1Run.2.1 "cp.json" {}
        { execs := [okCreated "M2"] }).2.2.calls = [] ++ Γ ∧
      ∀ a ∈ Γ, a.head? ≠ some "epic") ∧
    countEpicCalls applyC1Run.2.2.calls +
      countEpicCalls (resumePlan {} { command := "grnsw" } c1Plan applyC1Run.2.1
        "cp.json" {} { execs := [okCreated "M2"] }).2.2.calls = 1 := by
  constructor
  · have h := resume_never_recreates_epic.1 {} { command := "grnsw" } c1Plan
      applyC1Run.2.1 "cp.json" {} { execs := [okCreated "M2"] } "E1" (by decide)
    simpa using h
  · exact resume_never_recreates_epic.2 {} { command := "grnsw" } c1Plan {}
      "cp.json" {} c1World c1ErrMsg applyC1Run.2.1 applyC1Run.2.2 "E1" rfl rfl
      (by decide) {} { command := "grnsw" } {} { execs := [okCreated "M2"] } rfl

/-- Linear dependency chain: the first phase's `dependsOn` is `prev`, and each
subsequent phase's `dependsOn` is the preceding phase's external id. -/
def chainFromB : Option String → List AppliedPhase → Bool
  | _, [] => true
  | prev, p :: rest => (p.dependsOn == prev) && chainFromB (some p.id) rest

theorem applyMilestones_preserves (ctx : RunCtx) (base : ApplyCheckpoint)
    (done : List AppliedPhase) :
    ∀ (ms : List MilestonePlan) (cur : AppliedPhase) (w : W) r cur' w',
      applyMilestones ctx base done cur ms w = (r, cur', w') →
      cur'.id = cur.id ∧ cur'.dependsOn = cur.dependsOn := by
  intro ms
  induction ms with
  | nil =>
    intro cur w r cur' w' h
    unfold applyMilestones at h
    simp only [Prod.mk.injEq] at h
    rw [← h.2.1]
    exact ⟨rfl, rfl⟩
  | cons m rest ih =>
    intro cur w r cur' w' h
    unfold applyMilestones at h
    split at h
    · simp only [Prod.mk.injEq] at h
      rw [← h.2.1]
      exact ⟨rfl, rfl⟩
    · split at h
      · simp only [Prod.mk.injEq] at h
        rw [← h.2.1]
        exact ⟨rfl, rfl⟩
      · dsimp only at h
        split at h
        · simp only [Prod.mk.injEq] at h
          rw [← h.2.1]
          exact ⟨rfl, rfl⟩
        · split at h
          · simp only [Prod.mk.injEq] at h
            rw [← h.2.1]
            exact ⟨rfl, rfl⟩
          · have h2 := ih _ _ _ _ _ h
            exact ⟨h2.1, h2.2⟩

theorem applyPhases_chain (ctx : RunCtx) (base : ApplyCheckpoint) (epicId : String) :
    ∀ (phs : List PhasePlan) (done : List AppliedPhase) (prev : Option String)
      (w : W) r phases w',
      applyPhases ctx base epicId done prev phs w = (r, phases, w') →
      ∃ δ, phases = done ++ δ ∧ chainFromB prev δ = true := by
  intro phs
  induction phs with
  | nil =>
    intro done prev w r phases w' h
    unfold applyPhases at h
    simp only [Prod.mk.injEq] at h
    exact ⟨[], by rw [← h.2.1]; simp, rfl⟩
  | cons ph rest ih =>
    intro done prev w r phases w' h
    unfold applyPhases at h
    rcases hr : runGrnswJson ctx.env ctx.inv
      (phaseCallArgs ph.title epicId ctx.priority prev) ctx.runOptions w with ⟨rr, w1⟩
    rw [hr] at h
    cases rr with
    | error e =>
      simp only [Prod.mk.injEq] at h
      exact ⟨[], by rw [← h.2.1]; simp, rfl⟩
    | ok payload =>
      dsimp only at h
      cases hf : readStringField payload "created_id"
          ("missing phase id for " ++ ph.title) with
      | error e =>
        rw [hf] at h
        simp only [Prod.mk.injEq] at h
        exact ⟨[], by rw [← h.2.1]; simp, rfl⟩
      | ok phaseId =>
        rw [hf] at h
        dsimp only at h
        rcases hs : saveApplyCheckpointOrThrow w1 ctx.checkpointPath
          (snapCp base done
            { title := ph.title, id := phaseId, dependsOn := prev, milestones := [] })
          with ⟨rs, w2⟩
        rw [hs] at h
        cases rs with
        | error e =>
          dsimp only at h
          simp only [Prod.mk.injEq] at h
          refine ⟨[{ title := ph.title, id := phaseId, dependsOn := prev, milestones := [] }], by rw [← h.2.1], ?_⟩
          simp [chainFromB]
        | ok u =>
          dsimp only at h
          rcases hm : applyMilestones ctx base done
            { title := ph.title, id := phaseId, dependsOn := prev, milestones := [] }
            ph.milestones w2 with ⟨rm, curA, w3⟩
          rw [hm] at h
          have hpres := applyMilestones_preserves ctx base done ph.milestones _ w2
            rm curA w3 hm
          cases rm with
          | error e =>
            dsimp only at h
            simp only [Prod.mk.injEq] at h
            refine ⟨[curA], by rw [← h.2.1], ?_⟩
            simp [chainFromB, hpres.2]
          | ok u2 =>
            dsimp only at h
            obtain ⟨δ, hδ, hch⟩ := ih (done ++ [curA]) (some phaseId) w3 r phases w' h
            refine ⟨curA :: δ, by rw [hδ]; simp, ?_⟩
            simp [chainFromB, hpres.1, hpres.2, hch]

theorem resumePhases_chain (ctx : RunCtx) (base : ApplyCheckpoint) (epicId : String) :
    ∀ (phs : List PhasePlan) (done pend : List AppliedPhase) (prev : Option String)
      (w : W) r phases w',
      resumePhases ctx base epicId done pend prev phs w = (r, phases, w') →
      chainFromB prev pend = true →
      ∃ δ, phases = done ++ δ ∧ chainFromB prev δ = true := by
  intro phs
  induction phs with
  | nil =>
    intro done pend prev w r phases w' h hch
    cases pend with
    | nil =>
      unfold resumePhases at h
      simp only [Prod.mk.injEq] at h
      exact ⟨[], by rw [← h.2.1]; simp, rfl⟩
    | cons ap ptail =>
      unfold resumePhases at h
      simp only [Prod.mk.injEq] at h
      exact ⟨ap :: ptail, by rw [← h.2.1], hch⟩
  | cons pp rest ih =>
    intro done pend prev w r phases w' h hch
    cases pend with
    | cons ap ptail =>
      simp only [chainFromB, Bool.and_eq_true] at hch
      unfold resumePhases at h
      split at h
      · simp only [Prod.mk.injEq] at h
        refine ⟨ap :: ptail, by rw [← h.2.1], ?_⟩
        simp [chainFromB, hch.1, hch.2]
      · rcases hm : resumeMilestones ctx base done ptail ap.title ap.id ap.dependsOn
          [] ap.milestones pp.milestones w with ⟨rm, ms, w1⟩
        rw [hm] at h
        cases rm with
        | error e =>
          dsimp only at h
          simp only [Prod.mk.injEq] at h
          refine ⟨{ ap with milestones := ms } :: ptail, by rw [← h.2.1], ?_⟩
          simp [chainFromB, hch.1, hch.2]
        | ok u =>
          dsimp only at h
          split at h
          · simp only [Prod.mk.injEq] at h
            refine ⟨{ ap with milestones := ms } :: ptail, by rw [← h.2.1], ?_⟩
            simp [chainFromB, hch.1, hch.2]
          · obtain ⟨δ, hδ, hchδ⟩ := ih (done ++ [{ ap with milestones := ms }]) ptail
              (some ap.id) w1 r phases w' h hch.2
            refine ⟨{ ap with milestones := ms } :: δ, by rw [hδ]; simp, ?_⟩
            simp [chainFromB, hch.1, hchδ]
    | nil =>
      unfold resumePhases at h
      rcases hr : runGrnswJson ctx.env ctx.inv
        (phaseCallArgs pp.title epicId ctx.priority prev) ctx.runOptions w with ⟨rr, w1⟩
      rw [hr] at h
      cases rr with
      | error e =>
        simp only [Prod.mk.injEq] at h
        exact ⟨[], by rw [← h.2.1]; simp, rfl⟩
      | ok payload =>
        dsimp only at h
        cases hf : readStringField payload "created_id"
            ("missing phase id for " ++ pp.title) with
        | error e =>
          rw [hf] at h
          simp only [Prod.mk.injEq] at h
          exact ⟨[], by rw [← h.2.1]; simp, rfl⟩
        | ok pid =>
          rw [hf] at h
          dsimp only at h
          rcases hs : saveApplyCheckpointOrThrow w1 ctx.checkpointPath
            (resumeSnap base done
              { title := pp.title, id := pid, dependsOn := prev, milestones := [] } [])
            with ⟨rs, w2⟩
          rw [hs] at h
          cases rs with
          | error e =>
            dsimp only at h
            simp only [Prod.mk.injEq] at h
            refine ⟨[{ title := pp.title, id := pid, dependsOn := prev, milestones := [] }], by rw [← h.2.1], ?_⟩
            simp [chainFromB]
          | ok u =>
            dsimp only at h
            rcases hm : resumeMilestones ctx base done [] pp.title pid prev [] []
              pp.milestones w2 with ⟨rm, ms, w3⟩
            rw [hm] at h
            cases rm with
            | error e =>
              dsimp only at h
              simp only [Prod.mk.injEq] at h
              refine ⟨[{ title := pp.title, id := pid, dependsOn := prev, milestones := ms }], by rw [← h.2.1], ?_⟩
              simp [chainFromB]
            | ok u2 =>
              dsimp only at h
              split at h
              · simp only [Prod.mk.injEq] at h
                refine ⟨[{ title := pp.title, id := pid, dependsOn := prev, milestones := ms }], by rw [← h.2.1], ?_⟩
                simp [chainFromB]
              · obtain ⟨δ, hδ, hchδ⟩ := ih
                  (done ++ [{ title := pp.title, id := pid, dependsOn := prev, milestones := ms }])
                  [] (some pid) w3 r phases w' h rfl
                refine ⟨{ title := pp.title, id := pid, dependsOn := prev, milestones := ms } :: δ, by rw [hδ]; simp, ?_⟩
                simp [chainFromB, hchδ]

theorem applyPlanBody_ok_chain (ctx : RunCtx) (plan : SpecPlan)
    (cp0 : ApplyCheckpoint) (w : W) (applied : AppliedPlan)
    (cpE : ApplyCheckpoint) (w' : W)
    (h : applyPlanBody ctx plan cp0 w = (.ok applied, cpE, w')) :
    chainFromB none applied.phases = true := by
  unfold applyPlanBody at h
  rcases hr : runGrnswJson ctx.env ctx.inv (epicCallArgs plan ctx.priority)
    ctx.runOptions w with ⟨rr, w1⟩
  rw [hr] at h
  cases rr with
  | error e =>
    simp only [Prod.mk.injEq] at h
    exact absurd h.1 (by simp)
  | ok payload =>
    dsimp only at h
    cases hf : readStringField payload "created_id"
        "missing epic id from grnsw output" with
    | error e =>
      rw [hf] at h
      simp only [Prod.mk.injEq] at h
      exact absurd h.1 (by simp)
    | ok epicId =>
      rw [hf] at h
      dsimp only at h
      rcases hs : saveApplyCheckpointOrThrow w1 ctx.checkpointPath
        { cp0 with applied := { cp0.applied with epicId := some epicId } }
        with ⟨rs, w2⟩
      rw [hs] at h
      cases rs with
      | error e =>
        dsimp only at h
        simp only [Prod.mk.injEq] at h
        exact absurd h.1 (by simp)
      | ok u =>
        dsimp only at h
        rcases hp : applyPhases ctx
          { cp0 with applied := { cp0.applied with epicId := some epicId } }
          epicId [] none plan.phases w2 with ⟨rp, phases, w3⟩
        rw [hp] at h
        cases rp with
        | error e =>
          dsimp only at h
          simp only [Prod.mk.injEq] at h
          exact absurd h.1 (by simp)
        | ok u2 =>
          dsimp only at h
          rcases ht : trySaveApplyCheckpoint w3 _ with ⟨o, w4⟩
          rw [ht] at h
          dsimp only at h
          simp only [Prod.mk.injEq, Except.ok.injEq] at h
          obtain ⟨δ, hδ, hch⟩ := applyPhases_chain ctx
            { cp0 with applied := { cp0.applied with epicId := some epicId } }
            epicId plan.phases [] none w2 (.ok u2) phases w3 hp
          rw [← h.1]
          dsimp only
          rw [hδ]
          simpa using hch

theorem resumePlanBody_ok_chain (ctx : RunCtx) (plan : SpecPlan)
    (cp1 : ApplyCheckpoint) (w : W) (applied : AppliedPlan)
    (cpE : ApplyCheckpoint) (w' : W)
    (hch0 : chainFromB none cp1.applied.phases = true)
    (h : resumePlanBody ctx plan cp1 w = (.ok applied, cpE, w')) :
    chainFromB none applied.phases = true := by
  unfold resumePlanBody at h
  cases heid : cp1.applied.epicId with
  | some eid =>
    rw [heid] at h
    dsimp only at h
    rcases hp : resumePhases ctx cp1 eid [] cp1.applied.phases none plan.phases w
      with ⟨rp, phases, w1⟩
    rw [hp] at h
    cases rp with
    | error e =>
      dsimp only at h
      simp only [Prod.mk.injEq] at h
      exact absurd h.1 (by simp)
    | ok u =>
      dsimp only at h
      rcases ht : trySaveApplyCheckpoint w1 _ with ⟨o, w2⟩
      rw [ht] at h
      dsimp only at h
      unfold toAppliedPlanFromCheckpoint withPhases at h
      dsimp only at h
      rw [heid] at h
      dsimp only at h
      simp only [Prod.mk.injEq, Except.ok.injEq] at h
      obtain ⟨δ, hδ, hch⟩ := resumePhases_chain ctx cp1 eid plan.phases []
        cp1.applied.phases none w (.ok u) phases w1 hp hch0
      rw [← h.1]
      dsimp only
      rw [hδ]
      simpa using hch
  | none =>
    rw [heid] at h
    dsimp only at h
    rcases hr : runGrnswJson ctx.env ctx.inv (epicCallArgs plan ctx.priority)
      ctx.runOptions w with ⟨rr, w1⟩
    rw [hr] at h
    cases rr with
    | error e =>
      dsimp only at h
      simp only [Prod.mk.injEq] at h
      exact absurd h.1 (by simp)
    | ok payload =>
      dsimp only at h
      cases hf : readStringField payload "created_id"
          "missing epic id from grnsw output" with
      | error e =>
        rw [hf] at h
        dsimp only at h
        simp only [Prod.mk.injEq] at h
        exact absurd h.1 (by simp)
      | ok eid =>
        rw [hf] at h
        dsimp only at h
        rcases hs : saveApplyCheckpointOrThrow w1 ctx.checkpointPath
          { cp1 with applied := { cp1.applied with epicId := some eid } }
          with ⟨rs, w2⟩
        rw [hs] at h
        cases rs with
        | error e =>
          dsimp only at h
          simp only [Prod.mk.injEq] at h
          exact absurd h.1 (by simp)
        | ok u =>
          dsimp only at h
          rcases hp : resumePhases ctx
            { cp1 with applied := { cp1.applied with epicId := some eid } }
            eid [] cp1.applied.phases none plan.phases w2 with ⟨rp, phases, w3⟩
          rw [hp] at h
          cases rp with
          | error e =>
            dsimp only at h
            simp only [Prod.mk.injEq] at h
            exact absurd h.1 (by simp)
          | ok u2 =>
            dsimp only at h
            rcases ht : trySaveApplyCheckpoint w3 _ with ⟨o, w4⟩
            rw [ht] at h
            dsimp only at h
            unfold toAppliedPlanFromCheckpoint withPhases at h
            dsimp only at h
            simp only [Prod.mk.injEq, Except.ok.injEq] at h
            obtain ⟨δ, hδ, hch⟩ := resumePhases_chain ctx
              { cp1 with applied := { cp1.applied with epicId := some eid } }
              eid plan.phases [] cp1.applied.phases none w2 (.ok u2) phases w3 hp hch0
            rw [← h.1]
            dsimp only
            rw [hδ]
            simpa using hch

/-- Plan of the C5 scenario: two milestone-free phases. -/
def c5Plan : SpecPlan :=
  { specPath := "spec5.md", epicTitle := "E5",
    phases := [{ title := "P1" }, { title := "P2" }] }

/-- First applied phase of the C5 scenario. -/
def c5Phase1 : AppliedPhase := { title := "P1", id := "PH1" }

/-- Checkpoint of a partial C5 apply: the epic and the first phase exist. -/
def c5Cp : ApplyCheckpoint :=
  { status := .failed, specPath := "spec5.md", epicTitle := "E5", priority := 1,
    withValidation := false, reviewer := "reviewer",
    applied := { epicId := some "E1", phases := [c5Phase1] }, error := some "x" }

/-- The applied plan returned by the full C5 apply. -/
def c5ApplyApplied : AppliedPlan :=
  { epicTitle := "E5", epicId := "E1",
    phases := [{ title := "P1", id := "PH1" },
               { title := "P2", id := "PH2", dependsOn := some "PH1" }],
    specPath := "spec5.md" }

/-- The applied plan returned by the C5 resume of `c5Cp`. -/
def c5ResumeApplied : AppliedPlan :=
  { epicTitle := "E5", epicId := "E1",
    phases := [c5Phase1, { title := "P2", id := "PH2", dependsOn := some "PH1" }],
    specPath := "spec5.md" }

/-- Run context of the C5 `resumePhases` fragment. -/
def c5Ctx : RunCtx :=
  { env := {}, inv := { command := "grnsw" }, runOptions := {},
    checkpointPath := "cp.json", priority := 1, withValidation := false,
    reviewer := "reviewer" }

/-- C5: every successful apply returns phases forming a strict linear
`dependsOn` chain starting from no dependency; every successful resume of a
checkpoint whose recorded phases already chain returns phases that chain the
same way; and whenever the resume phase loop has exhausted the loaded phases,
the next phase it creates carries `dependsOn` equal to the id of the last
previously applied phase (the running `prev`). -/
theorem phases_form_linear_chain :
    (∀ (env : GrnswEnv) (inv : GrnswInvocation) (plan : SpecPlan) (args : ParsedArgs)
      (checkpointPath : String) (options : RunGrnswOptions) (w : W)
      (applied : AppliedPlan),
      (applyPlan env inv plan args checkpointPath options w).1 = .ok applied →
      chainFromB none applied.phases = true) ∧
    (∀ (env : GrnswEnv) (inv : GrnswInvocation) (plan : SpecPlan)
      (cp : ApplyCheckpoint) (checkpointPath : String) (options : RunGrnswOptions)
      (w : W) (applied : AppliedPlan),
      chainFromB none cp.applied.phases = true →
      (resumePlan env inv plan cp checkpointPath options w).1 = .ok applied →
      chainFromB none applied.phases = true) ∧
    (∀ (ctx : RunCtx) (base : ApplyCheckpoint) (epicId : String)
      (done : List AppliedPhase) (prev : Option String) (pps : List PhasePlan)
      (w : W) (ap : AppliedPhase) (δ : List AppliedPhase),
      (resumePhases ctx base epicId done [] prev pps w).2.1 = done ++ ap :: δ →
      ap.dependsOn = prev) := by
  refine ⟨?_, ?_, ?_⟩
  · intro env inv plan args checkpointPath options w applied h
    rcases hA : applyPlan env inv plan args checkpointPath options w with ⟨rA, cpA, wA⟩
    rw [hA] at h
    dsimp only at h
    unfold applyPlan at hA
    dsimp only at hA
    rcases hs : saveApplyCheckpointOrThrow w checkpointPath _ with ⟨rs, w1⟩
    rw [hs] at hA
    cases rs with
    | error e =>
      dsimp only at hA
      simp only [Prod.mk.injEq] at hA
      rw [← hA.1] at h
      exact absurd h (by simp)
    | ok u =>
      dsimp only at hA
      rcases hb : applyPlanBody _ plan _ w1 with ⟨rb, cpB, wB⟩
      rw [hb] at hA
      cases rb with
      | error msg =>
        dsimp only at hA
        rcases ht : trySaveApplyCheckpoint wB _ with ⟨o, wC⟩
        rw [ht] at hA
        dsimp only at hA
        simp only [Prod.mk.injEq] at hA
        rw [← hA.1] at h
        exact absurd h (by simp)
      | ok appliedB =>
        dsimp only at hA
        simp only [Prod.mk.injEq] at hA
        rw [← hA.1] at h
        simp only [Except.ok.injEq] at h
        rw [← h]
        exact applyPlanBody_ok_chain _ plan _ w1 appliedB cpB wB hb
  · intro env inv plan cp checkpointPath options w applied hch0 h
    rcases hA : resumePlan env inv plan cp checkpointPath options w with ⟨rA, cpA, wA⟩
    rw [hA] at h
    dsimp only at h
    unfold resumePlan at hA
    cases ha : assertCheckpointMatchesPlan cp plan with
    | error e =>
      rw [ha] at hA
      simp only [Prod.mk.injEq] at hA
      rw [← hA.1] at h
      exact absurd h (by simp)
    | ok u =>
      rw [ha] at hA
      dsimp only at hA
      rcases hs : saveApplyCheckpointOrThrow w checkpointPath
        { cp with status := CheckpointStatus.inProgress, error := none } with ⟨rs, w1⟩
      rw [hs] at hA
      cases rs with
      | error e =>
        dsimp only at hA
        simp only [Prod.mk.injEq] at hA
        rw [← hA.1] at h
        exact absurd h (by simp)
      | ok u2 =>
        dsimp only at hA
        rcases hb : resumePlanBody { env := env, inv := inv, runOptions := options, checkpointPath := checkpointPath, priority := cp.priority, withValidation := cp.withValidation, reviewer := cp.reviewer } plan { cp with status := CheckpointStatus.inProgress, error := none } w1 with ⟨rb, cpB, wB⟩
        rw [hb] at hA
        cases rb with
        | error msg =>
          dsimp only at hA
          rcases ht : trySaveApplyCheckpoint wB _ with ⟨o, wC⟩
          rw [ht] at hA
          dsimp only at hA
          simp only [Prod.mk.injEq] at hA
          rw [← hA.1] at h
          exact absurd h (by simp)
        | ok appliedB =>
          dsimp only at hA
          simp only [Prod.mk.injEq] at hA
          rw [← hA.1] at h
          simp only [Except.ok.injEq] at h
          rw [← h]
          exact resumePlanBody_ok_chain { env := env, inv := inv, runOptions := options, checkpointPath := checkpointPath, priority := cp.priority, withValidation := cp.withValidation, reviewer := cp.reviewer } plan { cp with status := CheckpointStatus.inProgress, error := none } w1 appliedB cpB wB hch0 hb
  · intro ctx base epicId done prev pps w ap δ h
    rcases hres : resumePhases ctx base epicId done [] prev pps w with ⟨r, phases, w'⟩
    rw [hres] at h
    dsimp only at h
    obtain ⟨δt, hδt, hcht⟩ := resumePhases_chain ctx base epicId pps done [] prev w
      r phases w' hres rfl
    have hδeq : δt = ap :: δ := List.append_cancel_left (hδt.symm.trans h)
    rw [hδeq] at hcht
    simp only [chainFromB, Bool.and_eq_true, beq_iff_eq] at hcht
    exact hcht.1

set_option maxRecDepth 32768 in
/-- Witness for C5: the two-phase apply scenario yields a chained phase list,
the resume of its one-phase checkpoint yields a chained phase list, and the
phase newly created by that resume depends on the loaded phase's id. -/
theorem phases_form_linear_chain_witness :
    chainFromB none c5ApplyApplied.phases = true ∧
    chainFromB none c5ResumeApplied.phases = true ∧
    AppliedPhase.dependsOn { title := "P2", id := "PH2", dependsOn := some "PH1", milestones := [] } = some "PH1" := by
  refine ⟨?_, ?_, ?_⟩
  · exact phases_form_linear_chain.1 {} { command := "grnsw" } c5Plan {} "cp.json" {}
      { execs := [okCreated "E1", okCreated "PH1", okCreated "PH2"] } c5ApplyApplied
      rfl
  · exact phases_form_linear_chain.2.1 {} { command := "grnsw" } c5Plan c5Cp "cp.json"
      {} { execs := [okCreated "PH2"] } c5ResumeApplied (by decide) rfl
  · exact phases_form_linear_chain.2.2 c5Ctx c5Cp "E1" [c5Phase1] (some "PH1")
      [{ title := "P2" }] { execs := [okCreated "PH2"] }
      { title := "P2", id := "PH2", dependsOn := some "PH1", milestones := [] } []
      (by decide)

/-- A recorded subprocess attempt of the health check (`doctor` among the
command arguments). -/
def isDoctorExec : Event → Bool
  | .exec args _ => decide ("doctor" ∈ args)
  | _ => false

/-- A successful persist of a checkpoint reset to in-progress with the error
cleared. -/
def isResetSave : Event → Bool
  | .save cp ok => ok && decide (cp.status = CheckpointStatus.inProgress) &&
      decide (cp.error = none)
  | _ => false

/-- The ordering the claim asserts: scanning the trace, a reset persist is
found before the first doctor attempt (vacuously true if no doctor attempt
occurs). -/
def resetPersistedBeforeDoctor : List Event → Bool
  | [] => true
  | e :: rest =>
    if isDoctorExec e then false
    else if isResetSave e then true
    else resetPersistedBeforeDoctor rest

/-- The second world's event trace extends the first's. -/
def EventsExt (w w' : W) : Prop :=
  ∃ Δ, w'.events = w.events ++ Δ

theorem eventsExt_refl (w : W) : EventsExt w w :=
  ⟨[], by simp⟩

theorem eventsExt_of_eq {w w' : W} (h : w'.events = w.events) : EventsExt w w' :=
  ⟨[], by simp [h]⟩

theorem eventsExt_trans {w1 w2 w3 : W}
    (h12 : EventsExt w1 w2) (h23 : EventsExt w2 w3) : EventsExt w1 w3 := by
  obtain ⟨Δ1, e1⟩ := h12
  obtain ⟨Δ2, e2⟩ := h23
  exact ⟨Δ1 ++ Δ2, by rw [e2, e1, List.append_assoc]⟩

theorem runGrnswJson_eventsExt (env : GrnswEnv) (inv : GrnswInvocation)
    (args : List String) (options : RunGrnswOptions) (w : W) :
    EventsExt w (runGrnswJson env inv args options w).2 := by
  obtain ⟨Δ, h1, _, _, _⟩ := runGrnswJson_trace env inv args options w
  exact ⟨Δ, h1⟩

theorem trySave_events (w : W) (cp : ApplyCheckpoint) :
    (trySaveApplyCheckpoint w cp).2.events =
      w.events ++ [Event.save cp ((w.saves.head?.getD none).isNone)] := by
  unfold trySaveApplyCheckpoint
  rcases hs : w.saves with _ | ⟨o, rest⟩ <;> rfl

theorem saveOrThrow_events (w : W) (checkpointPath : String) (cp : ApplyCheckpoint) :
    (saveApplyCheckpointOrThrow w checkpointPath cp).2.events =
      w.events ++ [Event.save cp ((w.saves.head?.getD none).isNone)] := by
  rw [saveOrThrow_w]
  exact trySave_events w cp

theorem trySave_eventsExt (w : W) (cp : ApplyCheckpoint) :
    EventsExt w (trySaveApplyCheckpoint w cp).2 :=
  ⟨_, trySave_events w cp⟩

theorem saveOrThrow_eventsExt (w : W) (checkpointPath : String)
    (cp : ApplyCheckpoint) :
    EventsExt w (saveApplyCheckpointOrThrow w checkpointPath cp).2 :=
  ⟨_, saveOrThrow_events w checkpointPath cp⟩

theorem runAttempts_events_len (cargs : List String) (T : Nat) (roe : Bool)
    (total : Nat) (left attempt : Nat) (w : W) :
    w.events.length + 1 ≤
      (runAttempts cargs T roe total (left + 1) attempt w).2.events.length := by
  obtain ⟨hev, hsv, hcl⟩ := popExec_spec w cargs (execTimeoutOpt T)
  unfold runAttempts
  split
  case _ msg w1 heq =>
    have hq : (popExec w cargs (execTimeoutOpt T)).2 = w1 := by rw [heq]
    rw [hq] at hev
    have base : w.events.length + 1 ≤ w1.events.length := by
      rw [hev]
      simp only [List.length_append, List.length_cons, List.length_nil]
      omega
    have hrec : w.events.length + 1 ≤
        (runAttempts cargs T roe total left (attempt + 1) w1).2.events.length := by
      obtain ⟨Δ, h1, _, _, _⟩ := runAttempts_trace cargs T roe total left (attempt + 1) w1
      rw [h1, hev]
      simp only [List.length_append, List.length_cons, List.length_nil]
      omega
    split
    · exact hrec
    · exact base
  case _ r w1 heq =>
    have hq : (popExec w cargs (execTimeoutOpt T)).2 = w1 := by rw [heq]
    rw [hq] at hev
    have base : w.events.length + 1 ≤ w1.events.length := by
      rw [hev]
      simp only [List.length_append, List.length_cons, List.length_nil]
      omega
    have hrec : w.events.length + 1 ≤
        (runAttempts cargs T roe total left (attempt + 1) w1).2.events.length := by
      obtain ⟨Δ, h1, _, _, _⟩ := runAttempts_trace cargs T roe total left (attempt + 1) w1
      rw [h1, hev]
      simp only [List.length_append, List.length_cons, List.length_nil]
      omega
    dsimp only
    split
    · split
      · exact hrec
      · exact base
    · split
      · exact base
      · split
        · split
          · exact base
          · exact base
        · exact base

theorem runGrnswJson_events_len (env : GrnswEnv) (inv : GrnswInvocation)
    (args : List String) (options : RunGrnswOptions) (w : W) :
    w.events.length + 1 ≤ (runGrnswJson env inv args options w).2.events.length := by
  unfold runGrnswJson
  have h := runAttempts_events_len (inv.baseArgs ++ ["--json"] ++ args)
    (resolveGrnswTimeoutMs env options.timeoutMs) options.retryOnError
    (resolveGrnswRetries env options.retries + 1) (resolveGrnswRetries env options.retries)
    1 { w with calls := w.calls ++ [args] }
  simpa using h

theorem ensureGrnswHealthy_ok_events (env : GrnswEnv) (inv : GrnswInvocation)
    (w : W) (u : Unit) (w1 : W)
    (hh : ensureGrnswHealthy env inv w = (.ok u, w1)) :
    ∃ Δ, w1.events = w.events ++ Δ ∧ Δ ≠ [] ∧ ∀ e ∈ Δ, isDoctorExec e = true := by
  unfold ensureGrnswHealthy at hh
  rcases hd : runGrnswJson env inv ["doctor"]
    { retries := some (HEALTH_CHECK_RETRIES : Int), retryOnError := true } w
    with ⟨rd, wd⟩
  rw [hd] at hh
  cases rd with
  | error e =>
    simp only [Prod.mk.injEq] at hh
    exact absurd hh.1 (by simp)
  | ok data =>
    dsimp only at hh
    obtain ⟨Δ, h1, h2, _, _⟩ := runGrnswJson_trace env inv ["doctor"]
      { retries := some (HEALTH_CHECK_RETRIES : Int), retryOnError := true } w
    have hlen := runGrnswJson_events_len env inv ["doctor"]
      { retries := some (HEALTH_CHECK_RETRIES : Int), retryOnError := true } w
    rw [hd] at h1 hlen
    replace h1 : wd.events = w.events ++ Δ := h1
    have hw1 : wd = w1 := by
      split at hh
      · simp only [Prod.mk.injEq] at hh
        exact hh.2
      · simp only [Prod.mk.injEq] at hh
        exact absurd hh.1 (by simp)
    rw [hw1] at h1 hlen
    refine ⟨Δ, h1, ?_, ?_⟩
    · intro hnil
      rw [hnil] at h1
      simp only [List.append_nil] at h1
      rw [h1] at hlen
      omega
    · intro e he
      rw [h2 e he]
      simp [isDoctorExec]

theorem resumeValidationStep_eventsExt (ctx : RunCtx) (base : ApplyCheckpoint)
    (done pend : List AppliedPhase) (curT curId : String) (curDep : Option String)
    (mdone mtail : List AppliedMilestone) (pm : MilestonePlan)
    (am : AppliedMilestone) (w : W) :
    EventsExt w (resumeValidationStep ctx base done pend curT curId curDep mdone
      mtail pm am w).2.2 := by
  unfold resumeValidationStep
  split
  · rcases hr : runGrnswJson ctx.env ctx.inv
      (validationCallArgs pm.title am.id ctx.reviewer ctx.priority pm.acceptance)
      ctx.runOptions w with ⟨r, w1⟩
    have hx1 : EventsExt w w1 := by
      have := runGrnswJson_eventsExt ctx.env ctx.inv
        (validationCallArgs pm.title am.id ctx.reviewer ctx.priority pm.acceptance)
        ctx.runOptions w
      rwa [hr] at this
    cases r with
    | error e => exact hx1
    | ok payload =>
      dsimp only
      cases hf : readStringField payload "created_id"
          ("missing validation id for " ++ pm.title) with
      | error e => exact hx1
      | ok vid =>
        dsimp only
        rcases hsv : saveApplyCheckpointOrThrow w1 ctx.checkpointPath _ with ⟨rs, w2⟩
        have hx2 : EventsExt w1 w2 := by
          have h0 := saveOrThrow_eventsExt w1 ctx.checkpointPath
            (resumeSnap base done
              { title := curT, id := curId, dependsOn := curDep,
                milestones := mdone ++ [{ am with validationId := some vid }] ++ mtail }
              pend)
          rwa [hsv] at h0
        cases rs with
        | error e => exact eventsExt_trans hx1 hx2
        | ok u => exact eventsExt_trans hx1 hx2
  · exact eventsExt_refl w

theorem resumeMilestones_eventsExt (ctx : RunCtx) (base : ApplyCheckpoint)
    (done pend : List AppliedPhase) (curT curId : String) (curDep : Option String) :
    ∀ (planMs : List MilestonePlan) (mdone mpend : List AppliedMilestone) (w : W),
      EventsExt w (resumeMilestones ctx base done pend curT curId curDep mdone
        mpend planMs w).2.2 := by
  intro planMs
  induction planMs with
  | nil =>
    intro mdone mpend w
    unfold resumeMilestones
    cases mpend <;> exact eventsExt_refl w
  | cons pm prest ih =>
    intro mdone mpend w
    cases mpend with
    | cons am mtail =>
      unfold resumeMilestones
      split
      · exact eventsExt_refl w
      · rcases hv : resumeValidationStep ctx base done pend curT curId curDep mdone
          mtail pm am w with ⟨rv, am', w1⟩
        have hx1 : EventsExt w w1 := by
          have h0 := resumeValidationStep_eventsExt ctx base done pend curT curId
            curDep mdone mtail pm am w
          rwa [hv] at h0
        cases rv with
        | error e => exact hx1
        | ok u => exact eventsExt_trans hx1 (ih _ _ w1)
    | nil =>
      unfold resumeMilestones
      rcases hr : runGrnswJson ctx.env ctx.inv
        (milestoneCallArgs pm.title curId ctx.priority) ctx.runOptions w with ⟨r, w1⟩
      have hx1 : EventsExt w w1 := by
        have := runGrnswJson_eventsExt ctx.env ctx.inv
          (milestoneCallArgs pm.title curId ctx.priority) ctx.runOptions w
        rwa [hr] at this
      cases r with
      | error e => exact hx1
      | ok payload =>
        dsimp only
        cases hf : readStringField payload "created_id"
            ("missing milestone id for " ++ pm.title) with
        | error e => exact hx1
        | ok mid =>
          dsimp only
          rcases hsv : saveApplyCheckpointOrThrow w1 ctx.checkpointPath _ with ⟨rs, w2⟩
          have hx2 : EventsExt w1 w2 := by
            have h0 := saveOrThrow_eventsExt w1 ctx.checkpointPath
              (resumeSnap base done
                { title := curT, id := curId, dependsOn := curDep,
                  milestones := mdone ++
                    [{ title := pm.title, id := mid, validationId := none }] } pend)
            rwa [hsv] at h0
          cases rs with
          | error e => exact eventsExt_trans hx1 hx2
          | ok u =>
            dsimp only
            rcases hvs : resumeValidationStep ctx base done pend curT curId curDep
              mdone [] pm { title := pm.title, id := mid, validationId := none } w2
              with ⟨rv, am', w3⟩
            have hx3 : EventsExt w2 w3 := by
              have h0 := resumeValidationStep_eventsExt ctx base done pend curT curId
                curDep mdone [] pm { title := pm.title, id := mid, validationId := none } w2
              rwa [hvs] at h0
            cases rv with
            | error e => exact eventsExt_trans hx1 (eventsExt_trans hx2 hx3)
            | ok u2 =>
              exact eventsExt_trans hx1 (eventsExt_trans hx2
                (eventsExt_trans hx3 (ih _ _ w3)))

theorem resumePhases_eventsExt (ctx : RunCtx) (base : ApplyCheckpoint)
    (epicId : String) :
    ∀ (planPhs : List PhasePlan) (done pend : List AppliedPhase)
      (prev : Option String) (w : W),
      EventsExt w (resumePhases ctx base epicId done pend prev planPhs w).2.2 := by
  intro planPhs
  induction planPhs with
  | nil =>
    intro done pend prev w
    unfold resumePhases
    cases pend <;> exact eventsExt_refl w
  | cons pp prest ih =>
    intro done pend prev w
    cases pend with
    | cons ap ptail =>
      unfold resumePhases
      split
      · exact eventsExt_refl w
      · rcases hm : resumeMilestones ctx base done ptail ap.title ap.id ap.dependsOn
          [] ap.milestones pp.milestones w with ⟨rm, ms, w1⟩
        have hx1 : EventsExt w w1 := by
          have h0 := resumeMilestones_eventsExt ctx base done ptail ap.title ap.id
            ap.dependsOn pp.milestones [] ap.milestones w
          rwa [hm] at h0
        cases rm with
        | error e => exact hx1
        | ok u =>
          dsimp only
          split
          · exact hx1
          · exact eventsExt_trans hx1 (ih _ _ _ w1)
    | nil =>
      unfold resumePhases
      rcases hr : runGrnswJson ctx.env ctx.inv
        (phaseCallArgs pp.title epicId ctx.priority prev) ctx.runOptions w with ⟨r, w1⟩
      have hx1 : EventsExt w w1 := by
        have := runGrnswJson_eventsExt ctx.env ctx.inv
          (phaseCallArgs pp.title epicId ctx.priority prev) ctx.runOptions w
        rwa [hr] at this
      cases r with
      | error e => exact hx1
      | ok payload =>
        dsimp only
        cases hf : readStringField payload "created_id"
            ("missing phase id for " ++ pp.title) with
        | error e => exact hx1
        | ok pid =>
          dsimp only
          rcases hsv : saveApplyCheckpointOrThrow w1 ctx.checkpointPath _ with ⟨rs, w2⟩
          have hx2 : EventsExt w1 w2 := by
            have h0 := saveOrThrow_eventsExt w1 ctx.checkpointPath
              (resumeSnap base done
                { title := pp.title, id := pid, dependsOn := prev, milestones := [] } [])
            rwa [hsv] at h0
          cases rs with
          | error e => exact eventsExt_trans hx1 hx2
          | ok u =>
            dsimp only
            rcases hm : resumeMilestones ctx base done [] pp.title pid prev [] []
              pp.milestones w2 with ⟨rm, ms, w3⟩
            have hx3 : EventsExt w2 w3 := by
              have h0 := resumeMilestones_eventsExt ctx base done [] pp.title pid prev
                pp.milestones [] [] w2
              rwa [hm] at h0
            cases rm with
            | error e => exact eventsExt_trans hx1 (eventsExt_trans hx2 hx3)
            | ok u2 =>
              dsimp only
              split
              · exact eventsExt_trans hx1 (eventsExt_trans hx2 hx3)
              · exact eventsExt_trans hx1 (eventsExt_trans hx2
                  (eventsExt_trans hx3 (ih _ _ _ w3)))

theorem resumePhasesTail_eventsExt (ctx : RunCtx) (plan : SpecPlan)
    (cp2 : ApplyCheckpoint) (eid : String) (wps : W) :
    EventsExt wps ((match resumePhases ctx cp2 eid [] cp2.applied.phases none
        plan.phases wps with
      | (.error e, phases, w) => ((.error e : Except String AppliedPlan),
          withPhases cp2 phases, w)
      | (.ok _, phases, w) =>
        let cpDone := { withPhases cp2 phases with
          status := CheckpointStatus.completed, error := none }
        let (_, w) := trySaveApplyCheckpoint w cpDone
        match toAppliedPlanFromCheckpoint cpDone plan with
        | .error e => (.error e, cpDone, w)
        | .ok applied => (.ok applied, cpDone, w)) :
      Except String AppliedPlan × ApplyCheckpoint × W).2.2 := by
  rcases hp : resumePhases ctx cp2 eid [] cp2.applied.phases none plan.phases wps
    with ⟨rp, phases, w1⟩
  have hx1 : EventsExt wps w1 := by
    have h0 := resumePhases_eventsExt ctx cp2 eid plan.phases [] cp2.applied.phases
      none wps
    rwa [hp] at h0
  cases rp with
  | error e => exact hx1
  | ok u =>
    dsimp only
    rcases ht : trySaveApplyCheckpoint w1 _ with ⟨o, w2⟩
    have hx2 : EventsExt w1 w2 := by
      have h0 := trySave_eventsExt w1 { withPhases cp2 phases with
        status := CheckpointStatus.completed, error := none }
      rwa [ht] at h0
    cases hta : toAppliedPlanFromCheckpoint { withPhases cp2 phases with
        status := CheckpointStatus.completed, error := none } plan with
    | error e => exact eventsExt_trans hx1 hx2
    | ok applied => exact eventsExt_trans hx1 hx2

theorem resumePlanBody_eventsExt (ctx : RunCtx) (plan : SpecPlan)
    (cp1 : ApplyCheckpoint) (w : W) :
    EventsExt w (resumePlanBody ctx plan cp1 w).2.2 := by
  unfold resumePlanBody
  cases heid : cp1.applied.epicId with
  | some eid =>
    dsimp only
    exact resumePhasesTail_eventsExt ctx plan cp1 eid w
  | none =>
    dsimp only
    rcases hr : runGrnswJson ctx.env ctx.inv (epicCallArgs plan ctx.priority)
      ctx.runOptions w with ⟨r, w1⟩
    have hx1 : EventsExt w w1 := by
      have := runGrnswJson_eventsExt ctx.env ctx.inv (epicCallArgs plan ctx.priority)
        ctx.runOptions w
      rwa [hr] at this
    cases r with
    | error e => exact hx1
    | ok payload =>
      dsimp only
      cases hf : readStringField payload "created_id"
          "missing epic id from grnsw output" with
      | error e => exact hx1
      | ok eid =>
        dsimp only
        rcases hsv : saveApplyCheckpointOrThrow w1 ctx.checkpointPath
          { cp1 with applied := { cp1.applied with epicId := some eid } } with ⟨rs, w2⟩
        have hx2 : EventsExt w1 w2 := by
          have h0 := saveOrThrow_eventsExt w1 ctx.checkpointPath
            { cp1 with applied := { cp1.applied with epicId := some eid } }
          rwa [hsv] at h0
        cases rs with
        | error e => exact eventsExt_trans hx1 hx2
        | ok u =>
          dsimp only
          exact eventsExt_trans hx1 (eventsExt_trans hx2
            (resumePhasesTail_eventsExt ctx plan
              { cp1 with applied := { cp1.applied with epicId := some eid } } eid w2))

/-- The reviewer adjustment the resume handler applies before resuming
(source lines 268-270). -/
def reviewerAdjusted (cp : ApplyCheckpoint) (reviewerOverride : Option String) :
    ApplyCheckpoint :=
  if reviewerOverride.getD cp.reviewer ≠ cp.reviewer then
    { cp with reviewer := reviewerOverride.getD cp.reviewer }
  else cp

/-- A successful doctor subprocess outcome. -/
def okDoctor : ExecOutcome := .res { code := 0, stdout := "\x7b\"ok\": true\x7d" }

/-- Plan of the C8 scenario: one milestone-free phase. -/
def c8Plan : SpecPlan :=
  { specPath := "spec8.md", epicTitle := "E8", phases := [{ title := "P1" }] }

/-- Failed checkpoint of the C8 scenario: the epic exists, no phases yet. -/
def c8Cp : ApplyCheckpoint :=
  { status := .failed, specPath := "spec8.md", epicTitle := "E8", priority := 1,
    withValidation := false, reviewer := "reviewer",
    applied := { epicId := some "E1", phases := [] }, error := some "x" }

/-- The C8 resume-handler run. -/
def c8Run : Except String AppliedPlan × ApplyCheckpoint × W :=
  resumeHandlerRun {} { command := "grnsw" } c8Plan c8Cp "cp8.json" none {}
    { execs := [okDoctor, okCreated "PH1"] }

set_option maxRecDepth 32768 in
/-- Counterexample to C8: in a resume of a non-completed checkpoint the run
both persists an in-progress reset and issues a doctor attempt, yet no reset
persist precedes the first doctor attempt — the trace opens with the doctor
subprocess call. -/
theorem resume_reset_persist_order_counterexample :
    c8Cp.status ≠ CheckpointStatus.completed ∧
    c8Run.2.2.events.any isResetSave = true ∧
    c8Run.2.2.events.any isDoctorExec = true ∧
    resetPersistedBeforeDoctor c8Run.2.2.events = false := by
  decide

theorem assertCheckpointMatchesPlan_reviewer (cp : ApplyCheckpoint) (r : String)
    (plan : SpecPlan) :
    assertCheckpointMatchesPlan { cp with reviewer := r } plan =
      assertCheckpointMatchesPlan cp plan := rfl

/-- C8 (amended): in a resume run of a non-completed checkpoint that passes
the structural check and whose health check succeeds, the run first records
one or more doctor subprocess attempts and only then persists the checkpoint
reset to in-progress with the error cleared — the reset persist is the first
event after the doctor attempts, the reverse of the claimed order. -/
theorem resume_doctor_precedes_reset_persist (env : GrnswEnv)
    (inv : GrnswInvocation) (plan : SpecPlan) (cp : ApplyCheckpoint)
    (checkpointPath : String) (reviewerOverride : Option String)
    (options : RunGrnswOptions) (w : W) (u u2 : Unit) (w1 : W)
    (ha : assertCheckpointMatchesPlan cp plan = .ok u)
    (hc : ¬ cp.status = CheckpointStatus.completed)
    (hh : ensureGrnswHealthy env inv w = (.ok u2, w1)) :
    ∃ Δd b rest,
      (resumeHandlerRun env inv plan cp checkpointPath reviewerOverride options
          w).2.2.events =
        w.events ++ Δd ++
          Event.save { reviewerAdjusted cp reviewerOverride with
            status := CheckpointStatus.inProgress, error := none } b :: rest ∧
      Δd ≠ [] ∧ (∀ e ∈ Δd, isDoctorExec e = true) := by
  obtain ⟨Δd, hΔ, hne, hdoc⟩ := ensureGrnswHealthy_ok_events env inv w u2 w1 hh
  unfold resumeHandlerRun reviewerAdjusted
  rw [ha]
  dsimp only
  rw [if_neg hc]
  rw [hh]
  dsimp only
  generalize hg : (if reviewerOverride.getD cp.reviewer ≠ cp.reviewer then
    { cp with reviewer := reviewerOverride.getD cp.reviewer } else cp) = cpR
  have haR : assertCheckpointMatchesPlan cpR plan = Except.ok u := by
    rw [← hg]
    split
    · rw [assertCheckpointMatchesPlan_reviewer]
      exact ha
    · exact ha
  unfold resumePlan
  rw [haR]
  dsimp only
  rcases hsv : saveApplyCheckpointOrThrow w1 checkpointPath
    { cpR with status := CheckpointStatus.inProgress, error := none } with ⟨rs, w2⟩
  have hevsave := saveOrThrow_events w1 checkpointPath
    { cpR with status := CheckpointStatus.inProgress, error := none }
  rw [hsv] at hevsave
  cases rs with
  | error e =>
    refine ⟨Δd, (w1.saves.head?.getD none).isNone, [], ?_, hne, hdoc⟩
    dsimp only
    rw [hevsave, hΔ]
  | ok u3 =>
    dsimp only
    rcases hb : resumePlanBody { env := env, inv := inv, runOptions := options, checkpointPath := checkpointPath, priority := cpR.priority, withValidation := cpR.withValidation, reviewer := cpR.reviewer } plan { cpR with status := CheckpointStatus.inProgress, error := none } w2 with ⟨rb, cpB, w3⟩
    have hx3 : EventsExt w2 w3 := by
      have h0 := resumePlanBody_eventsExt { env := env, inv := inv, runOptions := options, checkpointPath := checkpointPath, priority := cpR.priority, withValidation := cpR.withValidation, reviewer := cpR.reviewer } plan { cpR with status := CheckpointStatus.inProgress, error := none } w2
      rwa [hb] at h0
    obtain ⟨Γ, hΓ⟩ := hx3
    cases rb with
    | ok applied =>
      refine ⟨Δd, (w1.saves.head?.getD none).isNone, Γ, ?_, hne, hdoc⟩
      dsimp only
      rw [hΓ, hevsave, hΔ]
      simp
    | error msg =>
      dsimp only
      rcases ht : trySaveApplyCheckpoint w3
        { cpB with status := CheckpointStatus.failed, error := some msg } with ⟨o, w4⟩
      have hevtry := trySave_events w3
        { cpB with status := CheckpointStatus.failed, error := some msg }
      rw [ht] at hevtry
      refine ⟨Δd, (w1.saves.head?.getD none).isNone, Γ ++ [Event.save { cpB with status := CheckpointStatus.failed, error := some msg } ((w3.saves.head?.getD none).isNone)], ?_, hne, hdoc⟩
      dsimp only
      rw [hevtry, hΓ, hevsave, hΔ]
      simp

set_option maxRecDepth 32768 in
/-- Witness for the amended C8 theorem at the concrete scenario. -/
theorem resume_doctor_precedes_reset_persist_witness :
    ∃ Δd b rest,
      (resumeHandlerRun {} { command := "grnsw" } c8Plan c8Cp "cp8.json" none {}
          { execs := [okDoctor, okCreated "PH1"] }).2.2.events =
        ({ execs := [okDoctor, okCreated "PH1"] } : W).events ++ Δd ++
          Event.save { reviewerAdjusted c8Cp none with
            status := CheckpointStatus.inProgress, error := none } b :: rest ∧
      Δd ≠ [] ∧ (∀ e ∈ Δd, isDoctorExec e = true) :=
  resume_doctor_precedes_reset_persist {} { command := "grnsw" } c8Plan c8Cp
    "cp8.json" none {} { execs := [okDoctor, okCreated "PH1"] } () ()
    { execs := [okCreated "PH1"], saves := [], calls := [["doctor"]],
      events := [Event.exec ["--json", "doctor"] (some 30000)] }
    rfl (by decide) rfl

theorem dropWhile_cons_false {p : Char → Bool} {c : Char} {r : List Char}
    (h : p c = false) : (c :: r).dropWhile p = c :: r := by
  simp [List.dropWhile_cons, h]

theorem dropWhile_append_of_head {p : Char → Bool} {l : List Char} (m : List Char)
    (hl : l.dropWhile p = l) (hne : l ≠ []) : (l ++ m).dropWhile p = l ++ m := by
  cases l with
  | nil => exact absurd rfl hne
  | cons c r =>
    have hc : p c = false := by
      by_contra hpc
      have hpc' : p c = true := by
        cases hx : p c
        · exact absurd hx hpc
        · rfl
      rw [List.dropWhile_cons, if_pos hpc'] at hl
      have hlen := (List.dropWhile_sublist (p := p) (l := r)).length_le
      have := congrArg List.length hl
      simp only [List.length_cons] at this
      omega
    simp [List.dropWhile_cons, hc]

theorem trimData_eq_self {l : List Char} (h1 : l.dropWhile wsChar = l)
    (h2 : l.reverse.dropWhile wsChar = l.reverse) : trimData l = l := by
  unfold trimData
  rw [h1, h2, List.reverse_reverse]

theorem parseHeading_hash3 (t : String) (hne : t.data ≠ [])
    (h1 : t.data.dropWhile wsChar = t.data)
    (h2 : t.data.reverse.dropWhile wsChar = t.data.reverse) :
    parseHeading ("### " ++ t) = some (3, t) := by
  have hdata : ("### " ++ t).data = '#' :: '#' :: '#' :: ' ' :: t.data := by
    rw [String.data_append]
    rfl
  have hrevne : t.data.reverse ≠ [] := by
    intro hx
    exact hne (by simpa using congrArg List.reverse hx)
  have htrim : trimData ('#' :: '#' :: '#' :: ' ' :: t.data) =
      '#' :: '#' :: '#' :: ' ' :: t.data := by
    apply trimData_eq_self
    · exact dropWhile_cons_false (by decide)
    · rw [show ('#' :: '#' :: '#' :: ' ' :: t.data).reverse =
        t.data.reverse ++ [' ', '#', '#', '#'] from by simp]
      exact dropWhile_append_of_head _ h2 hrevne
  unfold parseHeading
  rw [hdata]
  dsimp only
  rw [htrim]
  rw [show ('#' :: '#' :: '#' :: ' ' :: t.data).takeWhile (fun x => decide (x = '#')) =
    ['#', '#', '#'] from rfl]
  rw [if_pos (show 1 ≤ (['#', '#', '#'] : List Char).length ∧
    (['#', '#', '#'] : List Char).length ≤ 6 from by decide)]
  rw [show List.drop (['#', '#', '#'] : List Char).length
    ('#' :: '#' :: '#' :: ' ' :: t.data) = ' ' :: t.data from rfl]
  dsimp only
  rw [if_pos (show wsChar ' ' = true from rfl)]
  rw [trimData_eq_self h1 h2]
  rw [if_neg hne]
  rfl

theorem parseHeading_bullet_none (t : String) (hne : t.data ≠ [])
    (h2 : t.data.reverse.dropWhile wsChar = t.data.reverse) :
    parseHeading ("- [ ] **" ++ t ++ "**") = none := by
  have hdata : ("- [ ] **" ++ t ++ "**").data =
      '-' :: ' ' :: '[' :: ' ' :: ']' :: ' ' :: '*' :: '*' :: (t.data ++ ['*', '*']) := by
    rw [String.data_append, String.data_append, List.append_assoc]
    rfl
  have htrim : trimData ('-' :: ' ' :: '[' :: ' ' :: ']' :: ' ' :: '*' :: '*' ::
      (t.data ++ ['*', '*'])) =
      '-' :: ' ' :: '[' :: ' ' :: ']' :: ' ' :: '*' :: '*' :: (t.data ++ ['*', '*']) := by
    apply trimData_eq_self
    · exact dropWhile_cons_false (by decide)
    · rw [show ('-' :: ' ' :: '[' :: ' ' :: ']' :: ' ' :: '*' :: '*' ::
        (t.data ++ ['*', '*'])).reverse =
        '*' :: '*' :: (t.data.reverse ++ ['*', '*', ' ', ']', ' ', '[', ' ', '-'])
        from by simp]
      exact dropWhile_cons_false (by decide)
  unfold parseHeading
  rw [hdata]
  dsimp only
  rw [htrim]
  rw [show ('-' :: ' ' :: '[' :: ' ' :: ']' :: ' ' :: '*' :: '*' ::
    (t.data ++ ['*', '*'])).takeWhile (fun x => decide (x = '#')) = [] from rfl]
  rw [if_neg (show ¬ (1 ≤ ([] : List Char).length ∧ ([] : List Char).length ≤ 6)
    from by decide)]

theorem parseMilestoneBullet_wrapped (t : String) (hne : t.data ≠ [])
    (h1 : t.data.dropWhile wsChar = t.data)
    (h2 : t.data.reverse.dropWhile wsChar = t.data.reverse)
    (hmk : ∀ c ∈ t.data, isMarkupChar c = false)
    (hbw : (isPrefixB "milestone".data (t.data.map Char.toLower) &&
      boundaryAfter (t.data.map Char.toLower) ("milestone".length)) = true) :
    parseMilestoneBullet ("- [ ] **" ++ t ++ "**") = some t := by
  have hdata : ("- [ ] **" ++ t ++ "**").data =
      '-' :: ' ' :: '[' :: ' ' :: ']' :: ' ' :: '*' :: '*' :: (t.data ++ ['*', '*']) := by
    rw [String.data_append, String.data_append, List.append_assoc]
    rfl
  have htrim : trimData ('-' :: ' ' :: '[' :: ' ' :: ']' :: ' ' :: '*' :: '*' ::
      (t.data ++ ['*', '*'])) =
      '-' :: ' ' :: '[' :: ' ' :: ']' :: ' ' :: '*' :: '*' :: (t.data ++ ['*', '*']) := by
    apply trimData_eq_self
    · exact dropWhile_cons_false (by decide)
    · rw [show ('-' :: ' ' :: '[' :: ' ' :: ']' :: ' ' :: '*' :: '*' ::
        (t.data ++ ['*', '*'])).reverse =
        '*' :: '*' :: (t.data.reverse ++ ['*', '*', ' ', ']', ' ', '[', ' ', '-'])
        from by simp]
      exact dropWhile_cons_false (by decide)
  have hsb : stripBoldWrap (stripCheckbox ((' ' :: '[' :: ' ' :: ']' :: ' ' :: '*' ::
      '*' :: (t.data ++ ['*', '*'])).dropWhile wsChar)) = t.data := by
    rw [show ((' ' :: '[' :: ' ' :: ']' :: ' ' :: '*' :: '*' ::
      (t.data ++ ['*', '*'])).dropWhile wsChar) =
      '[' :: ' ' :: ']' :: ' ' :: '*' :: '*' :: (t.data ++ ['*', '*']) from rfl]
    rw [show stripCheckbox ('[' :: ' ' :: ']' :: ' ' :: '*' :: '*' ::
      (t.data ++ ['*', '*'])) = '*' :: '*' :: (t.data ++ ['*', '*']) from rfl]
    unfold stripBoldWrap
    dsimp only
    rw [if_pos (Or.inl (show isPrefixB "**".data
      ('*' :: '*' :: (t.data ++ ['*', '*'])) = true from rfl))]
    rw [show ('*' :: '*' :: (t.data ++ ['*', '*'])).drop 2 = t.data ++ ['*', '*']
      from rfl]
    rw [dropWhile_append_of_head _ h1 hne]
    rw [show (t.data ++ ['*', '*']).reverse = '*' :: '*' :: t.data.reverse from by simp]
    rw [show ('*' :: '*' :: t.data.reverse).dropWhile wsChar =
      '*' :: '*' :: t.data.reverse from rfl]
    rw [if_pos (Or.inl (show isPrefixB "**".data
      ('*' :: '*' :: t.data.reverse) = true from rfl))]
    rw [show ('*' :: '*' :: t.data.reverse).drop 2 = t.data.reverse from rfl]
    rw [h2, List.reverse_reverse]
  have hfil : t.data.filter (fun ch => ¬ isMarkupChar ch) = t.data := by
    rw [List.filter_eq_self]
    intro a ha
    simp [hmk a ha]
  unfold parseMilestoneBullet
  rw [hdata]
  dsimp only
  rw [htrim]
  dsimp only
  rw [if_pos (show ('-' = '-' ∨ '-' = '*') ∧
    headIsWs (' ' :: '[' :: ' ' :: ']' :: ' ' :: '*' :: '*' ::
      (t.data ++ ['*', '*'])) = true from ⟨Or.inl rfl, rfl⟩)]
  rw [hsb, hfil, trimData_eq_self h1 h2]
  rw [if_neg hne]
  have hbw' : (isPrefixB ['m', 'i', 'l', 'e', 's', 't', 'o', 'n', 'e']
      (t.data.map Char.toLower) &&
      boundaryAfter (t.data.map Char.toLower) ("milestone".length)) = true := hbw
  split
  · rfl
  · rfl

/-- C9 scenario document with the milestone as a heading. -/
def c9DocHeading : String :=
  "# Epic\n## Phase 1: P\n### Milestone 1: add `foo`\n"

/-- C9 scenario document with the same milestone text as a checklist bullet. -/
def c9DocBullet : String :=
  "# Epic\n## Phase 1: P\n- [ ] **Milestone 1: add `foo`**\n"

set_option maxRecDepth 32768 in
/-- Counterexample to C9: the same milestone text containing backtick markup
parses to different records in the two forms — the heading path keeps the
markup in the title while the bullet path strips it. -/
theorem milestone_heading_bullet_counterexample :
    ((parseSpecFile "s.md" c9DocHeading).phases.map fun p =>
      p.milestones.map (fun m => m.title)) = [["Milestone 1: add `foo`"]] ∧
    ((parseSpecFile "s.md" c9DocBullet).phases.map fun p =>
      p.milestones.map (fun m => m.title)) = [["Milestone 1: add foo"]] ∧
    parseSpecFile "s.md" c9DocHeading ≠ parseSpecFile "s.md" c9DocBullet := by
  decide

/-- C9 (amended): for a milestone title with no leading/trailing whitespace
and no bold/backtick/underscore markup characters that the parser recognizes
as a milestone, the heading form `### <title>` and the checklist-bullet form
`- [ ] **<title>**` parse to the same title, and a line in either form drives
the spec parser through the identical state transition (the same milestone
record is appended). With markup in the title the two forms disagree, because
only the bullet path strips markup. -/
theorem milestone_heading_bullet_forms (t : String)
    (hne : t.data ≠ [])
    (h1 : t.data.dropWhile wsChar = t.data)
    (h2 : t.data.reverse.dropWhile wsChar = t.data.reverse)
    (hmk : ∀ c ∈ t.data, isMarkupChar c = false)
    (hbw : (isPrefixB "milestone".data (t.data.map Char.toLower) &&
      boundaryAfter (t.data.map Char.toLower) ("milestone".length)) = true)
    (hms : isMilestoneHeading t = true)
    (hph : isPhaseHeading t = false) :
    parseHeading ("### " ++ t) = some (3, t) ∧
    parseMilestoneBullet ("- [ ] **" ++ t ++ "**") = some t ∧
    ∀ st : SpecParseState,
      specParseStep st ("### " ++ t) = specParseStep st ("- [ ] **" ++ t ++ "**") := by
  refine ⟨parseHeading_hash3 t hne h1 h2,
    parseMilestoneBullet_wrapped t hne h1 h2 hmk hbw, ?_⟩
  intro st
  unfold specParseStep
  rw [parseHeading_hash3 t hne h1 h2, parseHeading_bullet_none t hne h2,
    parseMilestoneBullet_wrapped t hne h1 h2 hmk hbw]
  dsimp only
  rw [if_neg (show ¬ ((3 : Nat) = 1 ∧ ¬ st.epicSet = true ∧
    ¬ isStructuralSpecHeading t = true) from by simp)]
  rw [if_neg (show ¬ ((3 : Nat) ≤ 2) from by omega)]
  rw [hph]
  rw [if_neg (show ¬ (false = true) from by simp)]
  rw [hms]
  rw [if_pos (show true = true from rfl)]

set_option maxRecDepth 32768 in
/-- Witness for the amended C9 theorem at a concrete markup-free title and a
concrete parser state. -/
theorem milestone_heading_bullet_forms_witness :
    parseHeading ("### " ++ "Milestone 1: deliver") =
      some (3, "Milestone 1: deliver") ∧
    parseMilestoneBullet ("- [ ] **" ++ "Milestone 1: deliver" ++ "**") =
      some "Milestone 1: deliver" ∧
    specParseStep { epicTitle := "E", epicSet := true, phases := [("P", [])], active := false }
      ("### " ++ "Milestone 1: deliver") =
    specParseStep { epicTitle := "E", epicSet := true, phases := [("P", [])], active := false }
      ("- [ ] **" ++ "Milestone 1: deliver" ++ "**") := by
  have h := milestone_heading_bullet_forms "Milestone 1: deliver" (by decide)
    (by decide) (by decide) (by decide) (by decide) (by decide) (by decide)
  exact ⟨h.1, h.2.1, h.2.2 _⟩

theorem insertNewest_perm (e : CheckpointListEntry) :
    ∀ l, (insertNewest e l).Perm (e :: l) := by
  intro l
  induction l with
  | nil => exact List.Perm.refl _
  | cons x rest ih =>
    unfold insertNewest
    split
    · exact (List.Perm.cons x ih).trans (List.Perm.swap e x rest)
    · exact List.Perm.refl _

theorem sortNewest_perm : ∀ l, (sortNewest l).Perm l := by
  intro l
  induction l with
  | nil => exact List.Perm.refl _
  | cons e rest ih =>
    unfold sortNewest
    exact (insertNewest_perm e (sortNewest rest)).trans (List.Perm.cons e ih)

theorem insertNewest_pairwise (e : CheckpointListEntry) :
    ∀ l, List.Pairwise (fun a b => newestFirst a b = true) l →
      List.Pairwise (fun a b => newestFirst a b = true) (insertNewest e l) := by
  intro l
  induction l with
  | nil =>
    intro _
    simp [insertNewest]
  | cons x rest ih =>
    intro h
    rw [List.pairwise_cons] at h
    unfold insertNewest
    split
    · rename_i hlt
      rw [List.pairwise_cons]
      refine ⟨?_, ih h.2⟩
      intro y hy
      rcases List.mem_cons.mp (((insertNewest_perm e rest).mem_iff).mp hy) with hys | hys
      · rw [hys]
        simp only [newestFirst, decide_eq_true_eq]
        omega
      · exact h.1 y hys
    · rename_i hge
      rw [List.pairwise_cons]
      refine ⟨?_, List.pairwise_cons.mpr h⟩
      intro y hy
      rcases List.mem_cons.mp hy with hys | hys
      · rw [hys]
        simp only [newestFirst, decide_eq_true_eq]
        omega
      · have := h.1 y hys
        simp only [newestFirst, decide_eq_true_eq] at *
        omega

theorem sortNewest_pairwise :
    ∀ l, List.Pairwise (fun a b => newestFirst a b = true) (sortNewest l) := by
  intro l
  induction l with
  | nil => simp [sortNewest]
  | cons e rest ih =>
    unfold sortNewest
    exact insertNewest_pairwise e (sortNewest rest) ih

theorem find?_first {α : Type} (p : α → Bool) :
    ∀ (l : List α) (b : α), l.find? p = some b →
      ∃ pre post, l = pre ++ b :: post ∧ p b = true ∧ ∀ x ∈ pre, p x = false := by
  intro l b h
  obtain ⟨hb, as, bs, heq, hall⟩ := List.find?_eq_some.mp h
  refine ⟨as, bs, heq, hb, ?_⟩
  intro x hx
  have := hall x hx
  simpa using this

/-- C7: the listing is sorted by modification time descending, contains
exactly one entry per `*.json` regular file (a permutation of the per-file
mapping, which reports failed loads as `invalid` instead of skipping them),
and the resumable resolution returns the path of the first entry in that
ordering whose status is failed or in-progress, every earlier entry being
neither (so completed or invalid entries are never selected). -/
theorem checkpoint_listing_and_resolution (cwd : String) (files : List DirFile)
    (hasUI : Bool) :
    List.Pairwise (fun a b => newestFirst a b = true) (listApplyCheckpoints cwd files) ∧
    (listApplyCheckpoints cwd files).Perm
      (files.filterMap (checkpointEntryOfFile (getCheckpointDir cwd))) ∧
    (∀ f ∈ files, jsEndsWith (jsToLower f.fileName) ".json" = true →
      f.isFile = true → ∀ e,
      loadApplyCheckpoint (getCheckpointDir cwd ++ "/" ++ f.fileName) f.content =
        .error e →
      ({ path := getCheckpointDir cwd ++ "/" ++ f.fileName, fileName := f.fileName, status := ListStatus.invalid, mtimeMs := f.mtimeMs, error := some e } : CheckpointListEntry) ∈ listApplyCheckpoints cwd files) ∧
    (∀ p, resolveResumeCheckpointPath cwd files hasUI = .ok p →
      ∃ pre e post, listApplyCheckpoints cwd files = pre ++ e :: post ∧
        e.path = p ∧
        (e.status = ListStatus.failed ∨ e.status = ListStatus.inProgress) ∧
        ∀ x ∈ pre, ¬ (x.status = ListStatus.failed ∨ x.status = ListStatus.inProgress)) := by
  refine ⟨?_, ?_, ?_, ?_⟩
  · exact sortNewest_pairwise _
  · exact sortNewest_perm _
  · intro f hf hjson hfile e hload
    have hentry : checkpointEntryOfFile (getCheckpointDir cwd) f =
        some { path := getCheckpointDir cwd ++ "/" ++ f.fileName, fileName := f.fileName, status := ListStatus.invalid, mtimeMs := f.mtimeMs, error := some e } := by
      unfold checkpointEntryOfFile
      rw [if_neg (by simp [hjson]), if_neg (by simp [hfile])]
      dsimp only
      rw [hload]
    exact ((sortNewest_perm _).mem_iff).mpr
      (List.mem_filterMap.mpr ⟨f, hf, hentry⟩)
  · intro p hres
    unfold resolveResumeCheckpointPath at hres
    dsimp only at hres
    split at hres
    · exact absurd hres (by simp)
    · cases hfind : (listApplyCheckpoints cwd files).find? isResumableEntry with
      | none =>
        rw [hfind] at hres
        exact absurd hres (by simp)
      | some en =>
        rw [hfind] at hres
        simp only [Except.ok.injEq] at hres
        obtain ⟨pre, post, heq, hb, hall⟩ := find?_first isResumableEntry _ en hfind
        refine ⟨pre, en, post, heq, hres, ?_, ?_⟩
        · simpa [isResumableEntry] using hb
        · intro x hx
          have := hall x hx
          simpa [isResumableEntry] using this

/-- A structurally valid checkpoint JSON object with the given status label. -/
def c7Valid (status : String) : Json :=
  Json.obj [("version", .num 1), ("status", .str status), ("specPath", .str "s.md"),
    ("epicTitle", .str "E"), ("reviewer", .str "r"), ("priority", .num 1),
    ("withValidation", .bool false), ("createdAt", .str "t"), ("updatedAt", .str "t"),
    ("applied", .obj [("epicId", .str "E1"), ("phases", .arr [])])]

/-- Checkpoints directory of the C7 scenario: three loadable checkpoints, one
corrupt json, one non-json file and one non-file. -/
def c7Files : List DirFile :=
  [{ fileName := "a.json", mtimeMs := 10, content := .ok (c7Valid "failed") },
   { fileName := "b.json", mtimeMs := 30, content := .ok (c7Valid "completed") },
   { fileName := "c.json", mtimeMs := 20, content := .ok (c7Valid "in-progress") },
   { fileName := "d.json", mtimeMs := 25, content := .error "boom" },
   { fileName := "e.txt", mtimeMs := 40, content := .error "x" },
   { fileName := "f.json", isFile := false, mtimeMs := 50, content := .error "y" }]

set_option maxRecDepth 32768 in
/-- Witness for C7 at the concrete directory: the corrupt file appears as an
invalid entry and resolution picks the in-progress checkpoint first in the
newest-first order, skipping the newer completed and invalid entries. -/
theorem checkpoint_listing_and_resolution_witness :
    ({ path := getCheckpointDir "w" ++ "/" ++ "d.json", fileName := "d.json", status := ListStatus.invalid, mtimeMs := 25, error := some ("Invalid checkpoint JSON at " ++ (getCheckpointDir "w" ++ "/" ++ "d.json") ++ ": boom") } : CheckpointListEntry) ∈ listApplyCheckpoints "w" c7Files ∧
    ∃ pre e post, listApplyCheckpoints "w" c7Files = pre ++ e :: post ∧
      e.path = getCheckpointDir "w" ++ "/c.json" ∧
      (e.status = ListStatus.failed ∨ e.status = ListStatus.inProgress) ∧
      ∀ x ∈ pre, ¬ (x.status = ListStatus.failed ∨ x.status = ListStatus.inProgress) := by
  constructor
  · exact (checkpoint_listing_and_resolution "w" c7Files false).2.2.1
      { fileName := "d.json", mtimeMs := 25, content := .error "boom" }
      (by simp [c7Files]) (by decide) rfl _ rfl
  · exact (checkpoint_listing_and_resolution "w" c7Files false).2.2.2
      (getCheckpointDir "w" ++ "/c.json") (by rfl)

/-- A milestone's validation id is admissible for the run flag: either
validation was requested or no validation id is set. -/
def okValB (wv : Bool) (m : AppliedMilestone) : Bool := wv || m.validationId.isNone

/-- All milestones admissible. -/
def msValsB (wv : Bool) (ms : List AppliedMilestone) : Bool := ms.all (okValB wv)

/-- All milestones of all phases admissible. -/
def phValsB (wv : Bool) (phs : List AppliedPhase) : Bool :=
  phs.all (fun p => msValsB wv p.milestones)

/-- The per-save invariant of C2: the written checkpoint names the plan's
spec path, its phases are a title-and-order prefix of the plan's (milestone
lists included), and validation ids appear only when validation was
requested. -/
def cpSaveOkB (plan : SpecPlan) (wv : Bool) (cp : ApplyCheckpoint) : Bool :=
  (cp.specPath = plan.specPath) && phPrefixB cp.applied.phases plan.phases &&
    phValsB wv cp.applied.phases

/-- Every save event appended between the two worlds writes a checkpoint
satisfying `P`. -/
def SavesOk (P : ApplyCheckpoint → Prop) (w w' : W) : Prop :=
  ∃ Δ, w'.events = w.events ++ Δ ∧
    ∀ e ∈ Δ, ∀ cp b, e = Event.save cp b → P cp

theorem savesOk_refl (P : ApplyCheckpoint → Prop) (w : W) : SavesOk P w w :=
  ⟨[], by simp, by simp⟩

theorem savesOk_of_eq {P : ApplyCheckpoint → Prop} {w w' : W}
    (h : w'.events = w.events) : SavesOk P w w' :=
  ⟨[], by simp [h], by simp⟩

theorem savesOk_trans {P : ApplyCheckpoint → Prop} {w1 w2 w3 : W}
    (h12 : SavesOk P w1 w2) (h23 : SavesOk P w2 w3) : SavesOk P w1 w3 := by
  obtain ⟨Δ1, e1, p1⟩ := h12
  obtain ⟨Δ2, e2, p2⟩ := h23
  refine ⟨Δ1 ++ Δ2, by rw [e2, e1, List.append_assoc], ?_⟩
  intro e he cp b heq
  rcases List.mem_append.mp he with h | h
  · exact p1 e h cp b heq
  · exact p2 e h cp b heq

theorem runGrnswJson_savesOk (env : GrnswEnv) (inv : GrnswInvocation)
    (args : List String) (options : RunGrnswOptions) (w : W)
    (P : ApplyCheckpoint → Prop) :
    SavesOk P w (runGrnswJson env inv args options w).2 := by
  obtain ⟨Δ, h1, h2, _, _⟩ := runGrnswJson_trace env inv args options w
  refine ⟨Δ, h1, ?_⟩
  intro e he cp b heq
  rw [h2 e he] at heq
  exact absurd heq (by simp)

theorem trySave_savesOk {P : ApplyCheckpoint → Prop} (w : W)
    {cp : ApplyCheckpoint} (h : P cp) :
    SavesOk P w (trySaveApplyCheckpoint w cp).2 := by
  refine ⟨[Event.save cp ((w.saves.head?.getD none).isNone)], trySave_events w cp, ?_⟩
  intro e he cp' b heq
  rw [List.mem_singleton] at he
  rw [he] at heq
  injection heq with h1 h2
  rw [← h1]
  exact h

theorem saveOrThrow_savesOk {P : ApplyCheckpoint → Prop} (w : W)
    (checkpointPath : String) {cp : ApplyCheckpoint} (h : P cp) :
    SavesOk P w (saveApplyCheckpointOrThrow w checkpointPath cp).2 := by
  rw [saveOrThrow_w]
  exact trySave_savesOk w h

theorem msPrefixB_append_pair :
    ∀ {a : List AppliedMilestone} {c : List MilestonePlan}
      {b : List AppliedMilestone} {r : List MilestonePlan},
      msPairB a c = true → msPrefixB b r = true → msPrefixB (a ++ b) (c ++ r) = true := by
  intro a
  induction a with
  | nil =>
    intro c b r hp hb
    cases c with
    | nil => simpa using hb
    | cons x xs => simp [msPairB] at hp
  | cons am as ih =>
    intro c b r hp hb
    cases c with
    | nil => simp [msPairB] at hp
    | cons pm ps =>
      simp only [msPairB, Bool.and_eq_true] at hp
      simp only [List.cons_append, msPrefixB, Bool.and_eq_true]
      exact ⟨hp.1, ih hp.2 hb⟩

theorem msPairB_snoc {a : List AppliedMilestone} {c : List MilestonePlan}
    {am : AppliedMilestone} {m : MilestonePlan}
    (hp : msPairB a c = true) (ht : am.title = m.title) :
    msPairB (a ++ [am]) (c ++ [m]) = true := by
  induction a generalizing c with
  | nil =>
    cases c with
    | nil => simp [msPairB, ht]
    | cons x xs => simp [msPairB] at hp
  | cons x xs ih =>
    cases c with
    | nil => simp [msPairB] at hp
    | cons pm ps =>
      simp only [msPairB, Bool.and_eq_true] at hp
      simp only [List.cons_append, msPairB, Bool.and_eq_true]
      exact ⟨hp.1, ih hp.2⟩

theorem phPrefixB_append_pair :
    ∀ {a : List AppliedPhase} {c : List PhasePlan}
      {b : List AppliedPhase} {r : List PhasePlan},
      phPairB a c = true → phPrefixB b r = true → phPrefixB (a ++ b) (c ++ r) = true := by
  intro a
  induction a with
  | nil =>
    intro c b r hp hb
    cases c with
    | nil => simpa using hb
    | cons x xs => simp [phPairB] at hp
  | cons ap as ih =>
    intro c b r hp hb
    cases c with
    | nil => simp [phPairB] at hp
    | cons pp ps =>
      simp only [phPairB, Bool.and_eq_true] at hp
      simp only [List.cons_append, phPrefixB, Bool.and_eq_true]
      exact ⟨⟨hp.1.1, hp.1.2⟩, ih hp.2 hb⟩

theorem phPairB_snoc {a : List AppliedPhase} {c : List PhasePlan}
    {ap : AppliedPhase} {pp : PhasePlan}
    (hp : phPairB a c = true) (ht : ap.title = pp.title)
    (hm : msPrefixB ap.milestones pp.milestones = true) :
    phPairB (a ++ [ap]) (c ++ [pp]) = true := by
  induction a generalizing c with
  | nil =>
    cases c with
    | nil => simp [phPairB, ht, hm]
    | cons x xs => simp [phPairB] at hp
  | cons x xs ih =>
    cases c with
    | nil => simp [phPairB] at hp
    | cons pc ps =>
      simp only [phPairB, Bool.and_eq_true] at hp
      simp only [List.cons_append, phPairB, Bool.and_eq_true]
      exact ⟨hp.1, ih hp.2⟩

theorem msValsB_append {wv : Bool} {a b : List AppliedMilestone} :
    msValsB wv (a ++ b) = (msValsB wv a && msValsB wv b) := by
  simp [msValsB, List.all_append]

theorem phValsB_append {wv : Bool} {a b : List AppliedPhase} :
    phValsB wv (a ++ b) = (phValsB wv a && phValsB wv b) := by
  simp [phValsB, List.all_append]

theorem msPairB_prefix {a : List AppliedMilestone} {c : List MilestonePlan}
    {r : List MilestonePlan} (hp : msPairB a c = true) :
    msPrefixB a (c ++ r) = true := by
  have h := msPrefixB_append_pair (b := []) (r := r) hp (by cases r <;> rfl)
  simpa using h

theorem phPairB_prefix {a : List AppliedPhase} {c : List PhasePlan}
    {r : List PhasePlan} (hp : phPairB a c = true) :
    phPrefixB a (c ++ r) = true := by
  have h := phPrefixB_append_pair (b := []) (r := r) hp (by cases r <;> rfl)
  simpa using h

theorem applyMilestones_savesInv (ctx : RunCtx) (base : ApplyCheckpoint)
    (done : List AppliedPhase) (pp : PhasePlan) (P : ApplyCheckpoint → Prop)
    (tT tI : String) (tD : Option String)
    (hP : ∀ ams, msPrefixB ams pp.milestones = true →
      msValsB ctx.withValidation ams = true →
      P (snapCp base done { title := tT, id := tI, dependsOn := tD, milestones := ams })) :
    ∀ (ms : List MilestonePlan) (consumed : List MilestonePlan)
      (curMs : List AppliedMilestone) (w : W),
      pp.milestones = consumed ++ ms →
      msPairB curMs consumed = true →
      msValsB ctx.withValidation curMs = true →
      SavesOk P w (applyMilestones ctx base done
        { title := tT, id := tI, dependsOn := tD, milestones := curMs } ms w).2.2 ∧
      (applyMilestones ctx base done
        { title := tT, id := tI, dependsOn := tD, milestones := curMs } ms w).2.1.title = tT ∧
      msPrefixB (applyMilestones ctx base done
        { title := tT, id := tI, dependsOn := tD, milestones := curMs } ms w).2.1.milestones
        pp.milestones = true ∧
      msValsB ctx.withValidation (applyMilestones ctx base done
        { title := tT, id := tI, dependsOn := tD, milestones := curMs } ms w).2.1.milestones
        = true := by
  intro ms
  induction ms with
  | nil =>
    intro consumed curMs w hplan hpair hvals
    unfold applyMilestones
    refine ⟨savesOk_refl P w, rfl, ?_, hvals⟩
    rw [hplan]
    exact msPairB_prefix hpair
  | cons m rest ih =>
    intro consumed curMs w hplan hpair hvals
    have hpre0 : msPrefixB curMs pp.milestones = true := by
      rw [hplan]; exact msPairB_prefix hpair
    unfold applyMilestones
    rcases hr : runGrnswJson ctx.env ctx.inv
      (milestoneCallArgs m.title tI ctx.priority) ctx.runOptions w with ⟨rr, w1⟩
    have hx1 : SavesOk P w w1 := by
      have h0 := runGrnswJson_savesOk ctx.env ctx.inv
        (milestoneCallArgs m.title tI ctx.priority) ctx.runOptions w P
      rwa [hr] at h0
    cases rr with
    | error e => exact ⟨hx1, rfl, hpre0, hvals⟩
    | ok payload =>
      dsimp only
      cases hf : readStringField payload "created_id"
          ("missing milestone id for " ++ m.title) with
      | error e => exact ⟨hx1, rfl, hpre0, hvals⟩
      | ok milestoneId =>
        dsimp only
        have hplan' : pp.milestones = (consumed ++ [m]) ++ rest := by
          rw [hplan]; simp
        by_cases hwv : ctx.withValidation = true
        · rw [if_pos hwv]
          rcases hv : runGrnswJson ctx.env ctx.inv
            (validationCallArgs m.title milestoneId ctx.reviewer ctx.priority
              m.acceptance) ctx.runOptions w1 with ⟨rv, wv1⟩
          have hx2 : SavesOk P w wv1 := by
            have h0 := runGrnswJson_savesOk ctx.env ctx.inv
              (validationCallArgs m.title milestoneId ctx.reviewer ctx.priority
                m.acceptance) ctx.runOptions w1 P
            rw [hv] at h0
            exact savesOk_trans hx1 h0
          cases rv with
          | error e => exact ⟨hx2, rfl, hpre0, hvals⟩
          | ok vpayload =>
            dsimp only
            cases hf2 : readStringField vpayload "created_id"
                ("missing validation id for " ++ m.title) with
            | error e => exact ⟨hx2, rfl, hpre0, hvals⟩
            | ok vid =>
              dsimp only
              have hok : okValB ctx.withValidation
                  { title := m.title, id := milestoneId,
                    validationId := some vid } = true := by
                simp [okValB, hwv]
              have hpair' : msPairB (curMs ++
                  [{ title := m.title, id := milestoneId, validationId := some vid }])
                  (consumed ++ [m]) = true := msPairB_snoc hpair rfl
              have hpre' : msPrefixB (curMs ++
                  [{ title := m.title, id := milestoneId, validationId := some vid }])
                  pp.milestones = true := by
                rw [hplan']; exact msPairB_prefix hpair'
              have hvals' : msValsB ctx.withValidation (curMs ++
                  [{ title := m.title, id := milestoneId, validationId := some vid }])
                  = true := by
                rw [msValsB_append, hvals]
                simp [msValsB, hok]
              rcases hs : saveApplyCheckpointOrThrow wv1 ctx.checkpointPath _
                with ⟨rs, w2⟩
              have hxs : SavesOk P wv1 w2 := by
                have h0 := saveOrThrow_savesOk wv1 ctx.checkpointPath
                  (hP _ hpre' hvals')
                rwa [hs] at h0
              cases rs with
              | error e => exact ⟨savesOk_trans hx2 hxs, rfl, hpre', hvals'⟩
              | ok u =>
                dsimp only
                obtain ⟨hS, hT, hPre, hVals⟩ := ih (consumed ++ [m]) _ w2 hplan'
                  hpair' hvals'
                exact ⟨savesOk_trans hx2 (savesOk_trans hxs hS), hT, hPre, hVals⟩
        · rw [if_neg hwv]
          dsimp only
          have hok : okValB ctx.withValidation
              { title := m.title, id := milestoneId, validationId := none } = true := by
            simp [okValB]
          have hpair' : msPairB (curMs ++
              [{ title := m.title, id := milestoneId, validationId := none }])
              (consumed ++ [m]) = true := msPairB_snoc hpair rfl
          have hpre' : msPrefixB (curMs ++
              [{ title := m.title, id := milestoneId, validationId := none }])
              pp.milestones = true := by
            rw [hplan']; exact msPairB_prefix hpair'
          have hvals' : msValsB ctx.withValidation (curMs ++
              [{ title := m.title, id := milestoneId, validationId := none }]) = true := by
            rw [msValsB_append, hvals]
            simp [msValsB, hok]
          rcases hs : saveApplyCheckpointOrThrow w1 ctx.checkpointPath _ with ⟨rs, w2⟩
          have hxs : SavesOk P w1 w2 := by
            have h0 := saveOrThrow_savesOk w1 ctx.checkpointPath
              (hP _ hpre' hvals')
            rwa [hs] at h0
          cases rs with
          | error e => exact ⟨savesOk_trans hx1 hxs, rfl, hpre', hvals'⟩
          | ok u =>
            dsimp only
            obtain ⟨hS, hT, hPre, hVals⟩ := ih (consumed ++ [m]) _ w2 hplan' hpair' hvals'
            exact ⟨savesOk_trans hx1 (savesOk_trans hxs hS), hT, hPre, hVals⟩

theorem applyPhases_savesInv (ctx : RunCtx) (base : ApplyCheckpoint) (epicId : String)
    (plan : SpecPlan) (P : ApplyCheckpoint → Prop)
    (hP : ∀ phases, phPrefixB phases plan.phases = true →
      phValsB ctx.withValidation phases = true → P (withPhases base phases)) :
    ∀ (phs : List PhasePlan) (donePlans : List PhasePlan) (done : List AppliedPhase)
      (prev : Option String) (w : W),
      plan.phases = donePlans ++ phs →
      phPairB done donePlans = true →
      phValsB ctx.withValidation done = true →
      SavesOk P w (applyPhases ctx base epicId done prev phs w).2.2 ∧
      phPrefixB (applyPhases ctx base epicId done prev phs w).2.1 plan.phases = true ∧
      phValsB ctx.withValidation (applyPhases ctx base epicId done prev phs w).2.1 = true := by
  intro phs
  induction phs with
  | nil =>
    intro donePlans done prev w hplan hpair hvals
    unfold applyPhases
    exact ⟨savesOk_refl P w, by rw [hplan]; exact phPairB_prefix hpair, hvals⟩
  | cons ph rest ih =>
    intro donePlans done prev w hplan hpair hvals
    have hpre0 : phPrefixB done plan.phases = true := by
      rw [hplan]; exact phPairB_prefix hpair
    have hplan' : plan.phases = (donePlans ++ [ph]) ++ rest := by
      rw [hplan]; simp
    unfold applyPhases
    rcases hr : runGrnswJson ctx.env ctx.inv
      (phaseCallArgs ph.title epicId ctx.priority prev) ctx.runOptions w with ⟨rr, w1⟩
    have hx1 : SavesOk P w w1 := by
      have h0 := runGrnswJson_savesOk ctx.env ctx.inv
        (phaseCallArgs ph.title epicId ctx.priority prev) ctx.runOptions w P
      rwa [hr] at h0
    cases rr with
    | error e => exact ⟨hx1, hpre0, hvals⟩
    | ok payload =>
      dsimp only
      cases hf : readStringField payload "created_id"
          ("missing phase id for " ++ ph.title) with
      | error e => exact ⟨hx1, hpre0, hvals⟩
      | ok phaseId =>
        dsimp only
        have hPms : ∀ ams, msPrefixB ams ph.milestones = true →
            msValsB ctx.withValidation ams = true →
            P (snapCp base done { title := ph.title, id := phaseId, dependsOn := prev, milestones := ams }) := by
          intro ams hamsPre hamsVals
          have hpairX : phPairB (done ++
              [{ title := ph.title, id := phaseId, dependsOn := prev, milestones := ams }])
              (donePlans ++ [ph]) = true := phPairB_snoc hpair rfl hamsPre
          have hpreX : phPrefixB (done ++
              [{ title := ph.title, id := phaseId, dependsOn := prev, milestones := ams }])
              plan.phases = true := by
            rw [hplan']; exact phPairB_prefix hpairX
          have hvalsX : phValsB ctx.withValidation (done ++
              [{ title := ph.title, id := phaseId, dependsOn := prev, milestones := ams }])
              = true := by
            rw [phValsB_append, hvals]
            simp [phValsB, hamsVals]
          exact hP _ hpreX hvalsX
        have hpair1 : phPairB (done ++
            [{ title := ph.title, id := phaseId, dependsOn := prev, milestones := [] }])
            (donePlans ++ [ph]) = true := phPairB_snoc hpair rfl rfl
        have hpre1 : phPrefixB (done ++
            [{ title := ph.title, id := phaseId, dependsOn := prev, milestones := [] }])
            plan.phases = true := by
          rw [hplan']; exact phPairB_prefix hpair1
        have hvals1 : phValsB ctx.withValidation (done ++
            [{ title := ph.title, id := phaseId, dependsOn := prev, milestones := [] }])
            = true := by
          rw [phValsB_append, hvals]
          simp [phValsB, msValsB]
        rcases hs : saveApplyCheckpointOrThrow w1 ctx.checkpointPath
          (snapCp base done
            { title := ph.title, id := phaseId, dependsOn := prev, milestones := [] })
          with ⟨rs, w2⟩
        have hxs : SavesOk P w1 w2 := by
          have h0 := saveOrThrow_savesOk w1 ctx.checkpointPath (hPms [] rfl rfl)
          rwa [hs] at h0
        cases rs with
        | error e => exact ⟨savesOk_trans hx1 hxs, hpre1, hvals1⟩
        | ok u =>
          dsimp only
          obtain ⟨hSm, hTm, hPrem, hValsm⟩ := applyMilestones_savesInv ctx base done
            ph P ph.title phaseId prev hPms ph.milestones [] [] w2 (by simp) rfl rfl
          rcases hm : applyMilestones ctx base done
            { title := ph.title, id := phaseId, dependsOn := prev, milestones := [] }
            ph.milestones w2 with ⟨rm, curA, w3⟩
          rw [hm] at hSm hTm hPrem hValsm
          have hpairA : phPairB (done ++ [curA]) (donePlans ++ [ph]) = true :=
            phPairB_snoc hpair hTm hPrem
          have hpreA : phPrefixB (done ++ [curA]) plan.phases = true := by
            rw [hplan']; exact phPairB_prefix hpairA
          have hvalsA : phValsB ctx.withValidation (done ++ [curA]) = true := by
            rw [phValsB_append, hvals]
            simp [phValsB, hValsm]
          cases rm with
          | error e => exact ⟨savesOk_trans hx1 (savesOk_trans hxs hSm), hpreA, hvalsA⟩
          | ok u2 =>
            dsimp only
            obtain ⟨hS, hPre, hVals⟩ := ih (donePlans ++ [ph]) (done ++ [curA])
              (some phaseId) w3 hplan' hpairA hvalsA
            exact ⟨savesOk_trans hx1 (savesOk_trans hxs (savesOk_trans hSm hS)),
              hPre, hVals⟩

theorem applyPlanBody_savesInv (ctx : RunCtx) (plan : SpecPlan)
    (cp0 : ApplyCheckpoint) (w : W)
    (h0 : cpSaveOkB plan ctx.withValidation cp0 = true) :
    SavesOk (fun cp => cpSaveOkB plan ctx.withValidation cp = true) w
      (applyPlanBody ctx plan cp0 w).2.2 ∧
    cpSaveOkB plan ctx.withValidation (applyPlanBody ctx plan cp0 w).2.1 = true := by
  have h0' := h0
  simp only [cpSaveOkB, Bool.and_eq_true, decide_eq_true_eq] at h0'
  obtain ⟨⟨hspec, hpre⟩, hvals⟩ := h0'
  unfold applyPlanBody
  rcases hr : runGrnswJson ctx.env ctx.inv (epicCallArgs plan ctx.priority)
    ctx.runOptions w with ⟨rr, w1⟩
  have hx1 : SavesOk (fun cp => cpSaveOkB plan ctx.withValidation cp = true) w w1 := by
    have h1 := runGrnswJson_savesOk ctx.env ctx.inv (epicCallArgs plan ctx.priority)
      ctx.runOptions w (fun cp => cpSaveOkB plan ctx.withValidation cp = true)
    rwa [hr] at h1
  cases rr with
  | error e => exact ⟨hx1, h0⟩
  | ok payload =>
    dsimp only
    cases hf : readStringField payload "created_id"
        "missing epic id from grnsw output" with
    | error e => exact ⟨hx1, h0⟩
    | ok epicId =>
      dsimp only
      have h1 : cpSaveOkB plan ctx.withValidation
          { cp0 with applied := { cp0.applied with epicId := some epicId } } = true := by
        simp only [cpSaveOkB, Bool.and_eq_true, decide_eq_true_eq]
        exact ⟨⟨hspec, hpre⟩, hvals⟩
      rcases hs : saveApplyCheckpointOrThrow w1 ctx.checkpointPath
        { cp0 with applied := { cp0.applied with epicId := some epicId } }
        with ⟨rs, w2⟩
      have hxs : SavesOk (fun cp => cpSaveOkB plan ctx.withValidation cp = true)
          w1 w2 := by
        have hh := saveOrThrow_savesOk (P := fun cp =>
          cpSaveOkB plan ctx.withValidation cp = true) w1 ctx.checkpointPath h1
        rwa [hs] at hh
      cases rs with
      | error e => exact ⟨savesOk_trans hx1 hxs, h1⟩
      | ok u =>
        dsimp only
        have hP : ∀ phases, phPrefixB phases plan.phases = true →
            phValsB ctx.withValidation phases = true →
            cpSaveOkB plan ctx.withValidation
              (withPhases { cp0 with applied := { cp0.applied with epicId := some epicId } } phases) = true := by
          intro phases hp hv
          simp only [cpSaveOkB, withPhases, Bool.and_eq_true, decide_eq_true_eq]
          exact ⟨⟨hspec, hp⟩, hv⟩
        obtain ⟨hS, hPre, hVals⟩ := applyPhases_savesInv ctx
          { cp0 with applied := { cp0.applied with epicId := some epicId } } epicId
          plan (fun cp => cpSaveOkB plan ctx.withValidation cp = true) hP
          plan.phases [] [] none w2 (by simp) rfl rfl
        rcases hp : applyPhases ctx
          { cp0 with applied := { cp0.applied with epicId := some epicId } } epicId
          [] none plan.phases w2 with ⟨rp, phases, w3⟩
        rw [hp] at hS hPre hVals
        have hDone : cpSaveOkB plan ctx.withValidation
            (withPhases { cp0 with applied := { cp0.applied with epicId := some epicId } } phases) = true := by
          simp only [cpSaveOkB, withPhases, Bool.and_eq_true, decide_eq_true_eq]
          exact ⟨⟨hspec, hPre⟩, hVals⟩
        cases rp with
        | error e => exact ⟨savesOk_trans hx1 (savesOk_trans hxs hS), hDone⟩
        | ok u2 =>
          dsimp only
          rcases ht : trySaveApplyCheckpoint w3 _ with ⟨o, w4⟩
          have hxt : SavesOk (fun cp => cpSaveOkB plan ctx.withValidation cp = true)
              w3 w4 := by
            have hh := @trySave_savesOk (fun cp =>
              cpSaveOkB plan ctx.withValidation cp = true) w3
              { withPhases { cp0 with applied := { cp0.applied with epicId := some epicId } } phases with status := CheckpointStatus.completed, error := none }
              hDone
            rwa [ht] at hh
          exact ⟨savesOk_trans hx1 (savesOk_trans hxs (savesOk_trans hS hxt)), hDone⟩

theorem resumeValidationStep_savesInv (ctx : RunCtx) (base : ApplyCheckpoint)
    (done pend : List AppliedPhase) (curT curId : String) (curDep : Option String)
    (pp : PhasePlan) (P : ApplyCheckpoint → Prop)
    (hSnapP : ∀ ams, msPrefixB ams pp.milestones = true →
      msValsB ctx.withValidation ams = true →
      P (resumeSnap base done
        { title := curT, id := curId, dependsOn := curDep, milestones := ams } pend))
    (consumed : List MilestonePlan) (pm : MilestonePlan) (restPlans : List MilestonePlan)
    (mdone mtail : List AppliedMilestone) (am : AppliedMilestone) (w : W)
    (hplan : pp.milestones = consumed ++ pm :: restPlans)
    (hpair : msPairB mdone consumed = true)
    (ht : am.title = pm.title)
    (hmdv : msValsB ctx.withValidation mdone = true)
    (hamv : okValB ctx.withValidation am = true)
    (hmtp : msPrefixB mtail restPlans = true)
    (hmtv : msValsB ctx.withValidation mtail = true) :
    SavesOk P w (resumeValidationStep ctx base done pend curT curId curDep mdone
      mtail pm am w).2.2 ∧
    (resumeValidationStep ctx base done pend curT curId curDep mdone
      mtail pm am w).2.1.title = am.title ∧
    okValB ctx.withValidation (resumeValidationStep ctx base done pend curT curId
      curDep mdone mtail pm am w).2.1 = true := by
  unfold resumeValidationStep
  split
  case isTrue hcond =>
    rcases hr : runGrnswJson ctx.env ctx.inv
      (validationCallArgs pm.title am.id ctx.reviewer ctx.priority pm.acceptance)
      ctx.runOptions w with ⟨rv, w1⟩
    have hx1 : SavesOk P w w1 := by
      have h0 := runGrnswJson_savesOk ctx.env ctx.inv
        (validationCallArgs pm.title am.id ctx.reviewer ctx.priority pm.acceptance)
        ctx.runOptions w P
      rwa [hr] at h0
    cases rv with
    | error e => exact ⟨hx1, rfl, hamv⟩
    | ok payload =>
      dsimp only
      cases hf : readStringField payload "created_id"
          ("missing validation id for " ++ pm.title) with
      | error e => exact ⟨hx1, rfl, hamv⟩
      | ok vid =>
        dsimp only
        have hok' : okValB ctx.withValidation { am with validationId := some vid }
            = true := by
          simp [okValB, hcond.1]
        have hpair' : msPairB (mdone ++ [{ am with validationId := some vid }])
            (consumed ++ [pm]) = true := msPairB_snoc hpair ht
        have hpre' : msPrefixB (mdone ++ [{ am with validationId := some vid }] ++ mtail)
            pp.milestones = true := by
          rw [hplan, show consumed ++ pm :: restPlans = (consumed ++ [pm]) ++ restPlans
            from by simp]
          exact msPrefixB_append_pair hpair' hmtp
        have hvals' : msValsB ctx.withValidation
            (mdone ++ [{ am with validationId := some vid }] ++ mtail) = true := by
          rw [msValsB_append, msValsB_append, hmdv, hmtv]
          simp [msValsB, hok']
        rcases hs : saveApplyCheckpointOrThrow w1 ctx.checkpointPath _ with ⟨rs, w2⟩
        have hxs : SavesOk P w1 w2 := by
          have h0 := saveOrThrow_savesOk (P := P) w1 ctx.checkpointPath
            (hSnapP _ hpre' hvals')
          rwa [hs] at h0
        cases rs with
        | error e => exact ⟨savesOk_trans hx1 hxs, rfl, hok'⟩
        | ok u => exact ⟨savesOk_trans hx1 hxs, rfl, hok'⟩
  case isFalse hcond =>
    exact ⟨savesOk_refl P w, rfl, hamv⟩

theorem resumeMilestones_savesInv (ctx : RunCtx) (base : ApplyCheckpoint)
    (done pend : List AppliedPhase) (curT curId : String) (curDep : Option String)
    (pp : PhasePlan) (P : ApplyCheckpoint → Prop)
    (hSnapP : ∀ ams, msPrefixB ams pp.milestones = true →
      msValsB ctx.withValidation ams = true →
      P (resumeSnap base done
        { title := curT, id := curId, dependsOn := curDep, milestones := ams } pend)) :
    ∀ (planMs : List MilestonePlan) (consumed : List MilestonePlan)
      (mdone mpend : List AppliedMilestone) (w : W),
      pp.milestones = consumed ++ planMs →
      msPairB mdone consumed = true →
      msPrefixB mpend planMs = true →
      msValsB ctx.withValidation mdone = true →
      msValsB ctx.withValidation mpend = true →
      SavesOk P w (resumeMilestones ctx base done pend curT curId curDep mdone
        mpend planMs w).2.2 ∧
      msPrefixB (resumeMilestones ctx base done pend curT curId curDep mdone
        mpend planMs w).2.1 pp.milestones = true ∧
      msValsB ctx.withValidation (resumeMilestones ctx base done pend curT curId
        curDep mdone mpend planMs w).2.1 = true := by
  intro planMs
  induction planMs with
  | nil =>
    intro consumed mdone mpend w hplan hpair hmp hmdv hmpv
    cases mpend with
    | cons am mtail => simp [msPrefixB] at hmp
    | nil =>
      unfold resumeMilestones
      refine ⟨savesOk_refl P w, ?_, ?_⟩
      · rw [hplan]
        simpa using msPairB_prefix (r := []) hpair
      · rw [msValsB_append, hmdv]
        rfl
  | cons pm prest ih =>
    intro consumed mdone mpend w hplan hpair hmp hmdv hmpv
    have hplan' : pp.milestones = (consumed ++ [pm]) ++ prest := by
      rw [hplan]; simp
    cases mpend with
    | cons am mtail =>
      simp only [msPrefixB, Bool.and_eq_true, decide_eq_true_eq] at hmp
      have hamv : okValB ctx.withValidation am = true := by
        rw [msValsB] at hmpv
        simp only [List.all_cons, Bool.and_eq_true] at hmpv
        exact hmpv.1
      have hmtv : msValsB ctx.withValidation mtail = true := by
        rw [msValsB] at hmpv
        simp only [List.all_cons, Bool.and_eq_true] at hmpv
        exact hmpv.2
      unfold resumeMilestones
      split
      · refine ⟨savesOk_refl P w, ?_, ?_⟩
        · rw [hplan]
          exact msPrefixB_append_pair hpair (by simp [msPrefixB, hmp.1, hmp.2])
        · rw [msValsB_append, hmdv, hmpv]
          rfl
      · obtain ⟨hS1, hT1, hok1⟩ := resumeValidationStep_savesInv ctx base done pend
          curT curId curDep pp P hSnapP consumed pm prest mdone mtail am w hplan
          hpair hmp.1 hmdv hamv hmp.2 hmtv
        rcases hv : resumeValidationStep ctx base done pend curT curId curDep mdone
          mtail pm am w with ⟨rv, am', w1⟩
        rw [hv] at hS1 hT1 hok1
        dsimp only at hS1 hT1 hok1
        cases rv with
        | error e =>
          refine ⟨hS1, ?_, ?_⟩
          · rw [hplan]
            exact msPrefixB_append_pair hpair
              (by simp [msPrefixB, hT1.trans hmp.1, hmp.2])
          · rw [msValsB_append, hmdv]
            simpa [msValsB, hok1] using hmtv
        | ok u =>
          dsimp only
          obtain ⟨hS, hPre, hVals⟩ := ih (consumed ++ [pm]) (mdone ++ [am']) mtail w1
            hplan' (msPairB_snoc hpair (hT1.trans hmp.1)) hmp.2
            (by rw [msValsB_append, hmdv]; simp [msValsB, hok1]) hmtv
          exact ⟨savesOk_trans hS1 hS, hPre, hVals⟩
    | nil =>
      unfold resumeMilestones
      rcases hr : runGrnswJson ctx.env ctx.inv
        (milestoneCallArgs pm.title curId ctx.priority) ctx.runOptions w with ⟨rr, w1⟩
      have hx1 : SavesOk P w w1 := by
        have h0 := runGrnswJson_savesOk ctx.env ctx.inv
          (milestoneCallArgs pm.title curId ctx.priority) ctx.runOptions w P
        rwa [hr] at h0
      have hpre0 : msPrefixB mdone pp.milestones = true := by
        rw [hplan]; exact msPairB_prefix hpair
      cases rr with
      | error e => exact ⟨hx1, hpre0, hmdv⟩
      | ok payload =>
        dsimp only
        cases hf : readStringField payload "created_id"
            ("missing milestone id for " ++ pm.title) with
        | error e => exact ⟨hx1, hpre0, hmdv⟩
        | ok mid =>
          dsimp only
          have hok0 : okValB ctx.withValidation
              { title := pm.title, id := mid, validationId := none } = true := by
            simp [okValB]
          have hpair1 : msPairB (mdone ++
              [{ title := pm.title, id := mid, validationId := none }])
              (consumed ++ [pm]) = true := msPairB_snoc hpair rfl
          have hpre1 : msPrefixB (mdone ++
              [{ title := pm.title, id := mid, validationId := none }])
              pp.milestones = true := by
            rw [hplan']; exact msPairB_prefix hpair1
          have hvals1 : msValsB ctx.withValidation (mdone ++
              [{ title := pm.title, id := mid, validationId := none }]) = true := by
            rw [msValsB_append, hmdv]
            simp [msValsB, hok0]
          rcases hs : saveApplyCheckpointOrThrow w1 ctx.checkpointPath _ with ⟨rs, w2⟩
          have hxs : SavesOk P w1 w2 := by
            have h0 := saveOrThrow_savesOk (P := P) w1 ctx.checkpointPath
              (hSnapP _ hpre1 hvals1)
            rwa [hs] at h0
          cases rs with
          | error e => exact ⟨savesOk_trans hx1 hxs, hpre1, hvals1⟩
          | ok u =>
            dsimp only
            obtain ⟨hS2, hT2, hok2⟩ := resumeValidationStep_savesInv ctx base done
              pend curT curId curDep pp P hSnapP consumed pm prest mdone []
              { title := pm.title, id := mid, validationId := none } w2 hplan hpair
              rfl hmdv hok0 rfl rfl
            rcases hvs : resumeValidationStep ctx base done pend curT curId curDep
              mdone [] pm { title := pm.title, id := mid, validationId := none } w2
              with ⟨rv, am', w3⟩
            rw [hvs] at hS2 hT2 hok2
            dsimp only at hS2 hT2 hok2
            cases rv with
            | error e =>
              refine ⟨savesOk_trans hx1 (savesOk_trans hxs hS2), ?_, ?_⟩
              · rw [hplan']
                exact msPairB_prefix (msPairB_snoc hpair hT2)
              · rw [msValsB_append, hmdv]
                simp [msValsB, hok2]
            | ok u2 =>
              dsimp only
              obtain ⟨hS, hPre, hVals⟩ := ih (consumed ++ [pm]) (mdone ++ [am']) []
                w3 hplan' (msPairB_snoc hpair hT2) rfl
                (by rw [msValsB_append, hmdv]; simp [msValsB, hok2]) rfl
              exact ⟨savesOk_trans hx1 (savesOk_trans hxs (savesOk_trans hS2 hS)),
                hPre, hVals⟩

theorem resumePhases_savesInv (ctx : RunCtx) (base : ApplyCheckpoint) (epicId : String)
    (plan : SpecPlan) (P : ApplyCheckpoint → Prop)
    (hP : ∀ phases, phPrefixB phases plan.phases = true →
      phValsB ctx.withValidation phases = true → P (withPhases base phases)) :
    ∀ (planPhs : List PhasePlan) (donePlans : List PhasePlan)
      (done pend : List AppliedPhase) (prev : Option String) (w : W),
      plan.phases = donePlans ++ planPhs →
      phPairB done donePlans = true →
      phPrefixB pend planPhs = true →
      phValsB ctx.withValidation done = true →
      phValsB ctx.withValidation pend = true →
      SavesOk P w (resumePhases ctx base epicId done pend prev planPhs w).2.2 ∧
      phPrefixB (resumePhases ctx base epicId done pend prev planPhs w).2.1
        plan.phases = true ∧
      phValsB ctx.withValidation
        (resumePhases ctx base epicId done pend prev planPhs w).2.1 = true := by
  intro planPhs
  induction planPhs with
  | nil =>
    intro donePlans done pend prev w hplan hpair hpend hdv hpv
    cases pend with
    | cons ap ptail => simp [phPrefixB] at hpend
    | nil =>
      unfold resumePhases
      refine ⟨savesOk_refl P w, ?_, hdv⟩
      rw [hplan]
      simpa using phPairB_prefix (r := []) hpair
  | cons pp prest ih =>
    intro donePlans done pend prev w hplan hpair hpend hdv hpv
    have hplan' : plan.phases = (donePlans ++ [pp]) ++ prest := by
      rw [hplan]; simp
    cases pend with
    | cons ap ptail =>
      simp only [phPrefixB, Bool.and_eq_true, decide_eq_true_eq] at hpend
      have hapv : msValsB ctx.withValidation ap.milestones = true := by
        rw [phValsB] at hpv
        simp only [List.all_cons, Bool.and_eq_true] at hpv
        exact hpv.1
      have hptv : phValsB ctx.withValidation ptail = true := by
        rw [phValsB] at hpv
        simp only [List.all_cons, Bool.and_eq_true] at hpv
        exact hpv.2
      unfold resumePhases
      split
      · refine ⟨savesOk_refl P w, ?_, ?_⟩
        · rw [hplan]
          exact phPrefixB_append_pair hpair
            (by simp [phPrefixB, hpend.1.1, hpend.1.2, hpend.2])
        · rw [phValsB_append, hdv, hpv]
          rfl
      · have hSnapP : ∀ ams, msPrefixB ams pp.milestones = true →
            msValsB ctx.withValidation ams = true →
            P (resumeSnap base done
              { title := ap.title, id := ap.id, dependsOn := ap.dependsOn, milestones := ams } ptail) := by
          intro ams hamsPre hamsVals
          have hpairX : phPairB (done ++
              [{ title := ap.title, id := ap.id, dependsOn := ap.dependsOn, milestones := ams }])
              (donePlans ++ [pp]) = true := phPairB_snoc hpair hpend.1.1 hamsPre
          have hpreX : phPrefixB ((done ++
              [{ title := ap.title, id := ap.id, dependsOn := ap.dependsOn, milestones := ams }]) ++ ptail)
              plan.phases = true := by
            rw [hplan']
            exact phPrefixB_append_pair hpairX hpend.2
          have hvalsX : phValsB ctx.withValidation ((done ++
              [{ title := ap.title, id := ap.id, dependsOn := ap.dependsOn, milestones := ams }]) ++ ptail)
              = true := by
            rw [phValsB_append, phValsB_append, hdv, hptv]
            simp [phValsB, hamsVals]
          exact hP _ hpreX hvalsX
        obtain ⟨hSm, hPrem, hValsm⟩ := resumeMilestones_savesInv ctx base done ptail
          ap.title ap.id ap.dependsOn pp P hSnapP pp.milestones [] [] ap.milestones w
          (by simp) rfl hpend.1.2 rfl hapv
        rcases hm : resumeMilestones ctx base done ptail ap.title ap.id ap.dependsOn
          [] ap.milestones pp.milestones w with ⟨rm, ms, w1⟩
        rw [hm] at hSm hPrem hValsm
        dsimp only at hSm hPrem hValsm
        have hpairA : phPairB (done ++ [{ ap with milestones := ms }])
            (donePlans ++ [pp]) = true := phPairB_snoc hpair hpend.1.1 hPrem
        have hpreA : phPrefixB (done ++ { ap with milestones := ms } :: ptail)
            plan.phases = true := by
          rw [hplan', show done ++ { ap with milestones := ms } :: ptail =
            (done ++ [{ ap with milestones := ms }]) ++ ptail from by simp]
          exact phPrefixB_append_pair hpairA hpend.2
        have hvalsA : phValsB ctx.withValidation
            (done ++ { ap with milestones := ms } :: ptail) = true := by
          rw [phValsB]
          simp only [List.all_append, List.all_cons, Bool.and_eq_true]
          refine ⟨by rw [phValsB] at hdv; exact hdv, ?_, ?_⟩
          · exact hValsm
          · rw [phValsB] at hptv; exact hptv
        cases rm with
        | error e => exact ⟨hSm, hpreA, hvalsA⟩
        | ok u =>
          dsimp only
          split
          · exact ⟨hSm, hpreA, hvalsA⟩
          · obtain ⟨hS, hPre, hVals⟩ := ih (donePlans ++ [pp])
              (done ++ [{ ap with milestones := ms }]) ptail (some ap.id) w1 hplan'
              hpairA hpend.2
              (by rw [phValsB_append, hdv]; simp [phValsB, hValsm]) hptv
            exact ⟨savesOk_trans hSm hS, hPre, hVals⟩
    | nil =>
      unfold resumePhases
      rcases hr : runGrnswJson ctx.env ctx.inv
        (phaseCallArgs pp.title epicId ctx.priority prev) ctx.runOptions w with ⟨rr, w1⟩
      have hx1 : SavesOk P w w1 := by
        have h0 := runGrnswJson_savesOk ctx.env ctx.inv
          (phaseCallArgs pp.title epicId ctx.priority prev) ctx.runOptions w P
        rwa [hr] at h0
      have hpre0 : phPrefixB done plan.phases = true := by
        rw [hplan]; exact phPairB_prefix hpair
      cases rr with
      | error e => exact ⟨hx1, hpre0, hdv⟩
      | ok payload =>
        dsimp only
        cases hf : readStringField payload "created_id"
            ("missing phase id for " ++ pp.title) with
        | error e => exact ⟨hx1, hpre0, hdv⟩
        | ok pid =>
          dsimp only
          have hSnapP : ∀ ams, msPrefixB ams pp.milestones = true →
              msValsB ctx.withValidation ams = true →
              P (resumeSnap base done
                { title := pp.title, id := pid, dependsOn := prev, milestones := ams } []) := by
            intro ams hamsPre hamsVals
            have hpairX : phPairB (done ++
                [{ title := pp.title, id := pid, dependsOn := prev, milestones := ams }])
                (donePlans ++ [pp]) = true := phPairB_snoc hpair rfl hamsPre
            have hpreX : phPrefixB ((done ++
                [{ title := pp.title, id := pid, dependsOn := prev, milestones := ams }]) ++ [])
                plan.phases = true := by
              rw [hplan']
              exact phPrefixB_append_pair hpairX rfl
            have hvalsX : phValsB ctx.withValidation ((done ++
                [{ title := pp.title, id := pid, dependsOn := prev, milestones := ams }]) ++ [])
                = true := by
              rw [phValsB_append, phValsB_append, hdv]
              simp [phValsB, hamsVals]
            exact hP _ hpreX hvalsX
          have hpair1 : phPairB (done ++
              [{ title := pp.title, id := pid, dependsOn := prev, milestones := [] }])
              (donePlans ++ [pp]) = true := phPairB_snoc hpair rfl rfl
          have hpre1 : phPrefixB (done ++
              [{ title := pp.title, id := pid, dependsOn := prev, milestones := [] }])
              plan.phases = true := by
            rw [hplan']; exact phPairB_prefix hpair1
          have hvals1 : phValsB ctx.withValidation (done ++
              [{ title := pp.title, id := pid, dependsOn := prev, milestones := [] }])
              = true := by
            rw [phValsB_append, hdv]
            simp [phValsB, msValsB]
          rcases hs : saveApplyCheckpointOrThrow w1 ctx.checkpointPath _ with ⟨rs, w2⟩
          have hxs : SavesOk P w1 w2 := by
            have h0 := saveOrThrow_savesOk (P := P) w1 ctx.checkpointPath
              (hSnapP [] rfl rfl)
            rwa [hs] at h0
          cases rs with
          | error e => exact ⟨savesOk_trans hx1 hxs, hpre1, hvals1⟩
          | ok u =>
            dsimp only
            obtain ⟨hSm, hPrem, hValsm⟩ := resumeMilestones_savesInv ctx base done []
              pp.title pid prev pp P hSnapP pp.milestones [] [] [] w2
              (by simp) rfl rfl rfl rfl
            rcases hm : resumeMilestones ctx base done [] pp.title pid prev [] []
              pp.milestones w2 with ⟨rm, ms, w3⟩
            rw [hm] at hSm hPrem hValsm
            dsimp only at hSm hPrem hValsm
            have hpairA : phPairB (done ++
                [{ title := pp.title, id := pid, dependsOn := prev, milestones := ms }])
                (donePlans ++ [pp]) = true := phPairB_snoc hpair rfl hPrem
            have hpreA : phPrefixB (done ++
                [{ title := pp.title, id := pid, dependsOn := prev, milestones := ms }])
                plan.phases = true := by
              rw [hplan']; exact phPairB_prefix hpairA
            have hvalsA : phValsB ctx.withValidation (done ++
                [{ title := pp.title, id := pid, dependsOn := prev, milestones := ms }])
                = true := by
              rw [phValsB_append, hdv]
              simp [phValsB, hValsm]
            cases rm with
            | error e =>
              exact ⟨savesOk_trans hx1 (savesOk_trans hxs hSm), hpreA, hvalsA⟩
            | ok u2 =>
              dsimp only
              split
              · exact ⟨savesOk_trans hx1 (savesOk_trans hxs hSm), hpreA, hvalsA⟩
              · obtain ⟨hS, hPre, hVals⟩ := ih (donePlans ++ [pp])
                  (done ++ [{ title := pp.title, id := pid, dependsOn := prev, milestones := ms }])
                  [] (some pid) w3 hplan' hpairA rfl hvalsA rfl
                exact ⟨savesOk_trans hx1 (savesOk_trans hxs (savesOk_trans hSm hS)),
                  hPre, hVals⟩

theorem resumePlanBody_savesInv (ctx : RunCtx) (plan : SpecPlan)
    (cp1 : ApplyCheckpoint) (w : W)
    (h1 : cpSaveOkB plan ctx.withValidation cp1 = true) :
    SavesOk (fun cp => cpSaveOkB plan ctx.withValidation cp = true) w
      (resumePlanBody ctx plan cp1 w).2.2 ∧
    cpSaveOkB plan ctx.withValidation (resumePlanBody ctx plan cp1 w).2.1 = true := by
  have h1' := h1
  simp only [cpSaveOkB, Bool.and_eq_true, decide_eq_true_eq] at h1'
  obtain ⟨⟨hspec, hpre⟩, hvals⟩ := h1'
  have hTail : ∀ (cp2 : ApplyCheckpoint) (w2 : W),
      cp2.specPath = plan.specPath →
      phPrefixB cp2.applied.phases plan.phases = true →
      phValsB ctx.withValidation cp2.applied.phases = true →
      ∀ eid,
      SavesOk (fun cp => cpSaveOkB plan ctx.withValidation cp = true) w2
        ((match resumePhases ctx cp2 eid [] cp2.applied.phases none plan.phases w2 with
          | (.error e, phases, w) => ((.error e : Except String AppliedPlan),
              withPhases cp2 phases, w)
          | (.ok _, phases, w) =>
            let cpDone := { withPhases cp2 phases with
              status := CheckpointStatus.completed, error := none }
            let (_, w) := trySaveApplyCheckpoint w cpDone
            match toAppliedPlanFromCheckpoint cpDone plan with
            | .error e => (.error e, cpDone, w)
            | .ok applied => (.ok applied, cpDone, w)) :
          Except String AppliedPlan × ApplyCheckpoint × W).2.2 ∧
      cpSaveOkB plan ctx.withValidation
        ((match resumePhases ctx cp2 eid [] cp2.applied.phases none plan.phases w2 with
          | (.error e, phases, w) => ((.error e : Except String AppliedPlan),
              withPhases cp2 phases, w)
          | (.ok _, phases, w) =>
            let cpDone := { withPhases cp2 phases with
              status := CheckpointStatus.completed, error := none }
            let (_, w) := trySaveApplyCheckpoint w cpDone
            match toAppliedPlanFromCheckpoint cpDone plan with
            | .error e => (.error e, cpDone, w)
            | .ok applied => (.ok applied, cpDone, w)) :
          Except String AppliedPlan × ApplyCheckpoint × W).2.1 = true := by
    intro cp2 w2 hspec2 hpre2 hvals2 eid
    have hP : ∀ phases, phPrefixB phases plan.phases = true →
        phValsB ctx.withValidation phases = true →
        cpSaveOkB plan ctx.withValidation (withPhases cp2 phases) = true := by
      intro phases hp hv
      simp only [cpSaveOkB, withPhases, Bool.and_eq_true, decide_eq_true_eq]
      exact ⟨⟨hspec2, hp⟩, hv⟩
    obtain ⟨hS, hPre, hVals⟩ := resumePhases_savesInv ctx cp2 eid plan
      (fun cp => cpSaveOkB plan ctx.withValidation cp = true) hP plan.phases []
      [] cp2.applied.phases none w2 (by simp) rfl hpre2 rfl hvals2
    rcases hp : resumePhases ctx cp2 eid [] cp2.applied.phases none plan.phases w2
      with ⟨rp, phases, w3⟩
    rw [hp] at hS hPre hVals
    dsimp only at hS hPre hVals
    have hDone : cpSaveOkB plan ctx.withValidation (withPhases cp2 phases) = true := by
      simp only [cpSaveOkB, withPhases, Bool.and_eq_true, decide_eq_true_eq]
      exact ⟨⟨hspec2, hPre⟩, hVals⟩
    cases rp with
    | error e => exact ⟨hS, hDone⟩
    | ok u =>
      dsimp only
      rcases ht : trySaveApplyCheckpoint w3 _ with ⟨o, w4⟩
      have hxt : SavesOk (fun cp => cpSaveOkB plan ctx.withValidation cp = true)
          w3 w4 := by
        have hh := @trySave_savesOk (fun cp =>
          cpSaveOkB plan ctx.withValidation cp = true) w3
          { withPhases cp2 phases with status := CheckpointStatus.completed, error := none }
          hDone
        rwa [ht] at hh
      cases hta : toAppliedPlanFromCheckpoint { withPhases cp2 phases with
          status := CheckpointStatus.completed, error := none } plan with
      | error e => exact ⟨savesOk_trans hS hxt, hDone⟩
      | ok applied => exact ⟨savesOk_trans hS hxt, hDone⟩
  unfold resumePlanBody
  cases heid : cp1.applied.epicId with
  | some eid =>
    dsimp only
    exact hTail cp1 w hspec hpre hvals eid
  | none =>
    dsimp only
    rcases hr : runGrnswJson ctx.env ctx.inv (epicCallArgs plan ctx.priority)
      ctx.runOptions w with ⟨rr, w1⟩
    have hx1 : SavesOk (fun cp => cpSaveOkB plan ctx.withValidation cp = true)
        w w1 := by
      have h0 := runGrnswJson_savesOk ctx.env ctx.inv (epicCallArgs plan ctx.priority)
        ctx.runOptions w (fun cp => cpSaveOkB plan ctx.withValidation cp = true)
      rwa [hr] at h0
    cases rr with
    | error e => exact ⟨hx1, h1⟩
    | ok payload =>
      dsimp only
      cases hf : readStringField payload "created_id"
          "missing epic id from grnsw output" with
      | error e => exact ⟨hx1, h1⟩
      | ok eid =>
        dsimp only
        have h2 : cpSaveOkB plan ctx.withValidation
            { cp1 with applied := { cp1.applied with epicId := some eid } } = true := by
          simp only [cpSaveOkB, Bool.and_eq_true, decide_eq_true_eq]
          exact ⟨⟨hspec, hpre⟩, hvals⟩
        rcases hs : saveApplyCheckpointOrThrow w1 ctx.checkpointPath
          { cp1 with applied := { cp1.applied with epicId := some eid } } with ⟨rs, w2⟩
        have hxs : SavesOk (fun cp => cpSaveOkB plan ctx.withValidation cp = true)
            w1 w2 := by
          have hh := saveOrThrow_savesOk (P := fun cp =>
            cpSaveOkB plan ctx.withValidation cp = true) w1 ctx.checkpointPath h2
          rwa [hs] at hh
        cases rs with
        | error e => exact ⟨savesOk_trans hx1 hxs, h2⟩
        | ok u =>
          dsimp only
          obtain ⟨hS, hCp⟩ := hTail
            { cp1 with applied := { cp1.applied with epicId := some eid } } w2
            hspec hpre hvals eid
          exact ⟨savesOk_trans hx1 (savesOk_trans hxs hS), hCp⟩

/-- C2: every checkpoint state written to disk during an apply run — the
initial persist, the epic-id persist, every per-phase and per-milestone
snapshot, the completed final state and the failure finalization — satisfies
the save invariant: it carries the plan's spec path, its phases are a
title-and-order prefix of the plan's phases with each phase's milestones a
title-and-order prefix of the corresponding plan phase's milestones, and
milestone validation ids appear only when the run requested validation.
The same holds for every state written by a resume run whose checkpoint
passed the structural check and whose loaded milestones respect the
validation flag. -/
theorem checkpoint_saves_are_plan_prefixes :
    (∀ (env : GrnswEnv) (inv : GrnswInvocation) (plan : SpecPlan) (args : ParsedArgs)
      (checkpointPath : String) (options : RunGrnswOptions) (w : W),
      SavesOk (fun cp => cpSaveOkB plan args.withValidation cp = true) w
        (applyPlan env inv plan args checkpointPath options w).2.2) ∧
    (∀ (env : GrnswEnv) (inv : GrnswInvocation) (plan : SpecPlan)
      (cp : ApplyCheckpoint) (checkpointPath : String) (options : RunGrnswOptions)
      (w : W) (u : Unit),
      assertCheckpointMatchesPlan cp plan = .ok u →
      phValsB cp.withValidation cp.applied.phases = true →
      SavesOk (fun cp' => cpSaveOkB plan cp.withValidation cp' = true) w
        (resumePlan env inv plan cp checkpointPath options w).2.2) := by
  constructor
  · intro env inv plan args checkpointPath options w
    unfold applyPlan
    dsimp only
    have h0 : cpSaveOkB plan args.withValidation { status := CheckpointStatus.inProgress, specPath := plan.specPath, epicTitle := plan.epicTitle, priority := args.priority, withValidation := args.withValidation, reviewer := (args.reviewer <|> env.specReviewer <|> env.user).getD "reviewer", applied := { epicId := none, phases := [] }, error := none } = true := by
      simp only [cpSaveOkB, Bool.and_eq_true, decide_eq_true_eq]
      refine ⟨⟨?_, ?_⟩, ?_⟩ <;> first
      | exact trivial
      | rfl
    rcases hs : saveApplyCheckpointOrThrow w checkpointPath
      { status := CheckpointStatus.inProgress, specPath := plan.specPath, epicTitle := plan.epicTitle, priority := args.priority, withValidation := args.withValidation, reviewer := (args.reviewer <|> env.specReviewer <|> env.user).getD "reviewer", applied := { epicId := none, phases := [] }, error := none }
      with ⟨rs, w1⟩
    have hxs : SavesOk (fun cp => cpSaveOkB plan args.withValidation cp = true)
        w w1 := by
      have hh := saveOrThrow_savesOk (P := fun cp =>
        cpSaveOkB plan args.withValidation cp = true) w checkpointPath h0
      rwa [hs] at hh
    cases rs with
    | error e => exact hxs
    | ok u =>
      dsimp only
      obtain ⟨hS, hCp⟩ := applyPlanBody_savesInv { env := env, inv := inv, runOptions := options, checkpointPath := checkpointPath, priority := args.priority, withValidation := args.withValidation, reviewer := (args.reviewer <|> env.specReviewer <|> env.user).getD "reviewer" } plan
        { status := CheckpointStatus.inProgress, specPath := plan.specPath, epicTitle := plan.epicTitle, priority := args.priority, withValidation := args.withValidation, reviewer := (args.reviewer <|> env.specReviewer <|> env.user).getD "reviewer", applied := { epicId := none, phases := [] }, error := none }
        w1 h0
      rcases hb : applyPlanBody { env := env, inv := inv, runOptions := options, checkpointPath := checkpointPath, priority := args.priority, withValidation := args.withValidation, reviewer := (args.reviewer <|> env.specReviewer <|> env.user).getD "reviewer" } plan
        { status := CheckpointStatus.inProgress, specPath := plan.specPath, epicTitle := plan.epicTitle, priority := args.priority, withValidation := args.withValidation, reviewer := (args.reviewer <|> env.specReviewer <|> env.user).getD "reviewer", applied := { epicId := none, phases := [] }, error := none }
        w1 with ⟨rb, cpB, wB⟩
      rw [hb] at hS hCp
      dsimp only at hS hCp
      cases rb with
      | ok applied => exact savesOk_trans hxs hS
      | error msg =>
        dsimp only
        rcases ht : trySaveApplyCheckpoint wB
          { cpB with status := CheckpointStatus.failed, error := some msg }
          with ⟨o, wC⟩
        have hxt : SavesOk (fun cp => cpSaveOkB plan args.withValidation cp = true)
            wB wC := by
          have hh := @trySave_savesOk (fun cp =>
            cpSaveOkB plan args.withValidation cp = true) wB
            { cpB with status := CheckpointStatus.failed, error := some msg }
            hCp
          rwa [ht] at hh
        exact savesOk_trans hxs (savesOk_trans hS hxt)
  · intro env inv plan cp checkpointPath options w u hassert hvalsCp
    have hassert' : assertCheckpointMatchesPlan cp plan = .ok () := by
      cases u; exact hassert
    have hcompat := (assertCheckpointMatchesPlan_ok_iff cp plan).mp hassert'
    simp only [checkpointCompatB, Bool.and_eq_true, decide_eq_true_eq] at hcompat
    have h1 : cpSaveOkB plan cp.withValidation
        { cp with status := CheckpointStatus.inProgress, error := none } = true := by
      simp only [cpSaveOkB, Bool.and_eq_true, decide_eq_true_eq]
      exact ⟨⟨hcompat.1.1.1, hcompat.1.2⟩, hvalsCp⟩
    unfold resumePlan
    rw [hassert]
    dsimp only
    rcases hs : saveApplyCheckpointOrThrow w checkpointPath
      { cp with status := CheckpointStatus.inProgress, error := none } with ⟨rs, w1⟩
    have hxs : SavesOk (fun cp' => cpSaveOkB plan cp.withValidation cp' = true)
        w w1 := by
      have hh := saveOrThrow_savesOk (P := fun cp' =>
        cpSaveOkB plan cp.withValidation cp' = true) w checkpointPath h1
      rwa [hs] at hh
    cases rs with
    | error e => exact hxs
    | ok u2 =>
      dsimp only
      obtain ⟨hS, hCp⟩ := resumePlanBody_savesInv { env := env, inv := inv, runOptions := options, checkpointPath := checkpointPath, priority := cp.priority, withValidation := cp.withValidation, reviewer := cp.reviewer } plan
        { cp with status := CheckpointStatus.inProgress, error := none } w1 h1
      rcases hb : resumePlanBody { env := env, inv := inv, runOptions := options, checkpointPath := checkpointPath, priority := cp.priority, withValidation := cp.withValidation, reviewer := cp.reviewer } plan
        { cp with status := CheckpointStatus.inProgress, error := none } w1
        with ⟨rb, cpB, wB⟩
      rw [hb] at hS hCp
      dsimp only at hS hCp
      cases rb with
      | ok applied => exact savesOk_trans hxs hS
      | error msg =>
        dsimp only
        rcases ht : trySaveApplyCheckpoint wB
          { cpB with status := CheckpointStatus.failed, error := some msg }
          with ⟨o, wC⟩
        have hxt : SavesOk (fun cp' => cpSaveOkB plan cp.withValidation cp' = true)
            wB wC := by
          have hh := @trySave_savesOk (fun cp' =>
            cpSaveOkB plan cp.withValidation cp' = true) wB
            { cpB with status := CheckpointStatus.failed, error := some msg }
            hCp
          rwa [ht] at hh
        exact savesOk_trans hxs (savesOk_trans hS hxt)

set_option maxRecDepth 32768 in
/-- Witness for C2 at the concrete C1 apply scenario and the concrete C5
resume scenario. -/
theorem checkpoint_saves_are_plan_prefixes_witness :
    SavesOk (fun cp => cpSaveOkB c1Plan ({} : ParsedArgs).withValidation cp = true)
      c1World (applyPlan {} { command := "grnsw" } c1Plan {} "cp.json" {} c1World).2.2 ∧
    SavesOk (fun cp' => cpSaveOkB c5Plan c5Cp.withValidation cp' = true)
      { execs := [okCreated "PH2"] }
      (resumePlan {} { command := "grnsw" } c5Plan c5Cp "cp.json" {}
        { execs := [okCreated "PH2"] }).2.2 := by
  constructor
  · exact checkpoint_saves_are_plan_prefixes.1 {} { command := "grnsw" } c1Plan {}
      "cp.json" {} c1World
  · exact checkpoint_saves_are_plan_prefixes.2 {} { command := "grnsw" } c5Plan c5Cp
      "cp.json" {} { execs := [okCreated "PH2"] } () rfl (by decide)

end SpecToGrns
